import Mathlib

/-!
Verification of the gradle-flow task-graph editor core against its
specification.  The TypeScript sources under src/ are shallowly embedded:
JavaScript arrays become lists, JS Map/Set (insertion-ordered) become
association lists with update-in-place-or-append semantics, optional/nullable
fields become Option, and the nondeterministic inputs of the code (the wall
clock read by new Date() / Date.now(), the random simulator outcome, the
regular-expression engine and IEEE-float parsing used by two condition
operators that no theorem below ever reaches) are threaded as explicit
parameters.
-/

set_option maxHeartbeats 1000000

/-- Membership-as-Bool for lists of strings, mirroring JS Set.has / Array.includes. -/
def jsHas (l : List String) (x : String) : Bool := l.contains x

/-- JS Set.add: append the element if it is not already present (insertion order kept). -/
def jsSetAdd (l : List String) (x : String) : List String :=
  if l.contains x then l else l ++ [x]

/-- Deduplicate keeping the first occurrence, mirroring the key order of a JS Map/Set
built by repeated insertion. -/
def dedupFirstAux : List String → List String → List String
  | [], _ => []
  | x :: xs, seen =>
      if seen.contains x then dedupFirstAux xs seen
      else x :: dedupFirstAux xs (x :: seen)

/-- Entry point for first-occurrence deduplication. -/
def dedupFirst (l : List String) : List String := dedupFirstAux l []

/-- Lookup in an insertion-ordered association list (JS Map.get). -/
def jsMapGet {β : Type} (l : List (String × β)) (k : String) : Option β :=
  match l.find? (fun p => p.1 = k) with
  | some p => some p.2
  | none => none

/-- JS Map.set: update the value at the first occurrence of the key, else append. -/
def jsMapSet {β : Type} (l : List (String × β)) (k : String) (v : β) : List (String × β) :=
  if l.any (fun p => p.1 = k) then
    l.map (fun p => if p.1 = k then (k, v) else p)
  else l ++ [(k, v)]

/-- Build a JS Map from a pair list by repeated Map.set (duplicate keys: last value wins,
first position kept). -/
def jsMapOfList {β : Type} : List (String × β) → List (String × β)
  | [] => []
  | p :: ps => jsMapSet (jsMapOfList ps) p.1 p.2

/- The above folds from the right only to keep structural recursion simple; the
JS constructor inserts left to right.  We instead use the direct left fold. -/

/-- Build a JS Map left-to-right (new Map(pairs)). -/
def jsMapBuild {β : Type} (ps : List (String × β)) : List (String × β) :=
  ps.foldl (fun m p => jsMapSet m p.1 p.2) []

-- ==========================================================================
-- Data model (src/types/gradle.ts and the type declarations of part_004)
-- ==========================================================================

/-- DependencyType from src/types/gradle.ts. -/
inductive DependencyType where
  | dependsOn
  | mustRunAfter
  | shouldRunAfter
  | finalizedBy
deriving DecidableEq, Repr

/-- GradleTaskType from src/types/gradle.ts (HttpRequest appears in the utils
switch statements and is included for them). -/
inductive GradleTaskType where
  | Exec
  | Copy
  | Delete
  | Zip
  | Jar
  | Test
  | JavaCompile
  | ProcessResources
  | HttpRequest
  | Custom
deriving DecidableEq, Repr

/-- GradleEdgeData from src/types/gradle.ts. -/
structure GradleEdgeData where
  dependencyType : DependencyType
deriving DecidableEq, Repr

/-- GradleEdge (React-Flow edge with optional data payload). -/
structure GradleEdge where
  id : String
  source : String
  target : String
  edgeKind : Option String := none
  data : Option GradleEdgeData := none
deriving DecidableEq, Repr

/-- ConditionSource from part_004. -/
inductive ConditionSource where
  | variable
  | environment
  | property
  | literal
deriving DecidableEq, Repr

/-- ConditionOperator from part_004. -/
inductive ConditionOperator where
  | equals
  | notEquals
  | contains
  | notContains
  | startsWith
  | endsWith
  | matches
  | greaterThan
  | lessThan
  | greaterOrEqual
  | lessOrEqual
  | isEmpty
  | isNotEmpty
  | isTrue
  | isFalse
deriving DecidableEq, Repr

/-- A single atomic Condition (part_004). -/
structure Condition where
  id : String
  leftSource : ConditionSource
  leftValue : String
  operator : ConditionOperator
  rightSource : Option ConditionSource := none
  rightValue : Option String := none
deriving DecidableEq, Repr

/-- TaskCondition mode: onlyIf runs when true, skipIf skips when true. -/
inductive CondMode where
  | onlyIf
  | skipIf
deriving DecidableEq, Repr

/-- Combination logic for a TaskCondition. -/
inductive CondLogic where
  | and
  | or
deriving DecidableEq, Repr

/-- TaskCondition (part_004): a mode, an ordered condition list and a logic flag. -/
structure TaskCondition where
  mode : CondMode
  conditions : List Condition
  logic : CondLogic
deriving DecidableEq, Repr

/-- VariableType from part_004. -/
inductive VariableType where
  | string
  | number
  | boolean
  | path
  | list
deriving DecidableEq, Repr

/-- Variable from part_004. -/
structure Variable where
  id : String
  name : String
  vtype : VariableType
  defaultValue : String
  value : String
  description : Option String := none
  isSystem : Option Bool := none
deriving DecidableEq, Repr

/-- Kind-specific task configuration.  In the source this is a type-erased
Record whose fields are read back per task kind; we model it as one record
holding every optional field that any of the kind-specific readers uses. -/
structure TaskConfig where
  commandLine : Option (List String) := none
  workingDir : Option String := none
  environment : List (String × String) := []
  args : Option (List String) := none
  ignoreExitValue : Option Bool := none
  fromSrcs : Option (List String) := none
  into : Option String := none
  includePats : Option (List String) := none
  excludePats : Option (List String) := none
  duplicatesStrategy : Option String := none
  preserveFileTimestamps : Option Bool := none
  deletePaths : Option (List String) := none
  followSymlinks : Option Bool := none
  archiveFileName : Option String := none
  destinationDirectory : Option String := none
  maxParallelForks : Option Int := none
  forkEvery : Option Int := none
  failFast : Option Bool := none
  ignoreFailures : Option Bool := none
  jvmArgs : Option (List String) := none
  sourceCompatibility : Option String := none
  targetCompatibility : Option String := none
  optEncoding : Option String := none
  optCompilerArgs : Option (List String) := none
  optDeprecation : Option Bool := none
  optWarnings : Option Bool := none
  hasOptions : Bool := false
  method : Option String := none
  headers : List (String × String) := []
  body : Option String := none
  contentType : Option String := none
  timeout : Option Int := none
  followRedirects : Option Bool := none
  outputFile : Option String := none
  url : Option String := none
deriving DecidableEq, Repr

/-- GradleTaskNodeData from src/types/gradle.ts. -/
structure GradleTaskNodeData where
  taskName : String
  taskType : GradleTaskType
  group : Option String := none
  description : Option String := none
  enabled : Option Bool := none
  timeout : Option Int := none
  config : Option TaskConfig := none
  condition : Option TaskCondition := none
deriving DecidableEq, Repr

/-- Node position (React Flow). -/
structure NodePosition where
  x : Int
  y : Int
deriving DecidableEq, Repr

/-- GradleTaskNode: React-Flow node with task data. -/
structure GradleTaskNode where
  id : String
  nodeKind : Option String := none
  position : NodePosition := { x := 0, y := 0 }
  data : GradleTaskNodeData
deriving DecidableEq, Repr

/-- A proposed React-Flow connection; source/target are nullable in the host API. -/
structure Connection where
  source : Option String
  target : Option String
deriving DecidableEq, Repr

-- ==========================================================================
-- Condition & variable engine (src/utils/conditionUtils.ts)
-- ==========================================================================

/-- The two condition operators whose semantics live outside the language
(the host regular-expression engine and IEEE-754 parseFloat comparison) are
threaded as an explicit capability record; no theorem below depends on them. -/
structure EvalEnv where
  regexTest : String → String → Bool
  floatGt : String → String → Bool
  floatLt : String → String → Bool
  floatGe : String → String → Bool
  floatLe : String → String → Bool

/-- resolveValue (conditionUtils.ts 37-55).  The simulated environment and
property tables are passed as lists mirroring the source constants. -/
def resolveValue (envVars props : List (String × String)) (source : ConditionSource)
    (value : String) (vars : List Variable) : String :=
  match source with
  | ConditionSource.variable =>
      match vars.find? (fun v => v.name = value) with
      | some v => v.value
      | none => ""
  | ConditionSource.environment => (jsMapGet envVars value).getD ""
  | ConditionSource.property => (jsMapGet props value).getD ""
  | ConditionSource.literal => value

/-- simulatedEnvVars (conditionUtils.ts 12-21). -/
def simulatedEnvVars : List (String × String) :=
  [("NODE_ENV", "development"), ("CI", "false"), ("DEBUG", "true"),
   ("BUILD_NUMBER", "42"), ("BRANCH_NAME", "main"), ("USER", "developer"),
   ("HOME", "/home/developer"), ("PATH", "/usr/bin:/bin")]

/-- simulatedProperties (conditionUtils.ts 26-32). -/
def simulatedProperties : List (String × String) :=
  [("project.version", "1.0.0"), ("project.name", "gradle-flow"),
   ("build.type", "debug"), ("test.enabled", "true"),
   ("deploy.environment", "staging")]

/-- JS String.prototype.trim on our strings (whitespace per JS includes at least
space, tab, newline, carriage return; those are the ones reachable here). -/
def jsTrim (s : String) : String := s.trim

/-- evaluateCondition (conditionUtils.ts 67-130). -/
def evaluateCondition (env : EvalEnv) (condition : Condition)
    (vars : List Variable) : Bool :=
  let leftValue := resolveValue simulatedEnvVars simulatedProperties
      condition.leftSource condition.leftValue vars
  let rightValue :=
    match condition.rightSource, condition.rightValue with
    | some rs, some rv =>
        if rv = "" then ""
        else resolveValue simulatedEnvVars simulatedProperties rs rv vars
    | _, _ => ""
  match condition.operator with
  | ConditionOperator.equals => leftValue = rightValue
  | ConditionOperator.notEquals => leftValue ≠ rightValue
  | ConditionOperator.contains => (leftValue.splitOn rightValue).length > 1 || rightValue = ""
  | ConditionOperator.notContains => !((leftValue.splitOn rightValue).length > 1 || rightValue = "")
  | ConditionOperator.startsWith => leftValue.startsWith rightValue
  | ConditionOperator.endsWith => leftValue.endsWith rightValue
  | ConditionOperator.matches => env.regexTest rightValue leftValue
  | ConditionOperator.greaterThan => env.floatGt leftValue rightValue
  | ConditionOperator.lessThan => env.floatLt leftValue rightValue
  | ConditionOperator.greaterOrEqual => env.floatGe leftValue rightValue
  | ConditionOperator.lessOrEqual => env.floatLe leftValue rightValue
  | ConditionOperator.isEmpty => jsTrim leftValue = ""
  | ConditionOperator.isNotEmpty => jsTrim leftValue ≠ ""
  | ConditionOperator.isTrue => leftValue.toLower = "true" || leftValue = "1"
  | ConditionOperator.isFalse => leftValue.toLower = "false" || leftValue = "0" || leftValue = ""

/-- evaluateTaskCondition (conditionUtils.ts 135-153). -/
def evaluateTaskCondition (env : EvalEnv) (taskCondition : TaskCondition)
    (vars : List Variable) : Bool :=
  if taskCondition.conditions.length = 0 then
    taskCondition.mode = CondMode.onlyIf
  else
    let results := taskCondition.conditions.map
      (fun condition => evaluateCondition env condition vars)
    match taskCondition.logic with
    | CondLogic.and => results.all (fun r => r)
    | CondLogic.or => results.any (fun r => r)

/-- Result of the should-this-task-run decision. -/
structure ExecDecision where
  execute : Bool
  reason : Option String
deriving DecidableEq, Repr

/-- shouldExecuteTask (conditionUtils.ts 158-185). -/
def shouldExecuteTask (env : EvalEnv) (condition : Option TaskCondition)
    (vars : List Variable) : ExecDecision :=
  match condition with
  | none => { execute := true, reason := none }
  | some c =>
    if c.conditions.length = 0 then { execute := true, reason := none }
    else
      let conditionResult := evaluateTaskCondition env c vars
      match c.mode with
      | CondMode.onlyIf =>
          { execute := conditionResult,
            reason := if conditionResult then none
                      else some "Condition not met (onlyIf evaluated to false)" }
      | CondMode.skipIf =>
          { execute := !conditionResult,
            reason := if conditionResult then some "Skipped due to skipIf condition"
                      else none }

-- ==========================================================================
-- C8: empty condition lists never cause skipping
-- ==========================================================================

/-- C8: for every variable set (and host capabilities), a TaskCondition with an
empty conditions list evaluates to true under onlyIf and false under skipIf,
and shouldExecuteTask returns execute = true with no skip reason whenever the
node's condition is absent or has an empty conditions list. -/
theorem C8_empty_conditions_never_skip (env : EvalEnv) (vars : List Variable)
    (tc : TaskCondition) (h : tc.conditions = []) :
    (evaluateTaskCondition env { tc with mode := CondMode.onlyIf } vars = true) ∧
    (evaluateTaskCondition env { tc with mode := CondMode.skipIf } vars = false) ∧
    (shouldExecuteTask env none vars = { execute := true, reason := none }) ∧
    (shouldExecuteTask env (some tc) vars = { execute := true, reason := none }) := by
  refine ⟨?_, ?_, rfl, ?_⟩
  · simp [evaluateTaskCondition, h]
  · simp [evaluateTaskCondition, h]
  · simp [shouldExecuteTask, h]

/-- Witness for C8 at a concrete empty TaskCondition and variable set. -/
theorem C8_empty_conditions_never_skip_witness :
    (evaluateTaskCondition
        { regexTest := fun _ _ => false, floatGt := fun _ _ => false,
          floatLt := fun _ _ => false, floatGe := fun _ _ => false,
          floatLe := fun _ _ => false }
        { mode := CondMode.onlyIf, conditions := [], logic := CondLogic.and } [] = true) ∧
    (shouldExecuteTask
        { regexTest := fun _ _ => false, floatGt := fun _ _ => false,
          floatLt := fun _ _ => false, floatGe := fun _ _ => false,
          floatLe := fun _ _ => false }
        (some { mode := CondMode.skipIf, conditions := [], logic := CondLogic.or }) [] =
      { execute := true, reason := none }) := by
  have h := C8_empty_conditions_never_skip
    { regexTest := fun _ _ => false, floatGt := fun _ _ => false,
      floatLt := fun _ _ => false, floatGe := fun _ _ => false,
      floatLe := fun _ _ => false }
    []
    { mode := CondMode.skipIf, conditions := [], logic := CondLogic.or }
    rfl
  exact ⟨h.1, h.2.2.2⟩

-- ==========================================================================
-- Graph utilities (src/utils/graphUtils.ts)
-- ==========================================================================

/-- The neighbor loop inside hasCycleDFS (graphUtils.ts 48-59), parameterized
by the DFS call available at the current fuel level. -/
def hasCycleDFSGo
    (dfs : String → List String → List String → (Bool × List String × List String)) :
    List String → List String → List String → (Bool × List String × List String)
  | [], visited, stack => (false, visited, stack)
  | neighbor :: rest, visited, stack =>
      if visited.contains neighbor then
        if stack.contains neighbor then (true, visited, stack)
        else hasCycleDFSGo dfs rest visited stack
      else
        match dfs neighbor visited stack with
        | (true, v, s) => (true, v, s)
        | (false, v, s) => hasCycleDFSGo dfs rest v s

/-- The DFS of wouldCreateCycle (graphUtils.ts 44-63), with the visited and
recursion-stack sets threaded explicitly and a fuel argument standing in for
the unbounded host recursion; the fuel chosen by the caller dominates the
recursion depth, which is bounded by the number of distinct visitable ids. -/
def hasCycleDFS (adjacency : List (String × List String)) :
    Nat → String → List String → List String → (Bool × List String × List String)
  | 0, _, visited, stack => (false, visited, stack)
  | Nat.succ fuel, nodeId, visited, stack =>
      let visited1 := jsSetAdd visited nodeId
      let stack1 := jsSetAdd stack nodeId
      match hasCycleDFSGo (hasCycleDFS adjacency fuel)
          ((jsMapGet adjacency nodeId).getD []) visited1 stack1 with
      | (true, v, s) => (true, v, s)
      | (false, v, s) => (false, v, s.filter (fun x => x ≠ nodeId))

/-- The neighbor loop inside hasCycleDFS at a given fuel level. -/
def hasCycleDFSNbrs (adjacency : List (String × List String)) (fuel : Nat) :
    List String → List String → List String → (Bool × List String × List String) :=
  hasCycleDFSGo (hasCycleDFS adjacency fuel)

/-- The outer loop of wouldCreateCycle (graphUtils.ts 66-72): start a DFS from
every not-yet-visited node, threading the visited and recursion-stack sets. -/
def wouldCreateCycleLoop (adjacency : List (String × List String)) (fuel : Nat) :
    List GradleTaskNode → List String → List String → Bool
  | [], _, _ => false
  | node :: rest, visited, stack =>
      if visited.contains node.id then
        wouldCreateCycleLoop adjacency fuel rest visited stack
      else
        match hasCycleDFS adjacency fuel node.id visited stack with
        | (true, _, _) => true
        | (false, v, s) => wouldCreateCycleLoop adjacency fuel rest v s

/-- Adjacency construction of wouldCreateCycle (graphUtils.ts 19-38): a map
seeded with an empty neighbor set per node, every existing edge of any
relation kind added when its source is a known node, then the proposed edge. -/
def cycleAdjacency (nodes : List GradleTaskNode) (edges : List GradleEdge)
    (source target : String) : List (String × List String) :=
  let adjacency0 := nodes.foldl (fun m n => jsMapSet m n.id []) []
  let adjacency1 := edges.foldl (fun m e =>
      if m.any (fun p => p.1 = e.source) then
        jsMapSet m e.source (jsSetAdd ((jsMapGet m e.source).getD []) e.target)
      else m) adjacency0
  if adjacency1.any (fun p => p.1 = source) then
    jsMapSet adjacency1 source (jsSetAdd ((jsMapGet adjacency1 source).getD []) target)
  else adjacency1

/-- wouldCreateCycle (graphUtils.ts 8-75).  A null or empty source/target is
falsy in the host language and short-circuits to false. -/
def wouldCreateCycle (nodes : List GradleTaskNode) (edges : List GradleEdge)
    (newConnection : Connection) : Bool :=
  match newConnection.source, newConnection.target with
  | some source, some target =>
      if source = "" || target = "" then false
      else if source = target then true
      else
        wouldCreateCycleLoop (cycleAdjacency nodes edges source target)
          (nodes.length + edges.length + 2) nodes [] []
  | _, _ => false

/-- isDuplicateEdge (graphUtils.ts 80-86): any existing edge with the same
source and target, regardless of relation kind. -/
def isDuplicateEdge (edges : List GradleEdge) (connection : Connection) : Bool :=
  match connection.source, connection.target with
  | some source, some target =>
      if source = "" || target = "" then false
      else edges.any (fun edge => edge.source = source && edge.target = target)
  | _, _ => false

/-- ConnectionValidationResult (graphUtils.ts 91-94). -/
structure ConnectionValidationResult where
  valid : Bool
  message : Option String
deriving DecidableEq, Repr

/-- validateConnection (graphUtils.ts 96-117): self-loop check, then duplicate
check, then cycle check. -/
def validateConnection (nodes : List GradleTaskNode) (edges : List GradleEdge)
    (connection : Connection) : ConnectionValidationResult :=
  if connection.source = connection.target then
    { valid := false, message := some "Cannot connect a task to itself" }
  else if isDuplicateEdge edges connection then
    { valid := false, message := some "This dependency already exists" }
  else if wouldCreateCycle nodes edges connection then
    { valid := false, message := some "This would create a circular dependency" }
  else { valid := true, message := none }

-- ==========================================================================
-- C5: duplicate-edge rejection ignores the relation kind
-- ==========================================================================

/-- A two-node graph used by several concrete counterexamples. -/
def nodeA : GradleTaskNode :=
  { id := "A", data := { taskName := "a", taskType := GradleTaskType.Custom } }

/-- Second node of the concrete two-node graph. -/
def nodeB : GradleTaskNode :=
  { id := "B", data := { taskName := "b", taskType := GradleTaskType.Custom } }

/-- An advisory mustRunAfter edge from A to B. -/
def edgeABmustRunAfter : GradleEdge :=
  { id := "A-B-mra", source := "A", target := "B",
    data := some { dependencyType := DependencyType.mustRunAfter } }

/-- Claim C5 counterexample: the claim says a proposed (A,B) connection is not
rejected as a duplicate when the only existing (A,B) edge has a different
relation kind (mustRunAfter); the code rejects it as a duplicate anyway,
because isDuplicateEdge compares only the (source, target) pair. -/
theorem C5_counterexample :
    isDuplicateEdge [edgeABmustRunAfter] { source := some "A", target := some "B" } = true ∧
    validateConnection [nodeA, nodeB] [edgeABmustRunAfter]
        { source := some "A", target := some "B" } =
      { valid := false, message := some "This dependency already exists" } := by
  constructor
  · decide
  · decide

/-- Claim C5 (amended): edge validation rejects a proposed connection as a
duplicate exactly when an existing edge has the same (source, target) pair,
regardless of either edge's relation kind. -/
theorem C5_duplicate_pair_any_kind (edges : List GradleEdge) (conn : Connection)
    (s t : String) (hs : conn.source = some s) (ht : conn.target = some t)
    (hs0 : s ≠ "") (ht0 : t ≠ "") :
    isDuplicateEdge edges conn = true ↔
      ∃ e ∈ edges, e.source = s ∧ e.target = t := by
  simp [isDuplicateEdge, hs, ht, hs0, ht0, List.any_eq_true]

/-- Witness for the amended C5 theorem at a concrete connection and edge list. -/
theorem C5_duplicate_pair_any_kind_witness :
    isDuplicateEdge [edgeABmustRunAfter] { source := some "A", target := some "B" } = true ↔
      ∃ e ∈ [edgeABmustRunAfter], e.source = "A" ∧ e.target = "B" :=
  C5_duplicate_pair_any_kind [edgeABmustRunAfter]
    { source := some "A", target := some "B" } "A" "B" rfl rfl
    (by decide) (by decide)

-- ==========================================================================
-- Variable utilities (src/utils/variableUtils.ts)
-- ==========================================================================

/-- First character class of VARIABLE_PATTERN identifiers. -/
def isIdentStart (c : Char) : Bool := c.isAlpha || c = '_'

/-- Subsequent character class of VARIABLE_PATTERN identifiers. -/
def isIdentChar (c : Char) : Bool := c.isAlpha || c.isDigit || c = '_'

/-- One attempted match of VARIABLE_PATTERN at the head of the character list:
a dollar, an opening brace, a greedy identifier and the closing brace.  When
the greedy identifier run is not followed by a closing brace the whole match
fails at this position, exactly as the backtracking regex does (the identifier
classes cannot absorb a brace, so no shorter match exists). -/
def matchVarRef (l : List Char) : Option (String × List Char) :=
  match l with
  | c0 :: c1 :: c :: cs2 =>
      if c0 = '$' then
        if c1 = '\x7b' then
          if isIdentStart c then
            match cs2.dropWhile isIdentChar with
            | d :: rest3 =>
                if d = '\x7d' then
                  some (String.mk (c :: cs2.takeWhile isIdentChar), rest3)
                else none
            | [] => none
          else none
        else none
      else none
  | _ => none

/-- A successful VARIABLE_PATTERN match decomposes its input literally. -/
theorem matchVarRef_eq (l : List Char) (nm : String) (rest : List Char)
    (h : matchVarRef l = some (nm, rest)) :
    l = ('$' :: '\x7b' :: nm.data) ++ ('\x7d' :: rest) := by
  match l with
  | [] => simp [matchVarRef] at h
  | [c0] => simp [matchVarRef] at h
  | [c0, c1] => simp [matchVarRef] at h
  | c0 :: c1 :: c :: cs2 =>
    simp only [matchVarRef] at h
    split_ifs at h with h0 h1 h2
    · subst h0; subst h1
      rcases hd : cs2.dropWhile isIdentChar with _ | ⟨d, rest3⟩
      · rw [hd] at h; simp at h
      · rw [hd] at h
        dsimp only at h
        split_ifs at h with h3
        · subst h3
          injection h with h4
          injection h4 with hnm hrest
          subst hrest
          have hdata : nm.data = c :: cs2.takeWhile isIdentChar := by
            rw [← hnm]
          rw [hdata]
          have hsplit := List.takeWhile_append_dropWhile (p := isIdentChar) (l := cs2)
          rw [hd] at hsplit
          simp only [List.cons_append, List.append_assoc]
          rw [hsplit]

/-- The remainder of a successful match is strictly shorter than the input. -/
theorem matchVarRef_length (l : List Char) (nm : String) (rest : List Char)
    (h : matchVarRef l = some (nm, rest)) : rest.length < l.length := by
  have hl := matchVarRef_eq l nm rest h
  subst hl
  simp
  omega

/-- The scan-and-substitute loop of resolveVariables (variableUtils.ts 38-55):
a single left-to-right pass over the original characters; substituted values
are emitted but never re-scanned, and each unresolved occurrence is reported
in match order while its text is kept verbatim. -/
def resolveVarsGo (vmap : List (String × String)) : List Char → (List Char × List String)
  | [] => ([], [])
  | c :: cs =>
      match hm : matchVarRef (c :: cs) with
      | some (name, rest) =>
          let r := resolveVarsGo vmap rest
          match jsMapGet vmap name with
          | some v => (v.data ++ r.1, r.2)
          | none => (('$' :: '\x7b' :: name.data ++ ['\x7d']) ++ r.1, name :: r.2)
      | none =>
          let r := resolveVarsGo vmap cs
          (c :: r.1, r.2)
termination_by l => l.length
decreasing_by
  · exact matchVarRef_length _ _ _ hm
  · simp

/-- The variable map of resolveVariables (new Map over name/value pairs). -/
def varMap (vars : List Variable) : List (String × String) :=
  jsMapBuild (vars.map (fun v => (v.name, v.value)))

/-- resolveVariables (variableUtils.ts 38-55). -/
def resolveVariables (text : String) (vars : List Variable) : String × List String :=
  let r := resolveVarsGo (varMap vars) text.data
  (String.mk r.1, r.2)

/-- The existence scan of hasVariableReferences (VARIABLE_PATTERN.test). -/
def hasVarRefGo : List Char → Bool
  | [] => false
  | c :: cs =>
      match matchVarRef (c :: cs) with
      | some _ => true
      | none => hasVarRefGo cs

/-- hasVariableReferences (variableUtils.ts 28-33). -/
def hasVariableReferences (text : String) : Bool := hasVarRefGo text.data

/-- isValidVariableName (variableUtils.ts 60-62). -/
def isValidVariableName (name : String) : Bool :=
  match name.data with
  | [] => false
  | c :: cs => isIdentStart c && cs.all isIdentChar

/-- The literal characters of a variable reference for the given name. -/
def refChars (n : String) : List Char := '$' :: '\x7b' :: n.data ++ ['\x7d']

/-- Occurrence of a literal variable reference inside a string. -/
def refOccursIn (n : String) (text : String) : Prop :=
  ∃ pre suf, text.data = pre ++ refChars n ++ suf

/-- takeWhile over a list of satisfying characters followed by a failing one. -/
theorem takeWhile_all_append (p : Char → Bool) (cs : List Char) (x : Char)
    (rest : List Char) (hall : cs.all p = true) (hx : p x = false) :
    (cs ++ x :: rest).takeWhile p = cs ∧ (cs ++ x :: rest).dropWhile p = x :: rest := by
  induction cs with
  | nil => simp [List.takeWhile, List.dropWhile, hx]
  | cons c cs ih =>
      simp only [List.all_cons, Bool.and_eq_true] at hall
      have := ih hall.2
      simp [List.takeWhile, List.dropWhile, hall.1, this.1, this.2]


/-- matchVarRef succeeds on a literal reference to a valid identifier. -/
theorem matchVarRef_complete (a : String) (rest : List Char)
    (ha : isValidVariableName a = true) :
    matchVarRef (refChars a ++ rest) = some (a, rest) := by
  rcases hdata : a.data with _ | ⟨c, cs⟩
  · rw [isValidVariableName, hdata] at ha; simp at ha
  · rw [isValidVariableName, hdata] at ha
    simp only [Bool.and_eq_true] at ha
    have hsplit := takeWhile_all_append isIdentChar cs '\x7d' rest ha.2 (by decide)
    have hstr : String.mk (c :: cs) = a := by
      cases a with
      | mk d =>
          have hd : d = c :: cs := hdata
          rw [hd]
    simp only [refChars, hdata, List.cons_append, List.append_assoc, List.nil_append,
      List.singleton_append]
    simp only [matchVarRef]
    simp [hsplit.1, hsplit.2, ha.1, hstr]

/-- Unfolding equation of resolveVarsGo for the empty input. -/
theorem resolveVarsGo_nil (vmap : List (String × String)) :
    resolveVarsGo vmap [] = ([], []) := by
  rw [resolveVarsGo]

/-- Unfolding equation of resolveVarsGo when the head position matches. -/
theorem resolveVarsGo_eq_some (vmap : List (String × String)) (c : Char)
    (cs : List Char) (name : String) (rest : List Char)
    (hm : matchVarRef (c :: cs) = some (name, rest)) :
    resolveVarsGo vmap (c :: cs) =
      match jsMapGet vmap name with
      | some v => (v.data ++ (resolveVarsGo vmap rest).1, (resolveVarsGo vmap rest).2)
      | none => (('$' :: '\x7b' :: name.data ++ ['\x7d']) ++ (resolveVarsGo vmap rest).1,
                 name :: (resolveVarsGo vmap rest).2) := by
  rw [resolveVarsGo]
  split
  · rename_i name' rest' heq
    rw [hm] at heq
    injection heq with heq'
    injection heq' with h1 h2
    subst h1
    subst h2
    rfl
  · rename_i heq
    rw [hm] at heq
    cases heq

/-- Unfolding equation of resolveVarsGo when the head position does not match. -/
theorem resolveVarsGo_eq_none (vmap : List (String × String)) (c : Char)
    (cs : List Char) (hm : matchVarRef (c :: cs) = none) :
    resolveVarsGo vmap (c :: cs) =
      (c :: (resolveVarsGo vmap cs).1, (resolveVarsGo vmap cs).2) := by
  rw [resolveVarsGo]
  split
  · rename_i name' rest' heq
    rw [hm] at heq
    cases heq
  · rfl

/-- A text in which the existence scan finds no reference resolves to itself
with nothing reported. -/
theorem resolveVarsGo_no_refs (vmap : List (String × String)) (l : List Char)
    (h : hasVarRefGo l = false) : resolveVarsGo vmap l = (l, []) := by
  induction l with
  | nil => exact resolveVarsGo_nil vmap
  | cons c cs ih =>
      rw [hasVarRefGo] at h
      rcases hm : matchVarRef (c :: cs) with _ | p
      · rw [hm] at h
        rw [resolveVarsGo_eq_none vmap c cs hm, ih h]
      · rw [hm] at h; simp at h

/-- Every name reported unresolved is undeclared and its reference occurs
literally in the scanned characters. -/
theorem resolveVarsGo_unres (vmap : List (String × String)) :
    ∀ N l, l.length ≤ N → ∀ n ∈ (resolveVarsGo vmap l).2,
      jsMapGet vmap n = none ∧ ∃ pre suf, l = pre ++ refChars n ++ suf := by
  intro N
  induction N with
  | zero =>
      intro l hl n hn
      rcases l with _ | ⟨c, cs⟩
      · rw [resolveVarsGo_nil] at hn; simp at hn
      · simp at hl
  | succ N ih =>
      intro l hl n hn
      rcases l with _ | ⟨c, cs⟩
      · rw [resolveVarsGo_nil] at hn; simp at hn
      · rcases hm : matchVarRef (c :: cs) with _ | ⟨name, rest⟩
        · rw [resolveVarsGo_eq_none vmap c cs hm] at hn
          simp only at hn
          have hcs : cs.length ≤ N := by
            simp only [List.length_cons] at hl; omega
          have := ih cs hcs n hn
          refine ⟨this.1, ?_⟩
          obtain ⟨pre, suf, hps⟩ := this.2
          exact ⟨c :: pre, suf, by rw [hps]; simp⟩
        · rw [resolveVarsGo_eq_some vmap c cs name rest hm] at hn
          have hdec := matchVarRef_eq _ _ _ hm
          have hlen : rest.length ≤ N := by
            have := matchVarRef_length _ _ _ hm
            simp only [List.length_cons] at this hl
            omega
          rcases hget : jsMapGet vmap name with _ | v
          · rw [hget] at hn
            simp only [List.mem_cons] at hn
            rcases hn with hn | hn
            · subst hn
              exact ⟨hget, [], rest, by rw [hdec]; simp [refChars]⟩
            · have := ih rest hlen n hn
              refine ⟨this.1, ?_⟩
              obtain ⟨pre, suf, hps⟩ := this.2
              refine ⟨refChars name ++ pre, suf, ?_⟩
              rw [hdec, hps]
              simp [refChars]
          · rw [hget] at hn
            simp only at hn
            have := ih rest hlen n hn
            refine ⟨this.1, ?_⟩
            obtain ⟨pre, suf, hps⟩ := this.2
            refine ⟨refChars name ++ pre, suf, ?_⟩
            rw [hdec, hps]
            simp [refChars]

/-- Resolving a single declared reference yields the raw declared value with
nothing reported, whatever that value contains. -/
theorem resolveVarsGo_verbatim (vmap : List (String × String)) (a : String)
    (v : String) (ha : isValidVariableName a = true)
    (hget : jsMapGet vmap a = some v) :
    resolveVarsGo vmap (refChars a) = (v.data, []) := by
  have hmatch : matchVarRef (refChars a ++ []) = some (a, []) :=
    matchVarRef_complete a [] ha
  rw [List.append_nil] at hmatch
  rcases hrc : refChars a with _ | ⟨c, cs⟩
  · simp [refChars] at hrc
  · rw [hrc] at hmatch
    rw [resolveVarsGo_eq_some vmap c cs a [] hmatch, hget]
    rw [resolveVarsGo_nil]
    simp

/-- Claim C10: resolveVariables performs one left-to-right pass over the
original text.  (1) A text in which the reference scan finds no occurrence is
returned unchanged with an empty unresolved list.  (2) Every reported
unresolved name is undeclared and stems from a literal reference occurrence in
the original text; names occurring only inside substituted values are never
reported.  (3) A declared reference is replaced by its raw stored value, with
nothing further resolved or reported, even when that value itself contains a
reference. -/
theorem C10_resolveVariables_single_pass (vars : List Variable) :
    (∀ text : String, hasVariableReferences text = false →
        resolveVariables text vars = (text, [])) ∧
    (∀ text : String, ∀ n ∈ (resolveVariables text vars).2,
        jsMapGet (varMap vars) n = none ∧ refOccursIn n text) ∧
    (∀ a v, isValidVariableName a = true →
        jsMapGet (varMap vars) a = some v →
        resolveVariables (String.mk (refChars a)) vars = (v, [])) := by
  refine ⟨?_, ?_, ?_⟩
  · intro text h
    rw [resolveVariables]
    rw [resolveVarsGo_no_refs (varMap vars) text.data h]
  · intro text n hn
    rw [resolveVariables] at hn
    exact resolveVarsGo_unres (varMap vars) text.data.length text.data (le_refl _) n hn
  · intro a v ha hget
    rw [resolveVariables]
    have : (String.mk (refChars a)).data = refChars a := rfl
    rw [this, resolveVarsGo_verbatim (varMap vars) a v ha hget]

/-- Concrete declared variable whose value itself contains a reference. -/
def varDeclA : Variable :=
  { id := "v1", name := "a", vtype := VariableType.string,
    defaultValue := "", value := "$\x7bb\x7d" }

/-- Concrete second declared variable. -/
def varDeclB : Variable :=
  { id := "v2", name := "b", vtype := VariableType.string,
    defaultValue := "", value := "X" }

/-- Witness for C10: a reference-free text is unchanged, and resolving a
reference to varDeclA emits its value with the inner reference verbatim and
nothing reported unresolved. -/
theorem C10_resolveVariables_single_pass_witness :
    resolveVariables ("plain") [varDeclA, varDeclB] = ("plain", []) ∧
    resolveVariables (String.mk (refChars ("a"))) [varDeclA, varDeclB] =
      ("$\x7bb\x7d", []) := by
  constructor
  · exact (C10_resolveVariables_single_pass [varDeclA, varDeclB]).1 "plain" (by decide)
  · exact (C10_resolveVariables_single_pass [varDeclA, varDeclB]).2.2 "a" "$\x7bb\x7d"
      (by decide) (by decide)

-- ==========================================================================
-- Execution order (src/utils/executionUtils.ts, getExecutionOrder 26-106)
-- ==========================================================================

/-- Whether an edge carries a hard dependsOn relation (edge.data?.dependencyType
=== 'dependsOn'). -/
def edgeIsDependsOn (e : GradleEdge) : Bool :=
  match e.data with
  | some d => d.dependencyType = DependencyType.dependsOn
  | none => false

/-- The enabled-node filter of getExecutionOrder (enabled !== false). -/
def enabledNodes (nodes : List GradleTaskNode) : List GradleTaskNode :=
  nodes.filter (fun n => n.data.enabled ≠ some false)

/-- Ids of the enabled nodes, in list order. -/
def enabledNodeIds (nodes : List GradleTaskNode) : List String :=
  (enabledNodes nodes).map (fun n => n.id)

/-- The edge filter of the scheduling graph: a dependsOn edge whose endpoints
are both enabled. -/
def execKeepEdge (nodes : List GradleTaskNode) (e : GradleEdge) : Bool :=
  edgeIsDependsOn e && (enabledNodeIds nodes).contains e.source &&
    (enabledNodeIds nodes).contains e.target

/-- The kept scheduling edges as (source, target) pairs in edge-list order. -/
def execEdgePairs (nodes : List GradleTaskNode) (edges : List GradleEdge) :
    List (String × String) :=
  (edges.filter (execKeepEdge nodes)).map (fun e => (e.source, e.target))

/-- The initial in-degree map of getExecutionOrder, pointwise: the number of
kept edges into a node (the Map building by repeated increment produces
exactly this count at each enabled key, and only enabled keys are ever
touched because kept edges have enabled targets). -/
def execInDeg0 (nodes : List GradleTaskNode) (edges : List GradleEdge)
    (v : String) : Nat :=
  (execEdgePairs nodes edges).countP (fun e => e.2 = v)

/-- The adjacency map of getExecutionOrder, pointwise: targets of kept edges
out of a node in edge order (the Map building by repeated push produces
exactly this list at each key). -/
def execAdj (nodes : List GradleTaskNode) (edges : List GradleEdge)
    (v : String) : List String :=
  ((execEdgePairs nodes edges).filter (fun e => e.1 = v)).map (fun e => e.2)

/-- The back-walk loop computing the required closure when targets are given
(executionUtils.ts 59-74).  The JS stack pops from the end; here the list
head is the stack top, so the initial target list and each pushed
predecessor batch are reversed.  The fuel dominates the iteration count,
which is bounded because every iteration either only pops or adds one new
id to the accumulator and pushes at most one batch of predecessors. -/
def requiredLoop (enabledIds : List String) (edges : List GradleEdge) :
    Nat → List String → List String → List String
  | 0, _, acc => acc
  | _, [], acc => acc
  | Nat.succ fuel, nodeId :: stack, acc =>
      if acc.contains nodeId || !(enabledIds.contains nodeId) then
        requiredLoop enabledIds edges fuel stack acc
      else
        let preds := (edges.filter
            (fun e => e.target = nodeId && edgeIsDependsOn e)).map (fun e => e.source)
        requiredLoop enabledIds edges fuel (preds.reverse ++ stack) (acc ++ [nodeId])

/-- The required-node set for a concrete target list. -/
def computeRequired (nodes : List GradleTaskNode) (edges : List GradleEdge)
    (targets : List String) : List String :=
  requiredLoop (enabledNodeIds nodes) edges
    (targets.length + (nodes.length + 1) * (edges.length + 1) + 1) targets.reverse []

/-- The requiredNodes set of getExecutionOrder (all enabled ids when no
non-empty target list is supplied). -/
def requiredNodes (nodes : List GradleTaskNode) (edges : List GradleEdge)
    (targetTaskIds : Option (List String)) : List String :=
  match targetTaskIds with
  | some ts => if 0 < ts.length then computeRequired nodes edges ts
               else enabledNodeIds nodes
  | none => enabledNodeIds nodes

/-- One neighbor-relaxation step of Kahn's algorithm, exactly as written in
the source including the JS idiom (inDegree.get(neighbor) || 1) - 1. -/
def kahnRelax (pushOk : String → Bool) (st : (String → Nat) × List String)
    (n : String) : (String → Nat) × List String :=
  let d := st.1 n
  let nd := (if d = 0 then 1 else d) - 1
  ((fun x => if x = n then nd else st.1 x),
   if nd = 0 && pushOk n then st.2 ++ [n] else st.2)

/-- The zero-in-degree queue loop shared by getExecutionOrder and the export
topologicalSort: pop the queue head, relax its neighbors appending any node
whose degree reaches zero (and passes the push filter), and record the pop.
The fuel dominates the pop count, which never exceeds the number of map
keys because a node enters the queue at most once. -/
def kahnLoop (adj : String → List String) (pushOk : String → Bool) :
    Nat → List String → (String → Nat) → List String
  | 0, _, _ => []
  | _, [], _ => []
  | Nat.succ fuel, c :: q, deg =>
      let st := (adj c).foldl (kahnRelax pushOk) (deg, [])
      c :: kahnLoop adj pushOk fuel (q ++ st.2) st.1

/-- getExecutionOrder (executionUtils.ts 26-106).  The target argument is the
optional targetTaskIds parameter; the seed queue enumerates the in-degree
map keys (the deduplicated enabled ids) in insertion order. -/
def getExecutionOrder (nodes : List GradleTaskNode) (edges : List GradleEdge)
    (targetTaskIds : Option (List String)) : List String :=
  let req := requiredNodes nodes edges targetTaskIds
  let K := dedupFirst (enabledNodeIds nodes)
  let deg0 := execInDeg0 nodes edges
  let queue0 := K.filter (fun id => deg0 id = 0 && req.contains id)
  let popped := kahnLoop (execAdj nodes edges) (fun n => req.contains n)
      (nodes.length + edges.length + 1) queue0 deg0
  popped.filter (fun id => req.contains id)

-- ==========================================================================
-- Export-side topological sort (src/utils/gradleExport.ts 686-740)
-- ==========================================================================

/-- The export sort keeps dependsOn edges and edges with no data payload. -/
def exportKeepEdge (e : GradleEdge) : Bool :=
  match e.data with
  | some d => d.dependencyType = DependencyType.dependsOn
  | none => true

/-- Kept export edges as (source, target) pairs in edge order. -/
def exportEdgePairs (edges : List GradleEdge) : List (String × String) :=
  (edges.filter exportKeepEdge).map (fun e => (e.source, e.target))

/-- The key order of the export in-degree map: node ids first, then targets
of kept edges that are not node ids, in edge order (inDegree.set adds a new
key for an unknown target). -/
def exportKeys (nodes : List GradleTaskNode) (edges : List GradleEdge) :
    List String :=
  dedupFirst (nodes.map (fun n => n.id) ++
    (edges.filter exportKeepEdge).map (fun e => e.target))

/-- Export in-degree map, pointwise. -/
def exportInDeg0 (edges : List GradleEdge) (v : String) : Nat :=
  (exportEdgePairs edges).countP (fun e => e.2 = v)

/-- Export adjacency map, pointwise: only node ids were given adjacency
entries, so edges whose source is not a node are dropped from adjacency
(while still counting toward their target's in-degree). -/
def exportAdj (nodes : List GradleTaskNode) (edges : List GradleEdge)
    (v : String) : List String :=
  if (nodes.map (fun n => n.id)).contains v then
    ((exportEdgePairs edges).filter (fun e => e.1 = v)).map (fun e => e.2)
  else []

/-- topologicalSort (gradleExport.ts 686-740): Kahn loop over all nodes, then
any node not reached by the loop is appended at the end in original order. -/
def topologicalSortExport (nodes : List GradleTaskNode) (edges : List GradleEdge) :
    List GradleTaskNode :=
  let nodeMap := jsMapBuild (nodes.map (fun n => (n.id, n)))
  let K := exportKeys nodes edges
  let queue0 := K.filter (fun id => exportInDeg0 edges id = 0)
  let popped := kahnLoop (exportAdj nodes edges) (fun _ => true)
      (nodes.length + edges.length + 1) queue0 (exportInDeg0 edges)
  let result := popped.filterMap (fun id => jsMapGet nodeMap id)
  result ++ nodes.filter (fun n => !(result.contains n))

-- ==========================================================================
-- Kahn loop verification infrastructure
-- ==========================================================================

/-- Membership after first-occurrence deduplication. -/
theorem dedupFirstAux_mem : ∀ (l seen : List String) (x : String),
    x ∈ dedupFirstAux l seen ↔ x ∈ l ∧ x ∉ seen := by
  intro l
  induction l with
  | nil => intro seen x; simp [dedupFirstAux]
  | cons y ys ih =>
      intro seen x
      rw [dedupFirstAux]
      by_cases hy : seen.contains y
      · rw [if_pos hy, ih]
        simp only [List.elem_eq_mem, decide_eq_true_eq] at hy
        simp only [List.mem_cons]
        constructor
        · rintro ⟨h1, h2⟩; exact ⟨Or.inr h1, h2⟩
        · rintro ⟨h1 | h1, h2⟩
          · subst h1; exact absurd hy h2
          · exact ⟨h1, h2⟩
      · rw [if_neg hy]
        simp only [List.elem_eq_mem, decide_eq_true_eq] at hy
        simp only [List.mem_cons, ih]
        constructor
        · rintro (h | ⟨h1, h2⟩)
          · subst h; exact ⟨Or.inl rfl, hy⟩
          · simp only [List.mem_cons, not_or] at h2
            exact ⟨Or.inr h1, h2.2⟩
        · rintro ⟨h1 | h1, h2⟩
          · subst h1; exact Or.inl rfl
          · by_cases hxy : x = y
            · subst hxy; exact Or.inl rfl
            · exact Or.inr ⟨h1, by simp [hxy, h2]⟩

/-- Deduplication produces a duplicate-free list. -/
theorem dedupFirstAux_nodup : ∀ (l seen : List String),
    (dedupFirstAux l seen).Nodup := by
  intro l
  induction l with
  | nil => intro seen; simp [dedupFirstAux]
  | cons y ys ih =>
      intro seen
      rw [dedupFirstAux]
      by_cases hy : seen.contains y
      · rw [if_pos hy]; exact ih seen
      · rw [if_neg hy]
        refine List.nodup_cons.mpr ⟨?_, ih (y :: seen)⟩
        intro hmem
        exact ((dedupFirstAux_mem ys (y :: seen) y).mp hmem).2 (List.mem_cons_self y seen)

/-- Deduplication never lengthens a list. -/
theorem dedupFirstAux_length : ∀ (l seen : List String),
    (dedupFirstAux l seen).length ≤ l.length := by
  intro l
  induction l with
  | nil => intro seen; simp [dedupFirstAux]
  | cons y ys ih =>
      intro seen
      rw [dedupFirstAux]
      by_cases hy : seen.contains y
      · rw [if_pos hy]
        exact le_trans (ih seen) (Nat.le_succ _)
      · rw [if_neg hy]
        simpa using Nat.succ_le_succ (ih (y :: seen))

/-- Membership in the deduplicated list. -/
theorem dedupFirst_mem (l : List String) (x : String) :
    x ∈ dedupFirst l ↔ x ∈ l := by
  rw [dedupFirst, dedupFirstAux_mem]
  simp

/-- The deduplicated list is duplicate-free. -/
theorem dedupFirst_nodup (l : List String) : (dedupFirst l).Nodup :=
  dedupFirstAux_nodup l []

/-- The deduplicated list is no longer than the original. -/
theorem dedupFirst_length (l : List String) : (dedupFirst l).length ≤ l.length :=
  dedupFirstAux_length l []

/-- Number of edges into a node not yet discharged by the popped list: edges
from inactive sources count forever, edges from active sources count until
their source is popped. -/
def remainingCount (E : List (String × String)) (act : String → Bool)
    (P : List String) (n : String) : Nat :=
  E.countP (fun e => decide (e.2 = n ∧ (act e.1 = false ∨ ¬ e.1 ∈ P)))

/-- Multiplicity of the edges from c into n. -/
def srcTgtCount (E : List (String × String)) (c n : String) : Nat :=
  E.countP (fun e => decide (e.1 = c ∧ e.2 = n))

/-- Pointwise additive splitting of countP. -/
theorem countP_add_split {α : Type} (E : List α) (p q r : α → Bool)
    (h : ∀ e ∈ E, (if p e then 1 else 0) =
        ((if q e then 1 else 0) : Nat) + (if r e then 1 else 0)) :
    E.countP p = E.countP q + E.countP r := by
  induction E with
  | nil => simp
  | cons e E ih =>
      simp only [List.countP_cons]
      have he := h e (List.mem_cons_self e E)
      have hE := ih (fun x hx => h x (List.mem_cons_of_mem e hx))
      by_cases hp : p e <;> by_cases hq : q e <;> by_cases hr : r e <;>
        simp [hp, hq, hr] at he ⊢ <;> omega

/-- Popping an active, not-yet-popped source discharges exactly its outgoing
edge multiplicities. -/
theorem remainingCount_split (E : List (String × String)) (act : String → Bool)
    (P : List String) (c n : String) (hact : act c = true) (hc : c ∉ P) :
    remainingCount E act P n =
      remainingCount E act (P ++ [c]) n + srcTgtCount E c n := by
  unfold remainingCount srcTgtCount
  apply countP_add_split
  intro e _
  by_cases h2 : e.2 = n
  · by_cases h1 : e.1 = c
    · simp [h2, h1, hact, hc]
    · have : (e.1 ∈ P ++ [c]) ↔ e.1 ∈ P := by simp [h1]
      simp [h2, h1, this]
  · simp [h2]

/-- Popping an inactive id leaves every remaining count unchanged. -/
theorem remainingCount_append_inactive (E : List (String × String))
    (act : String → Bool) (P : List String) (c n : String)
    (hact : act c = false) :
    remainingCount E act (P ++ [c]) n = remainingCount E act P n := by
  unfold remainingCount
  apply List.countP_congr
  intro e _
  by_cases h1 : e.1 = c
  · simp [h1, hact]
  · have : (e.1 ∈ P ++ [c]) ↔ e.1 ∈ P := by simp [h1]
    simp [this]

/-- Edge multiplicities from an active unpopped source never exceed the
remaining count of their target. -/
theorem srcTgtCount_le_remaining (E : List (String × String)) (act : String → Bool)
    (P : List String) (c n : String) (hact : act c = true) (hc : c ∉ P) :
    srcTgtCount E c n ≤ remainingCount E act P n := by
  unfold remainingCount srcTgtCount
  apply List.countP_mono_left
  intro e _ he
  simp only [decide_eq_true_eq] at he ⊢
  exact ⟨he.2, Or.inr (by rw [he.1]; exact hc)⟩

/-- The multiset of targets listed in an adjacency entry. -/
theorem occList_count (E : List (String × String)) (c n : String) :
    ((E.filter (fun e => e.1 = c)).map (fun e => e.2)).count n = srcTgtCount E c n := by
  unfold srcTgtCount
  rw [List.count_eq_countP, List.countP_map, List.countP_filter]
  apply List.countP_congr
  intro e _
  simp only [Function.comp]
  by_cases h1 : e.1 = c <;> by_cases h2 : e.2 = n <;> simp [h1, h2]

/-- Ordering invariant of the popped list: every edge into a popped id is from
an active source popped strictly earlier. -/
def kahnOrdered (E : List (String × String)) (act : String → Bool)
    (P : List String) : Prop :=
  ∀ i (h : i < P.length), ∀ e ∈ E, e.2 = P.get ⟨i, h⟩ →
    act e.1 = true ∧ e.1 ∈ P.take i

/-- Membership form of the ordering invariant. -/
theorem kahnOrdered_src (E : List (String × String)) (act : String → Bool)
    (P : List String) (h : kahnOrdered E act P) :
    ∀ n ∈ P, ∀ e ∈ E, e.2 = n → act e.1 = true ∧ e.1 ∈ P := by
  intro n hn e he h2
  obtain ⟨i, hi⟩ := List.mem_iff_get.mp hn
  have := h i.1 i.2 e he (by rw [hi]; exact h2)
  exact ⟨this.1, List.take_subset _ _ this.2⟩

/-- Extending the ordering invariant by one popped id whose in-edges all come
from earlier active pops. -/
theorem kahnOrdered_snoc (E : List (String × String)) (act : String → Bool)
    (P : List String) (c : String) (h : kahnOrdered E act P)
    (hc : ∀ e ∈ E, e.2 = c → act e.1 = true ∧ e.1 ∈ P) :
    kahnOrdered E act (P ++ [c]) := by
  intro i hi e he h2
  rcases Nat.lt_or_ge i P.length with hlt | hge
  · have hget : (P ++ [c]).get ⟨i, hi⟩ = P.get ⟨i, hlt⟩ := by
      rw [List.get_append i hlt]
    rw [hget] at h2
    have := h i hlt e he h2
    refine ⟨this.1, ?_⟩
    rw [List.take_append_eq_append_take]
    have : i - P.length = 0 := by omega
    rw [this]
    simp only [List.take_zero, List.append_nil]
    exact (h i hlt e he h2).2
  · have hieq : i = P.length := by
      simp only [List.length_append, List.length_singleton] at hi
      omega
    subst hieq
    have hget : (P ++ [c]).get ⟨P.length, hi⟩ = c := by
      simp [List.get_append_right]
    rw [hget] at h2
    have := hc e he h2
    refine ⟨this.1, ?_⟩
    rw [List.take_left]
    exact this.2

/-- If the remaining count of n consists exactly of the edges from c, then
every in-edge of n is either from c or already discharged. -/
theorem remaining_eq_srcTgt_edges (E : List (String × String))
    (act : String → Bool) (P : List String) (c n : String)
    (hact : act c = true) (hc : c ∉ P)
    (heq : remainingCount E act P n = srcTgtCount E c n) :
    ∀ e ∈ E, e.2 = n → act e.1 = true ∧ e.1 ∈ P ++ [c] := by
  have hsplit : remainingCount E act P n = srcTgtCount E c n +
      E.countP (fun e => decide (e.2 = n ∧ (act e.1 = false ∨ ¬ e.1 ∈ P) ∧ ¬ e.1 = c)) := by
    unfold remainingCount srcTgtCount
    apply countP_add_split
    intro e _
    by_cases h2 : e.2 = n
    · by_cases h1 : e.1 = c
      · simp [h1, h2, hact, hc]
      · simp [h1, h2]
    · simp [h2]
  have hzero : E.countP
      (fun e => decide (e.2 = n ∧ (act e.1 = false ∨ ¬ e.1 ∈ P) ∧ ¬ e.1 = c)) = 0 := by
    omega
  rw [List.countP_eq_zero] at hzero
  intro e he h2
  by_cases h1 : e.1 = c
  · exact ⟨by rw [h1]; exact hact, by rw [h1]; simp⟩
  · have hz := hzero e he
    simp only [decide_eq_true_eq] at hz
    have hgood : ¬ (act e.1 = false ∨ ¬ e.1 ∈ P) := fun hbad => hz ⟨h2, hbad, h1⟩
    have hact1 : act e.1 = true := by
      cases hA : act e.1
      · exact absurd (Or.inl hA) hgood
      · rfl
    have hP : e.1 ∈ P := by
      by_contra hnp
      exact hgood (Or.inr hnp)
    exact ⟨hact1, List.mem_append_left _ hP⟩


/-- Counting an element in its own singleton. -/
theorem count_self_singleton (n : String) : List.count n [n] = 1 := by simp

/-- Counting a different element in a singleton. -/
theorem count_ne_singleton (n m : String) (h : ¬ n = m) : List.count n [m] = 0 := by
  simp [List.count_singleton', h]

/-- Specification of the neighbor-relaxation fold: starting from a state whose
degree map reflects the undischarged counts minus the processed occurrences,
the fold discharges the remaining occurrences one by one and pushes exactly
the ids whose count reaches zero at their last occurrence, each at most once. -/
theorem kahnFold_spec (pushOk : String → Bool) (R0 : String → Nat) :
    ∀ (todo done : List String) (degM : String → Nat) (pushesM : List String),
      (∀ n, done.count n + todo.count n ≤ R0 n) →
      (∀ n, degM n = R0 n - done.count n) →
      (∀ n, n ∈ pushesM ↔ (pushOk n = true ∧ 1 ≤ done.count n ∧ R0 n = done.count n)) →
      pushesM.Nodup →
      (∀ n, (todo.foldl (kahnRelax pushOk) (degM, pushesM)).1 n
          = R0 n - (done.count n + todo.count n)) ∧
      (∀ n, n ∈ (todo.foldl (kahnRelax pushOk) (degM, pushesM)).2 ↔
          (pushOk n = true ∧ 1 ≤ done.count n + todo.count n ∧
           R0 n = done.count n + todo.count n)) ∧
      (todo.foldl (kahnRelax pushOk) (degM, pushesM)).2.Nodup := by
  intro todo
  induction todo with
  | nil =>
      intro done degM pushesM hocc hdeg hpush hnd
      simp only [List.foldl_nil, List.count_nil, Nat.add_zero]
      exact ⟨hdeg, hpush, hnd⟩
  | cons m todo ih =>
      intro done degM pushesM hocc hdeg hpush hnd
      have hoccm : done.count m + 1 ≤ R0 m := by
        have h1 := hocc m
        rw [List.count_cons_self] at h1
        omega
      have hdm := hdeg m
      have hne : ¬ (degM m = 0) := by omega
      have hrelax : kahnRelax pushOk (degM, pushesM) m =
          ((fun x => if x = m then degM m - 1 else degM x),
           if (degM m - 1 = 0) && pushOk m then pushesM ++ [m] else pushesM) := by
        unfold kahnRelax
        simp [hne]
      rw [List.foldl_cons, hrelax]
      have hocc' : ∀ n, (done ++ [m]).count n + todo.count n ≤ R0 n := by
        intro n
        have h1 := hocc n
        by_cases hnm : n = m
        · subst hnm
          rw [List.count_cons_self] at h1
          rw [List.count_append, count_self_singleton]
          omega
        · rw [List.count_cons_of_ne hnm] at h1
          rw [List.count_append, count_ne_singleton n m hnm]
          omega
      have hdeg' : ∀ n, (fun x => if x = m then degM m - 1 else degM x) n
          = R0 n - (done ++ [m]).count n := by
        intro n
        dsimp only
        by_cases hnm : n = m
        · subst hnm
          rw [if_pos rfl, List.count_append, count_self_singleton, hdm]
          omega
        · rw [if_neg hnm, List.count_append, count_ne_singleton n m hnm, hdeg n]
          omega
      by_cases hcond : ((degM m - 1 = 0) && pushOk m) = true
      · rw [if_pos hcond]
        simp only [Bool.and_eq_true, decide_eq_true_eq] at hcond
        have hmnotin : m ∉ pushesM := by
          intro hmem
          obtain ⟨_, _, h3⟩ := (hpush m).mp hmem
          omega
        have hpush' : ∀ n, n ∈ pushesM ++ [m] ↔
            (pushOk n = true ∧ 1 ≤ (done ++ [m]).count n ∧
             R0 n = (done ++ [m]).count n) := by
          intro n
          by_cases hnm : n = m
          · subst hnm
            rw [List.count_append, count_self_singleton]
            constructor
            · intro _
              refine ⟨hcond.2, by omega, ?_⟩
              have := hcond.1
              omega
            · intro _
              exact List.mem_append_right _ (List.mem_singleton.mpr rfl)
          · rw [List.count_append, count_ne_singleton n m hnm, Nat.add_zero]
            constructor
            · intro hmem
              rcases List.mem_append.mp hmem with hmem | hmem
              · exact (hpush n).mp hmem
              · exact absurd (List.mem_singleton.mp hmem) hnm
            · intro hr
              exact List.mem_append_left _ ((hpush n).mpr hr)
        have hnd' : (pushesM ++ [m]).Nodup := by
          rw [List.nodup_append]
          refine ⟨hnd, List.nodup_singleton m, ?_⟩
          intro a ha hb
          rw [List.mem_singleton] at hb
          subst hb
          exact hmnotin ha
        have hres := ih (done ++ [m]) _ _ hocc' hdeg' hpush' hnd'
        refine ⟨?_, ?_, hres.2.2⟩
        · intro n
          have h1 := hres.1 n
          by_cases hnm : n = m
          · subst hnm
            rw [List.count_append, count_self_singleton] at h1
            rw [List.count_cons_self]
            omega
          · rw [List.count_append, count_ne_singleton n m hnm] at h1
            rw [List.count_cons_of_ne hnm]
            omega
        · intro n
          rw [hres.2.1 n]
          by_cases hnm : n = m
          · subst hnm
            rw [List.count_append, count_self_singleton, List.count_cons_self]
            constructor
            · rintro ⟨a, b, d⟩; exact ⟨a, by omega, by omega⟩
            · rintro ⟨a, b, d⟩; exact ⟨a, by omega, by omega⟩
          · rw [List.count_append, count_ne_singleton n m hnm,
              List.count_cons_of_ne hnm, Nat.add_zero]
      · rw [if_neg hcond]
        have hcond' : degM m - 1 = 0 → pushOk m = false := by
          intro hz
          cases hok : pushOk m
          · rfl
          · exfalso
            apply hcond
            simp [hz, hok]
        have hpush' : ∀ n, n ∈ pushesM ↔
            (pushOk n = true ∧ 1 ≤ (done ++ [m]).count n ∧
             R0 n = (done ++ [m]).count n) := by
          intro n
          by_cases hnm : n = m
          · subst hnm
            rw [List.count_append, count_self_singleton]
            rw [hpush n]
            constructor
            · rintro ⟨a, b, d⟩
              exfalso
              omega
            · rintro ⟨a, b, d⟩
              exfalso
              have hz : degM n - 1 = 0 := by omega
              rw [hcond' hz] at a
              cases a
          · rw [List.count_append, count_ne_singleton n m hnm, Nat.add_zero]
            exact hpush n
        have hres := ih (done ++ [m]) _ _ hocc' hdeg' hpush' hnd
        refine ⟨?_, ?_, hres.2.2⟩
        · intro n
          have h1 := hres.1 n
          by_cases hnm : n = m
          · subst hnm
            rw [List.count_append, count_self_singleton] at h1
            rw [List.count_cons_self]
            omega
          · rw [List.count_append, count_ne_singleton n m hnm] at h1
            rw [List.count_cons_of_ne hnm]
            omega
        · intro n
          rw [hres.2.1 n]
          by_cases hnm : n = m
          · subst hnm
            rw [List.count_append, count_self_singleton, List.count_cons_self]
            constructor
            · rintro ⟨a, b, d⟩; exact ⟨a, by omega, by omega⟩
            · rintro ⟨a, b, d⟩; exact ⟨a, by omega, by omega⟩
          · rw [List.count_append, count_ne_singleton n m hnm,
              List.count_cons_of_ne hnm, Nat.add_zero]

/-- Unfolding: the loop stops on an empty queue. -/
theorem kahnLoop_nil (adj : String → List String) (pushOk : String → Bool)
    (fuel : Nat) (deg : String → Nat) : kahnLoop adj pushOk fuel [] deg = [] := by
  cases fuel <;> rfl

/-- Unfolding: one iteration of the loop. -/
theorem kahnLoop_cons (adj : String → List String) (pushOk : String → Bool)
    (fuel : Nat) (c : String) (q : List String) (deg : String → Nat) :
    kahnLoop adj pushOk (fuel + 1) (c :: q) deg =
      c :: kahnLoop adj pushOk fuel
        (q ++ ((adj c).foldl (kahnRelax pushOk) (deg, [])).2)
        ((adj c).foldl (kahnRelax pushOk) (deg, [])).1 := rfl

/-- A duplicate-free list of members of K is no longer than K. -/
theorem nodup_subset_length (l K : List String) (hnd : l.Nodup)
    (hsub : ∀ x ∈ l, x ∈ K) : l.length ≤ K.length := by
  calc l.length = l.toFinset.card := (List.toFinset_card_of_nodup hnd).symm
    _ ≤ K.toFinset.card := by
        apply Finset.card_le_card
        intro x hx
        rw [List.mem_toFinset] at hx ⊢
        exact hsub x hx
    _ ≤ K.length := List.toFinset_card_le K

/-- The loop invariant of the Kahn queue loop. -/
structure KahnInv (E : List (String × String)) (act pushOk : String → Bool)
    (K : List String) (P Q : List String) (deg : String → Nat) : Prop where
  nodup : (P ++ Q).Nodup
  deg_eq : ∀ n, deg n = remainingCount E act P n
  ordered : kahnOrdered E act P
  queue_src : ∀ n ∈ Q, ∀ e ∈ E, e.2 = n → act e.1 = true ∧ e.1 ∈ P
  complete : ∀ n ∈ K, pushOk n = true → deg n = 0 → n ∈ P ∨ n ∈ Q
  mem_K : ∀ n ∈ P ++ Q, n ∈ K
  push_all : ∀ n ∈ Q, pushOk n = true

/-- Main specification of the Kahn queue loop: under the invariant and with
fuel exceeding the number of keys not yet popped, the loop pops a
duplicate-free sequence of keys, in an order placing every active in-edge
source before its target, and pops every filtered key whose in-edges are all
discharged by the end. -/
theorem kahnLoop_spec (E : List (String × String)) (act pushOk : String → Bool)
    (K : List String) (adj : String → List String)
    (hadj : ∀ v, adj v =
        if act v then (E.filter (fun e => e.1 = v)).map (fun e => e.2) else [])
    (htgtK : ∀ e ∈ E, e.2 ∈ K) :
    ∀ (fuel : Nat) (Q P : List String) (deg : String → Nat),
      KahnInv E act pushOk K P Q deg →
      K.length - P.length < fuel →
      ((P ++ kahnLoop adj pushOk fuel Q deg).Nodup) ∧
      kahnOrdered E act (P ++ kahnLoop adj pushOk fuel Q deg) ∧
      (∀ n ∈ kahnLoop adj pushOk fuel Q deg, n ∈ K ∧ pushOk n = true) ∧
      (∀ n ∈ K, pushOk n = true →
          remainingCount E act (P ++ kahnLoop adj pushOk fuel Q deg) n = 0 →
          n ∈ P ++ kahnLoop adj pushOk fuel Q deg) := by
  intro fuel
  induction fuel with
  | zero =>
      intro Q P deg hinv hf
      exact absurd hf (by omega)
  | succ fuel ih =>
      intro Q P deg hinv hf
      rcases Q with _ | ⟨c, q⟩
      · rw [kahnLoop_nil]
        simp only [List.append_nil]
        have hnodup := hinv.nodup
        simp only [List.append_nil] at hnodup
        refine ⟨hnodup, hinv.ordered, ?_, ?_⟩
        · intro n hn
          simp at hn
        · intro n hnK hok hrem
          have := hinv.complete n hnK hok (by rw [hinv.deg_eq n]; exact hrem)
          rcases this with h | h
          · exact h
          · simp at h
      · rw [kahnLoop_cons]
        set st : (String → Nat) × List String :=
          (adj c).foldl (kahnRelax pushOk) (deg, []) with hstdef
        have hnodupPQ := hinv.nodup
        rw [List.nodup_append] at hnodupPQ
        obtain ⟨hPnd, hcqnd, hdisj⟩ := hnodupPQ
        have hcP : c ∉ P := fun hc => hdisj hc (List.mem_cons_self c q)
        have hcq : c ∉ q := (List.nodup_cons.mp hcqnd).1
        have hcQsrc := hinv.queue_src c (List.mem_cons_self c q)
        have hcK : c ∈ K := hinv.mem_K c (by simp)
        have hcOk : pushOk c = true := hinv.push_all c (List.mem_cons_self c q)
        have hfacts :
            (∀ n, st.1 n = remainingCount E act (P ++ [c]) n) ∧
            (∀ n, n ∈ st.2 →
                pushOk n = true ∧ (∃ e ∈ E, e.1 = c ∧ e.2 = n) ∧
                (∀ e ∈ E, e.2 = n → act e.1 = true ∧ e.1 ∈ P ++ [c])) ∧
            st.2.Nodup ∧
            (∀ n, pushOk n = true → st.1 n = 0 → deg n = 0 ∨ n ∈ st.2) := by
          rw [hstdef]
          cases hact : act c with
          | false =>
              have hadjc : adj c = [] := by rw [hadj c, hact]; rfl
              rw [hadjc]
              simp only [List.foldl_nil]
              refine ⟨?_, ?_, List.nodup_nil, ?_⟩
              · intro n
                rw [remainingCount_append_inactive E act P c n hact]
                exact hinv.deg_eq n
              · intro n hn; simp at hn
              · intro n _ h0
                exact Or.inl h0
          | true =>
              have hadjc : adj c =
                  (E.filter (fun e => e.1 = c)).map (fun e => e.2) := by
                rw [hadj c, hact]; rfl
              have hfold := kahnFold_spec pushOk (remainingCount E act P)
                (adj c) [] deg []
                (by
                  intro n
                  rw [hadjc, occList_count]
                  simp only [List.count_nil, Nat.zero_add]
                  exact srcTgtCount_le_remaining E act P c n hact hcP)
                (by
                  intro n
                  simp only [List.count_nil, Nat.sub_zero]
                  exact hinv.deg_eq n)
                (by intro n; simp)
                List.nodup_nil
              obtain ⟨hf1, hf2, hf3⟩ := hfold
              have hsplit := fun n => remainingCount_split E act P c n hact hcP
              have hcntall : ∀ n, List.count n (adj c) = srcTgtCount E c n := by
                intro n
                rw [hadjc]
                exact occList_count E c n
              refine ⟨?_, ?_, hf3, ?_⟩
              · intro n
                have hh := hf1 n
                rw [hcntall n] at hh
                simp only [List.count_nil, Nat.zero_add] at hh
                rw [hh]
                have := hsplit n
                omega
              · intro n hn
                have hh := (hf2 n).mp hn
                rw [hcntall n] at hh
                simp only [List.count_nil, Nat.zero_add] at hh
                obtain ⟨hok, hge, heq⟩ := hh
                refine ⟨hok, ?_, ?_⟩
                · have hpos : 0 < List.countP
                      (fun e => decide (e.1 = c ∧ e.2 = n)) E := by
                    unfold srcTgtCount at hge
                    omega
                  obtain ⟨e, he, hpe⟩ := List.countP_pos.mp hpos
                  simp only [decide_eq_true_eq] at hpe
                  exact ⟨e, he, hpe.1, hpe.2⟩
                · exact remaining_eq_srcTgt_edges E act P c n hact hcP heq
              · intro n hok h0
                have h1 := hf1 n
                rw [hcntall n] at h1
                simp only [List.count_nil, Nat.zero_add] at h1
                rw [h1] at h0
                have hle := srcTgtCount_le_remaining E act P c n hact hcP
                rcases Nat.eq_zero_or_pos (remainingCount E act P n) with hz | hz
                · exact Or.inl (by rw [hinv.deg_eq n]; exact hz)
                · right
                  apply (hf2 n).mpr
                  rw [hcntall n]
                  simp only [List.count_nil, Nat.zero_add]
                  exact ⟨hok, by omega, by omega⟩
        obtain ⟨hF1, hF2, hF3, hF4⟩ := hfacts
        have hPc_nd : (P ++ [c]).Nodup := by
          rw [List.nodup_append]
          refine ⟨hPnd, List.nodup_singleton c, ?_⟩
          intro a ha hb
          rw [List.mem_singleton] at hb
          subst hb
          exact hcP ha
        have hstdisj : ∀ x ∈ st.2, x ∉ P ∧ ¬ x = c ∧ x ∉ q := by
          intro x hx
          obtain ⟨_, ⟨e, he, he1, he2⟩, _⟩ := hF2 x hx
          refine ⟨?_, ?_, ?_⟩
          · intro hxP
            have := (kahnOrdered_src E act P hinv.ordered x hxP e he he2).2
            rw [he1] at this
            exact hcP this
          · intro hxc
            subst hxc
            have := (hcQsrc e he he2).2
            rw [he1] at this
            exact hcP this
          · intro hxq
            have := (hinv.queue_src x (List.mem_cons_of_mem c hxq) e he he2).2
            rw [he1] at this
            exact hcP this
        have hinv' : KahnInv E act pushOk K (P ++ [c]) (q ++ st.2) st.1 := by
          refine ⟨?_, hF1, kahnOrdered_snoc E act P c hinv.ordered hcQsrc,
            ?_, ?_, ?_, ?_⟩
          · have hassoc : (P ++ [c]) ++ (q ++ st.2) = (P ++ c :: q) ++ st.2 := by
              simp
            rw [hassoc, List.nodup_append]
            refine ⟨hinv.nodup, hF3, ?_⟩
            intro a ha hb
            obtain ⟨h1, h2, h3⟩ := hstdisj a hb
            rcases List.mem_append.mp ha with ha | ha
            · exact h1 ha
            · rcases List.mem_cons.mp ha with ha | ha
              · exact h2 ha
              · exact h3 ha
          · intro n hn e he h2
            rcases List.mem_append.mp hn with hq | hst
            · have := hinv.queue_src n (List.mem_cons_of_mem c hq) e he h2
              exact ⟨this.1, List.mem_append_left _ this.2⟩
            · exact (hF2 n hst).2.2 e he h2
          · intro n hnK hok h0
            rcases hF4 n hok h0 with hdz | hst
            · rcases hinv.complete n hnK hok hdz with hP | hQ
              · exact Or.inl (List.mem_append_left _ hP)
              · rcases List.mem_cons.mp hQ with hc | hq
                · subst hc
                  exact Or.inl (List.mem_append_right _ (by simp))
                · exact Or.inr (List.mem_append_left _ hq)
            · exact Or.inr (List.mem_append_right _ hst)
          · intro n hn
            rcases List.mem_append.mp hn with hn | hn
            · rcases List.mem_append.mp hn with hn | hn
              · exact hinv.mem_K n (List.mem_append_left _ hn)
              · rw [List.mem_singleton] at hn
                subst hn
                exact hcK
            · rcases List.mem_append.mp hn with hn | hn
              · exact hinv.mem_K n
                  (List.mem_append_right _ (List.mem_cons_of_mem c hn))
              · obtain ⟨_, ⟨e, he, he1, he2⟩, _⟩ := hF2 n hn
                rw [← he2]
                exact htgtK e he
          · intro n hn
            rcases List.mem_append.mp hn with hn | hn
            · exact hinv.push_all n (List.mem_cons_of_mem c hn)
            · exact (hF2 n hn).1
        have hlen : P.length + 1 ≤ K.length := by
          have hh := nodup_subset_length (P ++ [c]) K hPc_nd (by
            intro x hx
            rcases List.mem_append.mp hx with hx | hx
            · exact hinv.mem_K x (List.mem_append_left _ hx)
            · rw [List.mem_singleton] at hx
              subst hx
              exact hcK)
          simpa using hh
        have hf' : K.length - (P ++ [c]).length < fuel := by
          simp only [List.length_append, List.length_singleton]
          omega
        have hres := ih (q ++ st.2) (P ++ [c]) st.1 hinv' hf'
        have happ : ∀ (R : List String), P ++ c :: R = (P ++ [c]) ++ R := by
          intro R
          simp
        rw [happ]
        refine ⟨hres.1, hres.2.1, ?_, hres.2.2.2⟩
        intro n hn
        rcases List.mem_cons.mp hn with hc | hR
        · subst hc
          exact ⟨hcK, hcOk⟩
        · exact hres.2.2.1 n hR

/-- Boolean containment agrees with membership. -/
theorem contains_iff (l : List String) (x : String) : l.contains x = true ↔ x ∈ l := by
  simp [List.elem_eq_mem]

/-- Combined correctness facts about getExecutionOrder obtained by running the
Kahn loop specification from the initial state of the embedded function. -/
theorem getExecutionOrder_spec (nodes : List GradleTaskNode)
    (edges : List GradleEdge) (t : Option (List String)) :
    (getExecutionOrder nodes edges t).Nodup ∧
    (∀ n ∈ getExecutionOrder nodes edges t,
        n ∈ enabledNodeIds nodes ∧
        (requiredNodes nodes edges t).contains n = true) ∧
    kahnOrdered (execEdgePairs nodes edges) (fun _ => true)
      (getExecutionOrder nodes edges t) ∧
    (∀ n ∈ enabledNodeIds nodes,
        (requiredNodes nodes edges t).contains n = true →
        remainingCount (execEdgePairs nodes edges) (fun _ => true)
          (getExecutionOrder nodes edges t) n = 0 →
        n ∈ getExecutionOrder nodes edges t) := by
  have hadj : ∀ v, execAdj nodes edges v =
      if (fun _ : String => true) v then
        ((execEdgePairs nodes edges).filter (fun e => e.1 = v)).map (fun e => e.2)
      else [] := by
    intro v
    rfl
  have htgtK : ∀ e ∈ execEdgePairs nodes edges,
      e.2 ∈ dedupFirst (enabledNodeIds nodes) := by
    intro e he
    rw [dedupFirst_mem]
    unfold execEdgePairs at he
    obtain ⟨ed, hed, hpair⟩ := List.mem_map.mp he
    have hkeep := (List.mem_filter.mp hed).2
    unfold execKeepEdge at hkeep
    simp only [Bool.and_eq_true] at hkeep
    have := hkeep.2
    rw [contains_iff] at this
    rw [← hpair]
    exact this
  have hinv0 : KahnInv (execEdgePairs nodes edges) (fun _ => true)
      (fun n => (requiredNodes nodes edges t).contains n)
      (dedupFirst (enabledNodeIds nodes)) []
      ((dedupFirst (enabledNodeIds nodes)).filter
        (fun id => execInDeg0 nodes edges id = 0 &&
          (requiredNodes nodes edges t).contains id))
      (execInDeg0 nodes edges) := by
    refine ⟨?_, ?_, ?_, ?_, ?_, ?_, ?_⟩
    · simp only [List.nil_append]
      exact (dedupFirst_nodup _).filter _
    · intro n
      unfold execInDeg0 remainingCount
      apply List.countP_congr
      intro e _
      simp
    · intro i hi
      simp at hi
    · intro n hn e he h2
      have hp := (List.mem_filter.mp hn).2
      simp only [Bool.and_eq_true, decide_eq_true_eq] at hp
      have h0 := hp.1
      unfold execInDeg0 at h0
      rw [List.countP_eq_zero] at h0
      exact absurd (by simp [h2] : (fun e => decide (e.2 = n)) e = true) (h0 e he)
    · intro n hnK hok h0
      right
      rw [List.mem_filter]
      refine ⟨hnK, ?_⟩
      show (decide (execInDeg0 nodes edges n = 0) &&
        (requiredNodes nodes edges t).contains n) = true
      rw [Bool.and_eq_true]
      exact ⟨by simp [h0], hok⟩
    · intro n hn
      simp only [List.nil_append] at hn
      exact (List.mem_filter.mp hn).1
    · intro n hn
      have hp := (List.mem_filter.mp hn).2
      simp only [Bool.and_eq_true, decide_eq_true_eq] at hp
      exact hp.2
  have hfuel : (dedupFirst (enabledNodeIds nodes)).length - ([] : List String).length
      < nodes.length + edges.length + 1 := by
    have h1 := dedupFirst_length (enabledNodeIds nodes)
    have h2 : (enabledNodeIds nodes).length ≤ nodes.length := by
      unfold enabledNodeIds enabledNodes
      rw [List.length_map]
      exact List.length_filter_le _ _
    simp only [List.length_nil]
    omega
  have key := kahnLoop_spec (execEdgePairs nodes edges) (fun _ => true)
    (fun n => (requiredNodes nodes edges t).contains n)
    (dedupFirst (enabledNodeIds nodes)) (execAdj nodes edges) hadj htgtK
    (nodes.length + edges.length + 1)
    ((dedupFirst (enabledNodeIds nodes)).filter
      (fun id => execInDeg0 nodes edges id = 0 &&
        (requiredNodes nodes edges t).contains id))
    [] (execInDeg0 nodes edges) hinv0 hfuel
  simp only [List.nil_append] at key
  have horder : getExecutionOrder nodes edges t =
      kahnLoop (execAdj nodes edges)
        (fun n => (requiredNodes nodes edges t).contains n)
        (nodes.length + edges.length + 1)
        ((dedupFirst (enabledNodeIds nodes)).filter
          (fun id => execInDeg0 nodes edges id = 0 &&
            (requiredNodes nodes edges t).contains id))
        (execInDeg0 nodes edges) := by
    show (kahnLoop (execAdj nodes edges)
        (fun n => (requiredNodes nodes edges t).contains n)
        (nodes.length + edges.length + 1)
        ((dedupFirst (enabledNodeIds nodes)).filter
          (fun id => execInDeg0 nodes edges id = 0 &&
            (requiredNodes nodes edges t).contains id))
        (execInDeg0 nodes edges)).filter
        (fun id => (requiredNodes nodes edges t).contains id) = _
    rw [List.filter_eq_self.mpr]
    intro a ha
    exact (key.2.2.1 a ha).2
  rw [horder]
  refine ⟨key.1, ?_, key.2.1, ?_⟩
  · intro n hn
    have hh := key.2.2.1 n hn
    rw [dedupFirst_mem] at hh
    exact ⟨hh.1, hh.2⟩
  · intro n hn hok h0
    exact key.2.2.2 n (by rw [dedupFirst_mem]; exact hn) hok h0

/-- Reachability along a list of directed edge pairs (one or more steps). -/
inductive ReachPairs (E : List (String × String)) : String → String → Prop where
  | base : ∀ a b, (a, b) ∈ E → ReachPairs E a b
  | step : ∀ a b c, (a, b) ∈ E → ReachPairs E b c → ReachPairs E a c

/-- If every member of a nonempty list has an in-edge from a member of the
same list, the edge list contains a cycle. -/
theorem exists_cycle_of_all_have_pred (E : List (String × String))
    (S : List String) (hne : S ≠ [])
    (hpred : ∀ n ∈ S, ∃ u ∈ S, (u, n) ∈ E) :
    ∃ x, ReachPairs E x x := by
  have hS : ∀ (x : {n // n ∈ S}), ∃ (u : {n // n ∈ S}), (u.1, x.1) ∈ E := by
    intro x
    obtain ⟨u, hu, he⟩ := hpred x.1 x.2
    exact ⟨⟨u, hu⟩, he⟩
  choose F hF using hS
  obtain ⟨s0, hs0⟩ := List.exists_mem_of_ne_nil S hne
  have hedge : ∀ k : Nat, ((F^[k + 1] ⟨s0, hs0⟩).1, (F^[k] ⟨s0, hs0⟩).1) ∈ E := by
    intro k
    rw [Function.iterate_succ_apply']
    exact hF (F^[k] ⟨s0, hs0⟩)
  have hchain : ∀ d i : Nat,
      ReachPairs E (F^[i + d + 1] ⟨s0, hs0⟩).1 (F^[i] ⟨s0, hs0⟩).1 := by
    intro d
    induction d with
    | zero =>
        intro i
        exact ReachPairs.base _ _ (hedge i)
    | succ d ihd =>
        intro i
        have h1 := hedge (i + d + 1)
        have h2 := ihd i
        have h3 : i + (d + 1) + 1 = (i + d + 1) + 1 := by omega
        rw [h3]
        exact ReachPairs.step _ _ _ h1 h2
  have hmaps : ∀ k : Fin (S.length + 1), (F^[k.1] ⟨s0, hs0⟩).1 ∈ S.toFinset := by
    intro k
    rw [List.mem_toFinset]
    exact (F^[k.1] ⟨s0, hs0⟩).2
  have hcard : S.toFinset.card < (Finset.univ : Finset (Fin (S.length + 1))).card := by
    rw [Finset.card_univ, Fintype.card_fin]
    exact Nat.lt_succ_of_le (List.toFinset_card_le S)
  obtain ⟨i, _, j, _, hij, heqv⟩ :=
    Finset.exists_ne_map_eq_of_card_lt_of_maps_to hcard
      (fun k _ => hmaps k)
  rcases Nat.lt_or_ge i.1 j.1 with hlt | hge
  · refine ⟨(F^[i.1] ⟨s0, hs0⟩).1, ?_⟩
    have harith : i.1 + (j.1 - i.1 - 1) + 1 = j.1 := by omega
    have := hchain (j.1 - i.1 - 1) i.1
    rw [harith] at this
    rw [← heqv] at this
    exact this
  · have hlt2 : j.1 < i.1 := by
      rcases Nat.lt_or_ge j.1 i.1 with h | h
      · exact h
      · exact absurd (Fin.val_injective (by omega)) hij
    refine ⟨(F^[j.1] ⟨s0, hs0⟩).1, ?_⟩
    have harith : j.1 + (i.1 - j.1 - 1) + 1 = i.1 := by omega
    have := hchain (i.1 - j.1 - 1) j.1
    rw [harith] at this
    rw [heqv] at this
    exact this

/-- Taking shows explicit earlier positions. -/
theorem mem_take_get (l : List String) (j : Nat) (a : String) (h : a ∈ l.take j) :
    ∃ i, ∃ (hi : i < l.length), i < j ∧ l.get ⟨i, hi⟩ = a := by
  obtain ⟨i, hget⟩ := List.mem_iff_get.mp h
  have hlen : (l.take j).length = min j l.length := List.length_take j l
  have hi1 : i.1 < l.length := by
    have := i.2
    omega
  have hi2 : i.1 < j := by
    have := i.2
    omega
  refine ⟨i.1, hi1, hi2, ?_⟩
  rw [← hget]
  rw [List.get_take]
  exact hi2

/-- Both endpoints of a kept scheduling edge are enabled ids. -/
theorem execEdgePairs_endpoints (nodes : List GradleTaskNode)
    (edges : List GradleEdge) :
    ∀ e ∈ execEdgePairs nodes edges,
      e.1 ∈ enabledNodeIds nodes ∧ e.2 ∈ enabledNodeIds nodes := by
  intro e he
  unfold execEdgePairs at he
  obtain ⟨ed, hed, hpair⟩ := List.mem_map.mp he
  have hkeep := (List.mem_filter.mp hed).2
  unfold execKeepEdge at hkeep
  simp only [Bool.and_eq_true] at hkeep
  rw [← hpair]
  exact ⟨(contains_iff _ _).mp hkeep.1.2, (contains_iff _ _).mp hkeep.2⟩

/-- Under an acyclic scheduling subgraph, every enabled id is scheduled. -/
theorem getExecutionOrder_complete (nodes : List GradleTaskNode)
    (edges : List GradleEdge)
    (hacyc : ¬ ∃ x, ReachPairs (execEdgePairs nodes edges) x x) :
    ∀ n ∈ enabledNodeIds nodes, n ∈ getExecutionOrder nodes edges none := by
  have spec := getExecutionOrder_spec nodes edges none
  have hreqeq : requiredNodes nodes edges none = enabledNodeIds nodes := rfl
  by_contra hmiss
  push_neg at hmiss
  obtain ⟨n0, hn0e, hn0o⟩ := hmiss
  have hSne : (enabledNodeIds nodes).filter
      (fun n => !((getExecutionOrder nodes edges none).contains n)) ≠ [] := by
    intro hS
    have : n0 ∈ (enabledNodeIds nodes).filter
        (fun n => !((getExecutionOrder nodes edges none).contains n)) := by
      rw [List.mem_filter]
      refine ⟨hn0e, ?_⟩
      simp only [Bool.not_eq_true', ← Bool.not_eq_true]
      intro hcon
      exact hn0o ((contains_iff _ _).mp hcon)
    rw [hS] at this
    simp at this
  apply hacyc
  apply exists_cycle_of_all_have_pred (execEdgePairs nodes edges)
    ((enabledNodeIds nodes).filter
      (fun n => !((getExecutionOrder nodes edges none).contains n))) hSne
  intro n hn
  rw [List.mem_filter] at hn
  have hne : n ∈ enabledNodeIds nodes := hn.1
  have hno : n ∉ getExecutionOrder nodes edges none := by
    intro hcon
    have := hn.2
    rw [← contains_iff _ n] at hcon
    rw [hcon] at this
    simp at this
  have hok : (requiredNodes nodes edges none).contains n = true := by
    rw [hreqeq]
    exact (contains_iff _ _).mpr hne
  have hrem : remainingCount (execEdgePairs nodes edges) (fun _ => true)
      (getExecutionOrder nodes edges none) n ≠ 0 := by
    intro hz
    exact hno (spec.2.2.2 n hne hok hz)
  have hpos : 0 < remainingCount (execEdgePairs nodes edges) (fun _ => true)
      (getExecutionOrder nodes edges none) n := Nat.pos_of_ne_zero hrem
  unfold remainingCount at hpos
  obtain ⟨e, he, hpe⟩ := List.countP_pos.mp hpos
  simp only [decide_eq_true_eq] at hpe
  have hu_en := (execEdgePairs_endpoints nodes edges e he).1
  have hu_no : e.1 ∉ getExecutionOrder nodes edges none := by
    rcases hpe.2 with h | h
    · simp at h
    · exact h
  refine ⟨e.1, ?_, ?_⟩
  · rw [List.mem_filter]
    refine ⟨hu_en, ?_⟩
    simp only [Bool.not_eq_true', ← Bool.not_eq_true]
    intro hcon
    exact hu_no ((contains_iff _ _).mp hcon)
  · rw [← hpe.1]
    exact he

/-- Claim C1: for every graph whose hard dependsOn edges among enabled nodes
form an acyclic subgraph, getExecutionOrder with no target subset returns a
valid topological order: both endpoints of every kept edge appear, and the
source appears strictly before the target. -/
theorem C1_topological_order (nodes : List GradleTaskNode)
    (edges : List GradleEdge)
    (hacyc : ¬ ∃ x, ReachPairs (execEdgePairs nodes edges) x x) :
    ∀ e ∈ edges, execKeepEdge nodes e = true →
      ∃ i j, ∃ (hi : i < (getExecutionOrder nodes edges none).length)
        (hj : j < (getExecutionOrder nodes edges none).length),
        i < j ∧
        (getExecutionOrder nodes edges none).get ⟨i, hi⟩ = e.source ∧
        (getExecutionOrder nodes edges none).get ⟨j, hj⟩ = e.target := by
  intro e he hkeep
  have spec := getExecutionOrder_spec nodes edges none
  have hpair : (e.source, e.target) ∈ execEdgePairs nodes edges := by
    unfold execEdgePairs
    exact List.mem_map.mpr ⟨e, List.mem_filter.mpr ⟨he, hkeep⟩, rfl⟩
  have htgt_en : e.target ∈ enabledNodeIds nodes :=
    (execEdgePairs_endpoints nodes edges (e.source, e.target) hpair).2
  have htgt_in := getExecutionOrder_complete nodes edges hacyc e.target htgt_en
  obtain ⟨jf, hjf⟩ := List.mem_iff_get.mp htgt_in
  have hord := spec.2.2.1 jf.1 jf.2 (e.source, e.target) hpair (by rw [hjf])
  obtain ⟨i, hi, hij, hgeti⟩ := mem_take_get _ jf.1 e.source hord.2
  exact ⟨i, jf.1, hi, jf.2, hij, hgeti, hjf⟩

/-- Third node of the concrete fixtures. -/
def nodeC : GradleTaskNode :=
  { id := "C", data := { taskName := "c", taskType := GradleTaskType.Custom } }

/-- Hard dependsOn edge from A to B. -/
def edgeABdep : GradleEdge :=
  { id := "eAB", source := "A", target := "B",
    data := some { dependencyType := DependencyType.dependsOn } }

/-- Hard dependsOn edge from B to C. -/
def edgeBCdep : GradleEdge :=
  { id := "eBC", source := "B", target := "C",
    data := some { dependencyType := DependencyType.dependsOn } }

/-- Hard dependsOn edge from B back to A (closes a two-node cycle). -/
def edgeBAdep : GradleEdge :=
  { id := "eBA", source := "B", target := "A",
    data := some { dependencyType := DependencyType.dependsOn } }

/-- Witness for C1 at the concrete chain A depends-on-by B: the order places
A strictly before B. -/
theorem C1_topological_order_witness :
    ∃ i j, ∃ (hi : i < (getExecutionOrder [nodeA, nodeB] [edgeABdep] none).length)
      (hj : j < (getExecutionOrder [nodeA, nodeB] [edgeABdep] none).length),
      i < j ∧
      (getExecutionOrder [nodeA, nodeB] [edgeABdep] none).get ⟨i, hi⟩ = edgeABdep.source ∧
      (getExecutionOrder [nodeA, nodeB] [edgeABdep] none).get ⟨j, hj⟩ = edgeABdep.target := by
  have hE : execEdgePairs [nodeA, nodeB] [edgeABdep] = [("A", "B")] := by decide
  have hacyc : ¬ ∃ x, ReachPairs (execEdgePairs [nodeA, nodeB] [edgeABdep]) x x := by
    rw [hE]
    rintro ⟨x, hx⟩
    cases hx with
    | base a b hmem =>
        rw [List.mem_singleton] at hmem
        have h1 : x = "A" := congrArg Prod.fst hmem
        have h2 : x = "B" := congrArg Prod.snd hmem
        rw [h1] at h2
        exact absurd h2 (by decide)
    | step a b hmem hreach =>
        rename_i hmm
        rw [List.mem_singleton] at hreach
        have h1 : x = "A" := congrArg Prod.fst hreach
        have h2 : b = "B" := congrArg Prod.snd hreach
        subst h2
        rw [h1] at hmm
        cases hmm with
        | base a2 b2 hmem2 =>
            rw [List.mem_singleton] at hmem2
            have hba : ("B" : String) = "A" := congrArg Prod.fst hmem2
            exact absurd hba (by decide)
        | step a2 b2 hmem2 hreach2 =>
            rename_i hmm2
            rw [List.mem_singleton] at hreach2
            have hba : ("B" : String) = "A" := congrArg Prod.fst hreach2
            exact absurd hba (by decide)
  exact C1_topological_order [nodeA, nodeB] [edgeABdep] hacyc edgeABdep
    (by simp) (by decide)

/-- Transitive dependsOn-closure of a target set within an edge list. -/
inductive InClosure (edges : List GradleEdge) (targets : List String) : String → Prop where
  | tgt : ∀ t, t ∈ targets → InClosure edges targets t
  | pred : ∀ e b, InClosure edges targets b → e ∈ edges →
      edgeIsDependsOn e = true → e.target = b → InClosure edges targets e.source

/-- Unfolding: the back-walk with no fuel. -/
theorem requiredLoop_zero (enabledIds : List String) (edges : List GradleEdge)
    (stack acc : List String) :
    requiredLoop enabledIds edges 0 stack acc = acc := by
  cases stack <;> rfl

/-- Unfolding: the back-walk with an empty stack. -/
theorem requiredLoop_nilstack (enabledIds : List String) (edges : List GradleEdge)
    (fuel : Nat) (acc : List String) :
    requiredLoop enabledIds edges fuel [] acc = acc := by
  cases fuel <;> rfl

/-- Unfolding: one iteration of the back-walk. -/
theorem requiredLoop_cons (enabledIds : List String) (edges : List GradleEdge)
    (fuel : Nat) (nodeId : String) (stack acc : List String) :
    requiredLoop enabledIds edges (fuel + 1) (nodeId :: stack) acc =
      if acc.contains nodeId || !(enabledIds.contains nodeId) then
        requiredLoop enabledIds edges fuel stack acc
      else
        requiredLoop enabledIds edges fuel
          (((edges.filter (fun e => e.target = nodeId && edgeIsDependsOn e)).map
            (fun e => e.source)).reverse ++ stack)
          (acc ++ [nodeId]) := rfl

/-- Everything the back-walk accumulates lies in the dependsOn-closure of
whatever the stack and accumulator already contain. -/
theorem requiredLoop_closure (enabledIds : List String) (edges : List GradleEdge)
    (targets : List String) :
    ∀ (fuel : Nat) (stack acc : List String),
      (∀ n ∈ stack, InClosure edges targets n) →
      (∀ n ∈ acc, InClosure edges targets n) →
      ∀ n ∈ requiredLoop enabledIds edges fuel stack acc,
        InClosure edges targets n := by
  intro fuel
  induction fuel with
  | zero =>
      intro stack acc _ ha n hn
      rw [requiredLoop_zero] at hn
      exact ha n hn
  | succ fuel ih =>
      intro stack acc hs ha n hn
      rcases stack with _ | ⟨nodeId, stack⟩
      · rw [requiredLoop_nilstack] at hn
        exact ha n hn
      · rw [requiredLoop_cons] at hn
        by_cases hc : (acc.contains nodeId || !(enabledIds.contains nodeId)) = true
        · rw [if_pos hc] at hn
          exact ih stack acc (fun m hm => hs m (List.mem_cons_of_mem _ hm)) ha n hn
        · rw [if_neg hc] at hn
          apply ih _ _ ?hstack ?hacc n hn
          case hstack =>
            intro m hm
            rcases List.mem_append.mp hm with hm | hm
            · rw [List.mem_reverse] at hm
              obtain ⟨e, he, hsrc⟩ := List.mem_map.mp hm
              have hf := (List.mem_filter.mp he).2
              simp only [Bool.and_eq_true, decide_eq_true_eq] at hf
              rw [← hsrc]
              exact InClosure.pred e nodeId (hs nodeId (List.mem_cons_self _ _))
                (List.mem_of_mem_filter he) hf.2 hf.1
            · exact hs m (List.mem_cons_of_mem _ hm)
          case hacc =>
            intro m hm
            rcases List.mem_append.mp hm with hm | hm
            · exact ha m hm
            · rw [List.mem_singleton] at hm
              subst hm
              exact hs m (List.mem_cons_self _ _)

/-- Claim C9: the id list returned by getExecutionOrder has no duplicates,
contains only ids of nodes whose enabled flag is not false, and, when a
non-empty target list is supplied, contains only ids in the transitive
dependsOn-closure of the requested targets. -/
theorem C9_execution_order_invariants (nodes : List GradleTaskNode)
    (edges : List GradleEdge) (t : Option (List String)) :
    (getExecutionOrder nodes edges t).Nodup ∧
    (∀ id ∈ getExecutionOrder nodes edges t,
        ∃ node ∈ nodes, node.id = id ∧ node.data.enabled ≠ some false) ∧
    (∀ ts, t = some ts → ts ≠ [] →
        ∀ id ∈ getExecutionOrder nodes edges t, InClosure edges ts id) := by
  have spec := getExecutionOrder_spec nodes edges t
  refine ⟨spec.1, ?_, ?_⟩
  · intro id hid
    have hen := (spec.2.1 id hid).1
    unfold enabledNodeIds enabledNodes at hen
    obtain ⟨node, hmem, hnid⟩ := List.mem_map.mp hen
    have := List.mem_filter.mp hmem
    refine ⟨node, this.1, hnid, ?_⟩
    have hp := this.2
    simp only [decide_eq_true_eq] at hp
    exact hp
  · intro ts hts htsne id hid
    subst hts
    have hreq := (spec.2.1 id hid).2
    have hcomputed : requiredNodes nodes edges (some ts) =
        computeRequired nodes edges ts := by
      unfold requiredNodes
      dsimp only
      rw [if_pos (List.length_pos.mpr htsne)]
    rw [hcomputed, contains_iff] at hreq
    unfold computeRequired at hreq
    apply requiredLoop_closure (enabledNodeIds nodes) edges ts _ _ _
      ?_ ?_ id hreq
    · intro m hm
      rw [List.mem_reverse] at hm
      exact InClosure.tgt m hm
    · intro m hm
      simp at hm

/-- Witness for C9 at the chain A before B before C with target C: the order
is duplicate-free and A lies in the closure of the target set. -/
theorem C9_execution_order_invariants_witness :
    (getExecutionOrder [nodeA, nodeB, nodeC] [edgeABdep, edgeBCdep] (some ["C"])).Nodup ∧
    InClosure [edgeABdep, edgeBCdep] ["C"] "A" := by
  have h := C9_execution_order_invariants [nodeA, nodeB, nodeC]
    [edgeABdep, edgeBCdep] (some ["C"])
  refine ⟨h.1, ?_⟩
  apply h.2.2 ["C"] rfl (by decide) "A"
  decide

/-- Claim C6 counterexample: with the two-node dependsOn cycle between A and
B and no targets, every node is enabled and required, yet getExecutionOrder
returns the empty list; the unresolved nodes are omitted, not appended. -/
theorem C6_counterexample :
    getExecutionOrder [nodeA, nodeB] [edgeABdep, edgeBAdep] none = [] ∧
    "A" ∈ enabledNodeIds [nodeA, nodeB] ∧
    "B" ∈ enabledNodeIds [nodeA, nodeB] := by
  refine ⟨by decide, by decide, by decide⟩

/-- The Kahn-resolved prefix of the export-side topological sort, before the
defensive fallback appends the unresolved nodes. -/
def exportLoopResult (nodes : List GradleTaskNode) (edges : List GradleEdge) :
    List GradleTaskNode :=
  let nodeMap := jsMapBuild (nodes.map (fun n => (n.id, n)))
  let K := exportKeys nodes edges
  let queue0 := K.filter (fun id => exportInDeg0 edges id = 0)
  let popped := kahnLoop (exportAdj nodes edges) (fun _ => true)
      (nodes.length + edges.length + 1) queue0 (exportInDeg0 edges)
  popped.filterMap (fun id => jsMapGet nodeMap id)

/-- Claim C6 (amended): the append-unresolved fallback lives in the export
side topologicalSort of gradleExport, not in getExecutionOrder. There the
output is exactly the Kahn-resolved prefix followed by the nodes it missed
in original order, so every input node appears in the output even when the
kept-edge subgraph contains a cycle. -/
theorem C6_export_sort_total (nodes : List GradleTaskNode)
    (edges : List GradleEdge) :
    topologicalSortExport nodes edges =
      exportLoopResult nodes edges ++
        nodes.filter (fun n => !((exportLoopResult nodes edges).contains n)) ∧
    ∀ n ∈ nodes, n ∈ topologicalSortExport nodes edges := by
  have hdecomp : topologicalSortExport nodes edges =
      exportLoopResult nodes edges ++
        nodes.filter (fun n => !((exportLoopResult nodes edges).contains n)) := rfl
  refine ⟨hdecomp, ?_⟩
  intro n hn
  rw [hdecomp]
  by_cases hc : (exportLoopResult nodes edges).contains n
  · apply List.mem_append_left
    simpa using hc
  · apply List.mem_append_right
    apply List.mem_filter.mpr
    exact ⟨hn, by simpa using hc⟩

/-- Witness for the amended C6 at the two-node dependsOn cycle: both nodes
still appear in the export-side sort output. -/
theorem C6_export_sort_total_witness :
    nodeA ∈ topologicalSortExport [nodeA, nodeB] [edgeABdep, edgeBAdep] ∧
    nodeB ∈ topologicalSortExport [nodeA, nodeB] [edgeABdep, edgeBAdep] :=
  ⟨(C6_export_sort_total [nodeA, nodeB] [edgeABdep, edgeBAdep]).2 nodeA (by decide),
   (C6_export_sort_total [nodeA, nodeB] [edgeABdep, edgeBAdep]).2 nodeB (by decide)⟩

-- ==========================================================================
-- C2: what the cycle check of wouldCreateCycle actually detects
-- ==========================================================================

/-- Reachability by a nonempty path along the adjacency map of the cycle
check: one step goes from a key to a member of its stored neighbor list. -/
inductive ReachAdj (A : List (String × List String)) : String → String → Prop where
  | base : ∀ a b, b ∈ ((jsMapGet A a).getD []) → ReachAdj A a b
  | step : ∀ a b c, b ∈ ((jsMapGet A a).getD []) → ReachAdj A b c → ReachAdj A a c

/-- A path may be extended by one adjacency step at its end. -/
theorem ReachAdj_snoc (A : List (String × List String)) :
    ∀ a b c, ReachAdj A a b → c ∈ ((jsMapGet A b).getD []) → ReachAdj A a c := by
  intro a b c hab hbc
  induction hab with
  | base x y hxy => exact ReachAdj.step x y c hxy (ReachAdj.base y c hbc)
  | step x y z hxy _ ih => exact ReachAdj.step x y c hxy (ih hbc)

/-- Unfolding: the DFS with no fuel. -/
theorem hasCycleDFS_zero (A : List (String × List String))
    (nodeId : String) (visited stack : List String) :
    hasCycleDFS A 0 nodeId visited stack = (false, visited, stack) := by
  rw [hasCycleDFS]

/-- Unfolding: one step of the DFS. -/
theorem hasCycleDFS_succ (A : List (String × List String)) (fuel : Nat)
    (nodeId : String) (visited stack : List String) :
    hasCycleDFS A (fuel + 1) nodeId visited stack =
      (match hasCycleDFSNbrs A fuel ((jsMapGet A nodeId).getD [])
          (jsSetAdd visited nodeId) (jsSetAdd stack nodeId) with
       | (true, v, s) => (true, v, s)
       | (false, v, s) => (false, v, s.filter (fun x => x ≠ nodeId))) := rfl

/-- Unfolding: the neighbor loop on an empty list. -/
theorem hasCycleDFSNbrs_nil (A : List (String × List String)) (fuel : Nat)
    (visited stack : List String) :
    hasCycleDFSNbrs A fuel [] visited stack = (false, visited, stack) := rfl

/-- Unfolding: one step of the neighbor loop. -/
theorem hasCycleDFSNbrs_cons (A : List (String × List String)) (fuel : Nat)
    (neighbor : String) (rest visited stack : List String) :
    hasCycleDFSNbrs A fuel (neighbor :: rest) visited stack =
      (if visited.contains neighbor then
        if stack.contains neighbor then (true, visited, stack)
        else hasCycleDFSNbrs A fuel rest visited stack
      else
        match hasCycleDFS A fuel neighbor visited stack with
        | (true, v, s) => (true, v, s)
        | (false, v, s) => hasCycleDFSNbrs A fuel rest v s) := rfl

/-- jsSetAdd on a fresh element appends it. -/
theorem jsSetAdd_not_mem (l : List String) (x : String) (h : x ∉ l) :
    jsSetAdd l x = l ++ [x] := by
  unfold jsSetAdd
  rw [if_neg]
  intro hc
  exact h (contains_iff l x |>.mp hc)

/-- Membership in a jsSetAdd result. -/
theorem mem_jsSetAdd (l : List String) (x y : String) :
    y ∈ jsSetAdd l x ↔ y ∈ l ∨ y = x := by
  unfold jsSetAdd
  by_cases hc : l.contains x = true
  · rw [if_pos hc]
    constructor
    · exact Or.inl
    · intro h
      rcases h with h | h
      · exact h
      · subst h; exact (contains_iff l y).mp hc
  · rw [if_neg hc]
    simp

/-- A DFS call on an unvisited node only grows the visited set and, when it
returns false, restores the recursion stack it was given. -/
theorem dfs_restore (A : List (String × List String)) :
    ∀ fuel : Nat,
      (∀ nodeId visited stack b v s,
          (∀ x ∈ stack, x ∈ visited) → nodeId ∉ visited →
          hasCycleDFS A fuel nodeId visited stack = (b, v, s) →
          (∀ x ∈ visited, x ∈ v) ∧ (b = false → s = stack)) ∧
      (∀ nbrs visited stack b v s,
          (∀ x ∈ stack, x ∈ visited) →
          hasCycleDFSNbrs A fuel nbrs visited stack = (b, v, s) →
          (∀ x ∈ visited, x ∈ v) ∧ (b = false → s = stack)) := by
  intro fuel
  induction fuel with
  | zero =>
      constructor
      · intro nodeId visited stack b v s _ _ heq
        rw [hasCycleDFS_zero] at heq
        injection heq with h1 h2
        injection h2 with h2 h3
        subst h2 h3
        exact ⟨fun x hx => hx, fun _ => rfl⟩
      · intro nbrs
        induction nbrs with
        | nil =>
            intro visited stack b v s _ heq
            rw [hasCycleDFSNbrs_nil] at heq
            injection heq with h1 h2
            injection h2 with h2 h3
            subst h2 h3
            exact ⟨fun x hx => hx, fun _ => rfl⟩
        | cons neighbor rest ih =>
            intro visited stack b v s hsv heq
            rw [hasCycleDFSNbrs_cons] at heq
            by_cases hv : visited.contains neighbor = true
            · rw [if_pos hv] at heq
              by_cases hst : stack.contains neighbor = true
              · rw [if_pos hst] at heq
                injection heq with h1 h2
                injection h2 with h2 h3
                subst h2 h3
                exact ⟨fun x hx => hx, fun hb => absurd h1.symm (by simp [hb])⟩
              · rw [if_neg hst] at heq
                exact ih visited stack b v s hsv heq
            · rw [if_neg hv] at heq
              rcases hdfs : hasCycleDFS A 0 neighbor visited stack with ⟨b1, v1, s1⟩
              rw [hdfs] at heq
              rw [hasCycleDFS_zero] at hdfs
              injection hdfs with hb1 h2
              injection h2 with hv1 hs1
              subst hb1 hv1 hs1
              simp only [] at heq
              exact ih visited stack b v s hsv heq
  | succ fuel ih =>
      have hdfs : ∀ nodeId visited stack b v s,
          (∀ x ∈ stack, x ∈ visited) → nodeId ∉ visited →
          hasCycleDFS A (fuel + 1) nodeId visited stack = (b, v, s) →
          (∀ x ∈ visited, x ∈ v) ∧ (b = false → s = stack) := by
        intro nodeId visited stack b v s hsv hnv heq
        rw [hasCycleDFS_succ] at heq
        rcases hn : hasCycleDFSNbrs A fuel ((jsMapGet A nodeId).getD [])
            (jsSetAdd visited nodeId) (jsSetAdd stack nodeId) with ⟨b1, v1, s1⟩
        rw [hn] at heq
        have hsv1 : ∀ x ∈ jsSetAdd stack nodeId, x ∈ jsSetAdd visited nodeId := by
          intro x hx
          rw [mem_jsSetAdd] at hx ⊢
          rcases hx with hx | hx
          · exact Or.inl (hsv x hx)
          · exact Or.inr hx
        have hrec := ih.2 ((jsMapGet A nodeId).getD [])
          (jsSetAdd visited nodeId) (jsSetAdd stack nodeId) b1 v1 s1 hsv1 hn
        have hgrow : ∀ x ∈ visited, x ∈ v1 := by
          intro x hx
          exact hrec.1 x ((mem_jsSetAdd visited nodeId x).mpr (Or.inl hx))
        cases b1 with
        | true =>
            simp only [] at heq
            injection heq with h1 h2
            injection h2 with h2 h3
            subst h2 h3
            exact ⟨hgrow, fun hb => absurd h1.symm (by simp [hb])⟩
        | false =>
            simp only [] at heq
            injection heq with h1 h2
            injection h2 with h2 h3
            subst h2 h3
            refine ⟨hgrow, fun _ => ?_⟩
            have hs1 : s1 = jsSetAdd stack nodeId := hrec.2 rfl
            have hns : nodeId ∉ stack := fun hc => hnv (hsv nodeId hc)
            rw [hs1, jsSetAdd_not_mem stack nodeId hns, List.filter_append]
            have h1 : stack.filter (fun x => x ≠ nodeId) = stack := by
              apply List.filter_eq_self.mpr
              intro x hx
              simp only [ne_eq, decide_not, Bool.not_eq_true']
              rw [decide_eq_false_iff_not]
              intro hxe
              subst hxe
              exact hns hx
            have h2 : ([nodeId] : List String).filter (fun x => x ≠ nodeId) = [] := by
              simp
            rw [h1, h2, List.append_nil]
      refine ⟨hdfs, ?_⟩
      intro nbrs
      induction nbrs with
      | nil =>
          intro visited stack b v s _ heq
          rw [hasCycleDFSNbrs_nil] at heq
          injection heq with h1 h2
          injection h2 with h2 h3
          subst h2 h3
          exact ⟨fun x hx => hx, fun _ => rfl⟩
      | cons neighbor rest ihl =>
          intro visited stack b v s hsv heq
          rw [hasCycleDFSNbrs_cons] at heq
          by_cases hv : visited.contains neighbor = true
          · rw [if_pos hv] at heq
            by_cases hst : stack.contains neighbor = true
            · rw [if_pos hst] at heq
              injection heq with h1 h2
              injection h2 with h2 h3
              subst h2 h3
              exact ⟨fun x hx => hx, fun hb => absurd h1.symm (by simp [hb])⟩
            · rw [if_neg hst] at heq
              exact ihl visited stack b v s hsv heq
          · rw [if_neg hv] at heq
            rcases hd : hasCycleDFS A (fuel + 1) neighbor visited stack
              with ⟨b1, v1, s1⟩
            rw [hd] at heq
            have hnv : neighbor ∉ visited := fun hc =>
              hv ((contains_iff visited neighbor).mpr hc)
            have hrec := hdfs neighbor visited stack b1 v1 s1 hsv hnv hd
            cases b1 with
            | true =>
                simp only [] at heq
                injection heq with h1 h2
                injection h2 with h2 h3
                subst h2 h3
                exact ⟨hrec.1, fun hb => absurd h1.symm (by simp [hb])⟩
            | false =>
                simp only [] at heq
                have hs1 : s1 = stack := hrec.2 rfl
                rw [hs1] at heq
                have hsv1 : ∀ x ∈ stack, x ∈ v1 := fun x hx =>
                  hrec.1 x (hsv x hx)
                have hrest := ihl v1 stack b v s hsv1 heq
                exact ⟨fun x hx => hrest.1 x (hrec.1 x hx), hrest.2⟩

/-- Soundness of the DFS: a true result means the adjacency map really
contains a cycle.  The recursion stack is invariantly a chain of nodes each
reaching the current node. -/
theorem dfs_sound (A : List (String × List String)) :
    ∀ fuel : Nat,
      (∀ nodeId visited stack v s,
          (∀ x ∈ stack, ReachAdj A x nodeId ∨ x = nodeId) →
          (∀ x ∈ stack, x ∈ visited) → nodeId ∉ visited →
          hasCycleDFS A fuel nodeId visited stack = (true, v, s) →
          ∃ z, ReachAdj A z z) ∧
      (∀ cur nbrs visited stack v s,
          (∀ x ∈ stack, ReachAdj A x cur ∨ x = cur) →
          (∀ x ∈ stack, x ∈ visited) →
          (∀ n ∈ nbrs, n ∈ ((jsMapGet A cur).getD [])) →
          hasCycleDFSNbrs A fuel nbrs visited stack = (true, v, s) →
          ∃ z, ReachAdj A z z) := by
  have hnbrs : ∀ fuel : Nat,
      (∀ nodeId visited stack v s,
          (∀ x ∈ stack, ReachAdj A x nodeId ∨ x = nodeId) →
          (∀ x ∈ stack, x ∈ visited) → nodeId ∉ visited →
          hasCycleDFS A fuel nodeId visited stack = (true, v, s) →
          ∃ z, ReachAdj A z z) →
      (∀ cur nbrs visited stack v s,
          (∀ x ∈ stack, ReachAdj A x cur ∨ x = cur) →
          (∀ x ∈ stack, x ∈ visited) →
          (∀ n ∈ nbrs, n ∈ ((jsMapGet A cur).getD [])) →
          hasCycleDFSNbrs A fuel nbrs visited stack = (true, v, s) →
          ∃ z, ReachAdj A z z) := by
    intro fuel hdfs cur nbrs
    induction nbrs with
    | nil =>
        intro visited stack v s _ _ _ heq
        rw [hasCycleDFSNbrs_nil] at heq
        exact absurd (congrArg Prod.fst heq) (by simp)
    | cons neighbor rest ihl =>
        intro visited stack v s hchain hsv hnb heq
        rw [hasCycleDFSNbrs_cons] at heq
        have hadj : neighbor ∈ ((jsMapGet A cur).getD []) :=
          hnb neighbor (List.mem_cons_self _ _)
        by_cases hv : visited.contains neighbor = true
        · rw [if_pos hv] at heq
          by_cases hst : stack.contains neighbor = true
          · have hmem : neighbor ∈ stack := (contains_iff stack neighbor).mp hst
            rcases hchain neighbor hmem with hr | he
            · exact ⟨neighbor, ReachAdj_snoc A neighbor cur neighbor hr hadj⟩
            · subst he
              exact ⟨neighbor, ReachAdj.base neighbor neighbor hadj⟩
          · rw [if_neg hst] at heq
            exact ihl visited stack v s hchain hsv
              (fun n hn => hnb n (List.mem_cons_of_mem _ hn)) heq
        · rw [if_neg hv] at heq
          have hnv : neighbor ∉ visited := fun hc =>
            hv ((contains_iff visited neighbor).mpr hc)
          rcases hd : hasCycleDFS A fuel neighbor visited stack with ⟨b1, v1, s1⟩
          rw [hd] at heq
          have hchain1 : ∀ x ∈ stack, ReachAdj A x neighbor ∨ x = neighbor := by
            intro x hx
            rcases hchain x hx with hr | he
            · exact Or.inl (ReachAdj_snoc A x cur neighbor hr hadj)
            · subst he
              exact Or.inl (ReachAdj.base x neighbor hadj)
          cases b1 with
          | true => exact hdfs neighbor visited stack v1 s1 hchain1 hsv hnv hd
          | false =>
              simp only [] at heq
              have hrest := (dfs_restore A fuel).1 neighbor visited stack
                false v1 s1 hsv hnv hd
              have hs1 : s1 = stack := hrest.2 rfl
              rw [hs1] at heq
              exact ihl v1 stack v s hchain
                (fun x hx => hrest.1 x (hsv x hx))
                (fun n hn => hnb n (List.mem_cons_of_mem _ hn)) heq
  intro fuel
  induction fuel with
  | zero =>
      refine ⟨?_, hnbrs 0 ?_⟩ <;>
      · intro nodeId visited stack v s _ _ _ heq
        rw [hasCycleDFS_zero] at heq
        exact absurd (congrArg Prod.fst heq) (by simp)
  | succ fuel ih =>
      have hdfs : ∀ nodeId visited stack v s,
          (∀ x ∈ stack, ReachAdj A x nodeId ∨ x = nodeId) →
          (∀ x ∈ stack, x ∈ visited) → nodeId ∉ visited →
          hasCycleDFS A (fuel + 1) nodeId visited stack = (true, v, s) →
          ∃ z, ReachAdj A z z := by
        intro nodeId visited stack v s hchain hsv hnv heq
        rw [hasCycleDFS_succ] at heq
        rcases hn : hasCycleDFSNbrs A fuel ((jsMapGet A nodeId).getD [])
            (jsSetAdd visited nodeId) (jsSetAdd stack nodeId) with ⟨b1, v1, s1⟩
        rw [hn] at heq
        cases b1 with
        | false =>
            simp only [] at heq
            exact absurd (congrArg Prod.fst heq) (by simp)
        | true =>
            have hchain1 : ∀ x ∈ jsSetAdd stack nodeId,
                ReachAdj A x nodeId ∨ x = nodeId := by
              intro x hx
              rcases (mem_jsSetAdd stack nodeId x).mp hx with hx | hx
              · exact hchain x hx
              · exact Or.inr hx
            have hsv1 : ∀ x ∈ jsSetAdd stack nodeId, x ∈ jsSetAdd visited nodeId := by
              intro x hx
              rw [mem_jsSetAdd] at hx ⊢
              rcases hx with hx | hx
              · exact Or.inl (hsv x hx)
              · exact Or.inr hx
            exact hnbrs fuel ih.1 nodeId ((jsMapGet A nodeId).getD [])
              (jsSetAdd visited nodeId) (jsSetAdd stack nodeId) v1 s1
              hchain1 hsv1 (fun n hn => hn) hn
      exact ⟨hdfs, hnbrs (fuel + 1) hdfs⟩

/-- Black-closure: every fully processed node (visited and off the recursion
stack) has all its adjacency-map neighbors fully processed as well. -/
def cycleBlackClosed (A : List (String × List String)) (V S : List String) : Prop :=
  ∀ x, x ∈ V → x ∉ S → ∀ y, y ∈ ((jsMapGet A x).getD []) → y ∈ V ∧ y ∉ S

/-- No cycle of the adjacency map runs through a fully processed node. -/
def cycleNoBlackCycle (A : List (String × List String)) (V S : List String) : Prop :=
  ∀ x, x ∈ V → x ∉ S → ¬ ReachAdj A x x

/-- From a fully processed node, everything reachable is fully processed. -/
theorem reach_black (A : List (String × List String)) (V S : List String)
    (hB : cycleBlackClosed A V S) :
    ∀ x z, ReachAdj A x z → x ∈ V → x ∉ S → z ∈ V ∧ z ∉ S := by
  intro x z hr
  induction hr with
  | base a b hab => exact fun hv hs => hB a hv hs b hab
  | step a b c hab _ ih =>
      intro hv hs
      have hb := hB a hv hs b hab
      exact ih hb.1 hb.2

/-- Marking a fresh element shrinks the set of unvisited universe elements. -/
theorem card_sdiff_append_lt (U visited : List String) (n : String)
    (hU : n ∈ U) (hnv : n ∉ visited) :
    (U.toFinset \ (visited ++ [n]).toFinset).card <
      (U.toFinset \ visited.toFinset).card := by
  have hsub : U.toFinset \ (visited ++ [n]).toFinset ⊆
      U.toFinset \ visited.toFinset := by
    intro x hx
    rw [Finset.mem_sdiff] at hx ⊢
    refine ⟨hx.1, fun hc => hx.2 ?_⟩
    rw [List.mem_toFinset] at hc
    rw [List.mem_toFinset]
    exact List.mem_append_left _ hc
  have hmem : n ∈ U.toFinset \ visited.toFinset := by
    rw [Finset.mem_sdiff, List.mem_toFinset, List.mem_toFinset]
    exact ⟨hU, hnv⟩
  have hnot : n ∉ U.toFinset \ (visited ++ [n]).toFinset := by
    rw [Finset.mem_sdiff, List.mem_toFinset, List.mem_toFinset]
    intro h
    exact h.2 (List.mem_append_right _ (List.mem_singleton.mpr rfl))
  exact Finset.card_lt_card ((Finset.ssubset_iff_of_subset hsub).mpr ⟨n, hmem, hnot⟩)

/-- Growing the visited list cannot grow the set of unvisited elements. -/
theorem card_sdiff_le_of_subset (U v1 v2 : List String)
    (h : ∀ x ∈ v1, x ∈ v2) :
    (U.toFinset \ v2.toFinset).card ≤ (U.toFinset \ v1.toFinset).card := by
  apply Finset.card_le_card
  intro x hx
  rw [Finset.mem_sdiff] at hx ⊢
  refine ⟨hx.1, fun hc => hx.2 ?_⟩
  rw [List.mem_toFinset] at hc ⊢
  exact h x hc

/-- Completeness invariant of the DFS: a false-returning call on a fresh node,
given enough fuel, restores the stack, marks the node, and preserves both the
black-closure and the absence of cycles through fully processed nodes. -/
theorem dfs_complete (A : List (String × List String)) (U : List String)
    (hU : ∀ x y, y ∈ ((jsMapGet A x).getD []) → y ∈ U) :
    ∀ fuel : Nat,
      (∀ nodeId visited stack v s,
          (U.toFinset \ visited.toFinset).card < fuel →
          nodeId ∈ U → nodeId ∉ visited → (∀ x ∈ stack, x ∈ visited) →
          cycleBlackClosed A visited stack → cycleNoBlackCycle A visited stack →
          hasCycleDFS A fuel nodeId visited stack = (false, v, s) →
          (∀ x ∈ visited, x ∈ v) ∧ s = stack ∧ nodeId ∈ v ∧
            cycleBlackClosed A v s ∧ cycleNoBlackCycle A v s) ∧
      (∀ nbrs visited stack v s,
          (U.toFinset \ visited.toFinset).card < fuel →
          (∀ n ∈ nbrs, n ∈ U) →
          (∀ x ∈ stack, x ∈ visited) →
          cycleBlackClosed A visited stack → cycleNoBlackCycle A visited stack →
          hasCycleDFSNbrs A fuel nbrs visited stack = (false, v, s) →
          (∀ x ∈ visited, x ∈ v) ∧ s = stack ∧
            (∀ n ∈ nbrs, n ∈ v ∧ n ∉ s) ∧
            cycleBlackClosed A v s ∧ cycleNoBlackCycle A v s) := by
  intro fuel
  induction fuel with
  | zero =>
      constructor
      · intro nodeId visited stack v s hfuel
        exact absurd hfuel (by omega)
      · intro nbrs visited stack v s hfuel _ _ _ _ _
        exact absurd hfuel (by omega)
  | succ fuel ih =>
      have hdfs : ∀ nodeId visited stack v s,
          (U.toFinset \ visited.toFinset).card < fuel + 1 →
          nodeId ∈ U → nodeId ∉ visited → (∀ x ∈ stack, x ∈ visited) →
          cycleBlackClosed A visited stack → cycleNoBlackCycle A visited stack →
          hasCycleDFS A (fuel + 1) nodeId visited stack = (false, v, s) →
          (∀ x ∈ visited, x ∈ v) ∧ s = stack ∧ nodeId ∈ v ∧
            cycleBlackClosed A v s ∧ cycleNoBlackCycle A v s := by
        intro nodeId visited stack v s hfuel hnU hnv hsv hB hN heq
        have hns : nodeId ∉ stack := fun hc => hnv (hsv nodeId hc)
        have hv1e : jsSetAdd visited nodeId = visited ++ [nodeId] :=
          jsSetAdd_not_mem visited nodeId hnv
        have hs1e : jsSetAdd stack nodeId = stack ++ [nodeId] :=
          jsSetAdd_not_mem stack nodeId hns
        rw [hasCycleDFS_succ, hv1e, hs1e] at heq
        have hnstack1 : nodeId ∈ stack ++ [nodeId] :=
          List.mem_append_right _ (List.mem_singleton.mpr rfl)
        rcases hn : hasCycleDFSNbrs A fuel ((jsMapGet A nodeId).getD [])
            (visited ++ [nodeId]) (stack ++ [nodeId]) with ⟨b1, v1, s1⟩
        rw [hn] at heq
        cases b1 with
        | true =>
            simp only [] at heq
            exact absurd (congrArg Prod.fst heq) (by simp)
        | false =>
            simp only [] at heq
            injection heq with h1 h2
            injection h2 with h2 h3
            have hfuel1 : (U.toFinset \ (visited ++ [nodeId]).toFinset).card < fuel := by
              have := card_sdiff_append_lt U visited nodeId hnU hnv
              omega
            have hsv1 : ∀ x ∈ stack ++ [nodeId], x ∈ visited ++ [nodeId] := by
              intro x hx
              rcases List.mem_append.mp hx with hx | hx
              · exact List.mem_append_left _ (hsv x hx)
              · exact List.mem_append_right _ hx
            have hB1 : cycleBlackClosed A (visited ++ [nodeId]) (stack ++ [nodeId]) := by
              intro x hxv hxs y hy
              have hxne : x ≠ nodeId := fun hxe => hxs (hxe ▸ hnstack1)
              have hxv0 : x ∈ visited := by
                rcases List.mem_append.mp hxv with h | h
                · exact h
                · exact absurd (List.mem_singleton.mp h) hxne
              have hxs0 : x ∉ stack := fun hc => hxs (List.mem_append_left _ hc)
              have hyb := hB x hxv0 hxs0 y hy
              refine ⟨List.mem_append_left _ hyb.1, fun hc => ?_⟩
              rcases List.mem_append.mp hc with h | h
              · exact hyb.2 h
              · exact hnv (List.mem_singleton.mp h ▸ hyb.1)
            have hN1 : cycleNoBlackCycle A (visited ++ [nodeId]) (stack ++ [nodeId]) := by
              intro x hxv hxs hr
              have hxne : x ≠ nodeId := fun hxe => hxs (hxe ▸ hnstack1)
              have hxv0 : x ∈ visited := by
                rcases List.mem_append.mp hxv with h | h
                · exact h
                · exact absurd (List.mem_singleton.mp h) hxne
              have hxs0 : x ∉ stack := fun hc => hxs (List.mem_append_left _ hc)
              exact hN x hxv0 hxs0 hr
            have hrec := ih.2 ((jsMapGet A nodeId).getD [])
              (visited ++ [nodeId]) (stack ++ [nodeId]) v1 s1 hfuel1
              (fun y hy => hU nodeId y hy) hsv1 hB1 hN1 hn
            obtain ⟨hgrow1, hs1, hnbrsOK, hBf, hNf⟩ := hrec
            have hsfin : s = stack := by
              rw [← h3, hs1, List.filter_append]
              have ha : stack.filter (fun x => x ≠ nodeId) = stack := by
                apply List.filter_eq_self.mpr
                intro x hx
                simp only [ne_eq, decide_not, Bool.not_eq_true']
                rw [decide_eq_false_iff_not]
                intro hxe
                subst hxe
                exact hns hx
              have hb : ([nodeId] : List String).filter (fun x => x ≠ nodeId) = [] := by
                simp
              rw [ha, hb, List.append_nil]
            have hgrow : ∀ x ∈ visited, x ∈ v1 := fun x hx =>
              hgrow1 x (List.mem_append_left _ hx)
            have hnodeIdv : nodeId ∈ v1 :=
              hgrow1 nodeId (List.mem_append_right _ (List.mem_singleton.mpr rfl))
            have hns1 : nodeId ∈ s1 := by
              rw [hs1]
              exact hnstack1
            have hBfinal : cycleBlackClosed A v1 stack := by
              intro x hxv hxs y hy
              by_cases hxe : x = nodeId
              · rw [hxe] at hy
                have hyk := hnbrsOK y hy
                refine ⟨hyk.1, fun hc => hyk.2 ?_⟩
                rw [hs1]
                exact List.mem_append_left _ hc
              · have hxs1 : x ∉ s1 := by
                  rw [hs1]
                  intro hc
                  rcases List.mem_append.mp hc with h | h
                  · exact hxs h
                  · exact hxe (List.mem_singleton.mp h)
                have hyb := hBf x hxv hxs1 y hy
                refine ⟨hyb.1, fun hc => hyb.2 ?_⟩
                rw [hs1]
                exact List.mem_append_left _ hc
            have hNfinal : cycleNoBlackCycle A v1 stack := by
              intro x hxv hxs hr
              by_cases hxe : x = nodeId
              · rw [hxe] at hr
                cases hr with
                | base a b hab =>
                    exact (hnbrsOK nodeId hab).2 hns1
                | step a b c hab hreach =>
                    have hbb := hnbrsOK b hab
                    have hrb := reach_black A v1 s1 hBf b nodeId hreach hbb.1 hbb.2
                    exact hrb.2 hns1
              · have hxs1 : x ∉ s1 := by
                  rw [hs1]
                  intro hc
                  rcases List.mem_append.mp hc with h | h
                  · exact hxs h
                  · exact hxe (List.mem_singleton.mp h)
                exact hNf x hxv hxs1 hr
            subst h2
            rw [hsfin]
            exact ⟨hgrow, rfl, hnodeIdv, hBfinal, hNfinal⟩
      refine ⟨hdfs, ?_⟩
      intro nbrs
      induction nbrs with
      | nil =>
          intro visited stack v s _ _ _ hB hN heq
          rw [hasCycleDFSNbrs_nil] at heq
          injection heq with h1 h2
          injection h2 with h2 h3
          subst h2 h3
          exact ⟨fun x hx => hx, rfl, fun n hn => absurd hn (List.not_mem_nil n),
            hB, hN⟩
      | cons neighbor rest ihl =>
          intro visited stack v s hfuel hnbU hsv hB hN heq
          rw [hasCycleDFSNbrs_cons] at heq
          by_cases hv : visited.contains neighbor = true
          · rw [if_pos hv] at heq
            by_cases hst : stack.contains neighbor = true
            · rw [if_pos hst] at heq
              exact absurd (congrArg Prod.fst heq) (by simp)
            · rw [if_neg hst] at heq
              have hrest := ihl visited stack v s hfuel
                (fun n hn => hnbU n (List.mem_cons_of_mem _ hn)) hsv hB hN heq
              obtain ⟨hgrow, hsfin, hrestOK, hBf, hNf⟩ := hrest
              refine ⟨hgrow, hsfin, ?_, hBf, hNf⟩
              intro n hn
              rcases List.mem_cons.mp hn with hn | hn
              · subst hn
                refine ⟨hgrow n ((contains_iff visited n).mp hv), ?_⟩
                rw [hsfin]
                intro hc
                exact hst ((contains_iff stack n).mpr hc)
              · exact hrestOK n hn
          · rw [if_neg hv] at heq
            have hnv : neighbor ∉ visited := fun hc =>
              hv ((contains_iff visited neighbor).mpr hc)
            rcases hd : hasCycleDFS A (fuel + 1) neighbor visited stack
              with ⟨b1, v1, s1⟩
            rw [hd] at heq
            cases b1 with
            | true =>
                simp only [] at heq
                exact absurd (congrArg Prod.fst heq) (by simp)
            | false =>
                simp only [] at heq
                have hrec := hdfs neighbor visited stack v1 s1 hfuel
                  (hnbU neighbor (List.mem_cons_self _ _)) hnv hsv hB hN hd
                obtain ⟨hgrow1, hs1, hnb1, hB1, hN1⟩ := hrec
                rw [hs1] at heq hB1 hN1
                have hfuel1 : (U.toFinset \ v1.toFinset).card < fuel + 1 := by
                  have := card_sdiff_le_of_subset U visited v1 hgrow1
                  omega
                have hrest := ihl v1 stack v s hfuel1
                  (fun n hn => hnbU n (List.mem_cons_of_mem _ hn))
                  (fun x hx => hgrow1 x (hsv x hx)) hB1 hN1 heq
                obtain ⟨hgrow2, hsfin, hrestOK, hBf, hNf⟩ := hrest
                refine ⟨fun x hx => hgrow2 x (hgrow1 x hx), hsfin, ?_, hBf, hNf⟩
                intro n hn
                rcases List.mem_cons.mp hn with hn | hn
                · subst hn
                  refine ⟨hgrow2 n hnb1, ?_⟩
                  rw [hsfin]
                  intro hc
                  exact hnv (hsv n hc)
                · exact hrestOK n hn

/-- A successful jsMapGet lookup names an entry of the map. -/
theorem jsMapGet_mem {β : Type} (m : List (String × β)) (k : String) (v : β)
    (h : jsMapGet m k = some v) : (k, v) ∈ m := by
  unfold jsMapGet at h
  rcases hf : m.find? (fun p => p.1 = k) with _ | p
  · rw [hf] at h
    exact absurd h (by simp)
  · rw [hf] at h
    injection h with h
    have hmem := List.mem_of_find?_eq_some hf
    have hp := List.find?_some hf
    rw [decide_eq_true_eq] at hp
    rcases p with ⟨pk, pv⟩
    simp only [] at hp h
    rw [← h, ← hp]
    exact hmem

/-- A neighbor stored under any key occurs among the joined value lists. -/
theorem mem_adjJoin (A : List (String × List String)) (x y : String)
    (h : y ∈ ((jsMapGet A x).getD [])) :
    y ∈ (A.map (fun p => p.2)).flatten := by
  rcases hg : jsMapGet A x with _ | l
  · rw [hg] at h
    exact absurd h (by simp)
  · rw [hg] at h
    simp only [Option.getD_some] at h
    have hmem := jsMapGet_mem A x l hg
    rw [List.mem_flatten]
    exact ⟨l, List.mem_map.mpr ⟨(x, l), hmem, rfl⟩, h⟩

/-- When nothing in a map matches a key, jsMapGet returns none. -/
theorem jsMapGet_eq_none {β : Type} (m : List (String × β)) (k : String)
    (h : m.any (fun p => p.1 = k) = false) : jsMapGet m k = none := by
  unfold jsMapGet
  rw [List.find?_eq_none.mpr]
  intro p hp
  have := List.any_eq_false.mp h p hp
  simpa using this

/-- Every key of a jsMapSet result is the set key or a key of the input. -/
theorem jsMapSet_keys {β : Type} (m : List (String × β)) (k : String) (v : β) :
    ∀ p ∈ jsMapSet m k v, p.1 = k ∨ ∃ q ∈ m, p.1 = q.1 := by
  intro p hp
  unfold jsMapSet at hp
  by_cases h : m.any (fun q => q.1 = k) = true
  · rw [if_pos h] at hp
    obtain ⟨q, hq, hpq⟩ := List.mem_map.mp hp
    by_cases hqk : q.1 = k
    · rw [if_pos hqk] at hpq
      rw [← hpq]
      exact Or.inl rfl
    · rw [if_neg hqk] at hpq
      exact Or.inr ⟨q, hq, by rw [← hpq]⟩
  · rw [if_neg h] at hp
    rcases List.mem_append.mp hp with h1 | h1
    · exact Or.inr ⟨p, h1, rfl⟩
    · rw [List.mem_singleton] at h1
      rw [h1]
      exact Or.inl rfl

/-- The key list of a jsMapSet result: unchanged when the key exists, one new
key appended otherwise. -/
theorem jsMapSet_keys_map {β : Type} (m : List (String × β)) (k : String) (v : β) :
    (jsMapSet m k v).map Prod.fst =
      (if m.any (fun q => q.1 = k) then m.map Prod.fst
       else m.map Prod.fst ++ [k]) := by
  unfold jsMapSet
  by_cases h : m.any (fun q => q.1 = k) = true
  · rw [if_pos h, if_pos h, List.map_map]
    apply List.map_congr_left
    intro q _
    by_cases hqk : q.1 = k
    · simp only [Function.comp, if_pos hqk]
      exact hqk.symm
    · simp only [Function.comp, if_neg hqk]
  · rw [if_neg h, if_neg h, List.map_append]
    rfl

/-- jsMapSet keeps the key list duplicate-free. -/
theorem jsMapSet_keysNodup {β : Type} (m : List (String × β)) (k : String) (v : β)
    (h : (m.map Prod.fst).Nodup) : ((jsMapSet m k v).map Prod.fst).Nodup := by
  rw [jsMapSet_keys_map]
  by_cases ha : m.any (fun q => q.1 = k) = true
  · rw [if_pos ha]
    exact h
  · rw [if_neg ha]
    rw [List.nodup_append]
    refine ⟨h, List.nodup_singleton k, ?_⟩
    intro x hx
    rw [List.mem_singleton]
    intro hxk
    subst hxk
    obtain ⟨q, hq, hqx⟩ := List.mem_map.mp hx
    have := List.any_eq_false.mp (Bool.not_eq_true _ ▸ ha) q hq
    rw [hqx] at this
    simpa using this

/-- jsSetAdd grows a list by at most one element. -/
theorem jsSetAdd_length (l : List String) (x : String) :
    (jsSetAdd l x).length ≤ l.length + 1 := by
  unfold jsSetAdd
  by_cases h : l.contains x = true
  · rw [if_pos h]
    omega
  · rw [if_neg h]
    simp

/-- Replacing a key that occurs nowhere in a map is the identity. -/
theorem map_replace_of_not_key {β : Type} (m : List (String × β)) (k : String) (v : β)
    (h : ∀ q ∈ m, q.1 ≠ k) :
    m.map (fun q => if q.1 = k then (k, v) else q) = m := by
  induction m with
  | nil => rfl
  | cons q rest ih =>
      simp only [List.map_cons]
      rw [if_neg (h q (List.mem_cons_self _ _)),
        ih (fun p hp => h p (List.mem_cons_of_mem _ hp))]

/-- One edge-insertion step of the adjacency construction. -/
def cycleEdgeStep (m : List (String × List String)) (e : GradleEdge) :
    List (String × List String) :=
  if m.any (fun p => p.1 = e.source) then
    jsMapSet m e.source (jsSetAdd ((jsMapGet m e.source).getD []) e.target)
  else m

/-- One node-seeding step of the adjacency construction. -/
def cycleNodeStep (m : List (String × List String)) (n : GradleTaskNode) :
    List (String × List String) :=
  jsMapSet m n.id []

/-- cycleAdjacency written with the named step functions. -/
theorem cycleAdjacency_eq (nodes : List GradleTaskNode) (edges : List GradleEdge)
    (source target : String) :
    cycleAdjacency nodes edges source target =
      (let adjacency1 := edges.foldl cycleEdgeStep (nodes.foldl cycleNodeStep [])
       if adjacency1.any (fun p => p.1 = source) then
         jsMapSet adjacency1 source
           (jsSetAdd ((jsMapGet adjacency1 source).getD []) target)
       else adjacency1) := rfl


/-- Updating one key with one jsSetAdd grows the joined value lists by at most
one element, provided the key list is duplicate-free. -/
theorem jsMapSet_join_len (k x : String) :
    ∀ m : List (String × List String), (m.map Prod.fst).Nodup →
    (((jsMapSet m k (jsSetAdd ((jsMapGet m k).getD []) x)).map
        (fun p => p.2)).flatten).length ≤
      ((m.map (fun p => p.2)).flatten).length + 1 := by
  intro m
  induction m with
  | nil =>
      intro _
      simp [jsMapSet, jsMapGet, jsSetAdd]
  | cons q rest ih =>
      intro hnd
      rcases q with ⟨k', v'⟩
      have hndr : (rest.map Prod.fst).Nodup := (List.nodup_cons.mp hnd).2
      by_cases hk : k' = k
      · have hget : jsMapGet ((k', v') :: rest) k = some v' := by
          unfold jsMapGet
          rw [List.find?_cons_of_pos _ (by simpa using hk)]
        have hany : ((k', v') :: rest).any (fun p => p.1 = k) = true := by
          simp [hk]
        have hnotin : ∀ q ∈ rest, q.1 ≠ k := by
          intro q hq hqe
          have hk'ni := (List.nodup_cons.mp hnd).1
          exact hk'ni (List.mem_map.mpr ⟨q, hq, by rw [hqe, hk]⟩)
        have hset : jsMapSet ((k', v') :: rest) k
            (jsSetAdd ((jsMapGet ((k', v') :: rest) k).getD []) x) =
            (k, jsSetAdd v' x) :: rest := by
          rw [hget]
          simp only [Option.getD_some]
          unfold jsMapSet
          rw [if_pos hany, List.map_cons]
          dsimp only
          rw [if_pos hk, map_replace_of_not_key rest k _ hnotin]
        rw [hset]
        simp only [List.map_cons, List.flatten_cons, List.length_append]
        have := jsSetAdd_length v' x
        omega
      · have hget : jsMapGet ((k', v') :: rest) k = jsMapGet rest k := by
          unfold jsMapGet
          rw [List.find?_cons_of_neg _ (by simpa using hk)]
        have hanyc : ((k', v') :: rest).any (fun p => p.1 = k) =
            rest.any (fun p => p.1 = k) := by
          simp [hk]
        by_cases har : rest.any (fun p => p.1 = k) = true
        · have hset : jsMapSet ((k', v') :: rest) k
              (jsSetAdd ((jsMapGet ((k', v') :: rest) k).getD []) x) =
              (k', v') :: jsMapSet rest k
                (jsSetAdd ((jsMapGet rest k).getD []) x) := by
            rw [hget]
            unfold jsMapSet
            rw [if_pos (hanyc ▸ har), if_pos har, List.map_cons]
            dsimp only
            rw [if_neg hk]
          rw [hset]
          simp only [List.map_cons, List.flatten_cons, List.length_append]
          have := ih hndr
          omega
        · have harf : rest.any (fun p => p.1 = k) = false :=
            Bool.eq_false_iff.mpr har
          have hanyf : ((k', v') :: rest).any (fun p => p.1 = k) = false := by
            rw [hanyc]
            exact harf
          have hgr : jsMapGet rest k = none := jsMapGet_eq_none rest k harf
          have hset : jsMapSet ((k', v') :: rest) k
              (jsSetAdd ((jsMapGet ((k', v') :: rest) k).getD []) x) =
              ((k', v') :: rest) ++ [(k, [x])] := by
            rw [hget, hgr]
            unfold jsMapSet
            rw [if_neg (by rw [hanyf]; simp)]
            congr 1
          rw [hset]
          simp only [List.map_append, List.flatten_append, List.length_append,
            List.map_cons, List.flatten_cons]
          simp

/-- Invariants of the node-seeding fold: keys stay duplicate-free, keys come
from the node ids, and every value list is empty. -/
theorem nodeFold_props (ids : List String) :
    ∀ (ns : List GradleTaskNode) (m : List (String × List String)),
      (∀ n ∈ ns, n.id ∈ ids) →
      (m.map Prod.fst).Nodup → (∀ p ∈ m, p.1 ∈ ids) → (∀ p ∈ m, p.2 = []) →
      ((ns.foldl cycleNodeStep m).map Prod.fst).Nodup ∧
        (∀ p ∈ ns.foldl cycleNodeStep m, p.1 ∈ ids) ∧
        (∀ p ∈ ns.foldl cycleNodeStep m, p.2 = []) := by
  intro ns
  induction ns with
  | nil =>
      intro m _ h1 h2 h3
      exact ⟨h1, h2, h3⟩
  | cons n rest ih =>
      intro m hns h1 h2 h3
      rw [List.foldl_cons]
      apply ih
      · intro n' hn'
        exact hns n' (List.mem_cons_of_mem _ hn')
      · exact jsMapSet_keysNodup m n.id [] h1
      · intro p hp
        rcases jsMapSet_keys m n.id [] p hp with h | ⟨q, hq, hpq⟩
        · rw [h]
          exact hns n (List.mem_cons_self _ _)
        · rw [hpq]
          exact h2 q hq
      · intro p hp
        unfold cycleNodeStep jsMapSet at hp
        by_cases ha : m.any (fun q => q.1 = n.id) = true
        · rw [if_pos ha] at hp
          obtain ⟨q, hq, hpq⟩ := List.mem_map.mp hp
          by_cases hqk : q.1 = n.id
          · rw [if_pos hqk] at hpq
            rw [← hpq]
          · rw [if_neg hqk] at hpq
            rw [← hpq]
            exact h3 q hq
        · rw [if_neg ha] at hp
          rcases List.mem_append.mp hp with h | h
          · exact h3 p h
          · rw [List.mem_singleton] at h
            rw [h]

/-- Invariants of the edge-insertion fold: keys stay duplicate-free and within
the node ids, and the joined value lists grow by at most one per edge. -/
theorem edgeFold_props (ids : List String) :
    ∀ (es : List GradleEdge) (m : List (String × List String)),
      (m.map Prod.fst).Nodup → (∀ p ∈ m, p.1 ∈ ids) →
      ((es.foldl cycleEdgeStep m).map Prod.fst).Nodup ∧
        (∀ p ∈ es.foldl cycleEdgeStep m, p.1 ∈ ids) ∧
        (((es.foldl cycleEdgeStep m).map (fun p => p.2)).flatten).length ≤
          ((m.map (fun p => p.2)).flatten).length + es.length := by
  intro es
  induction es with
  | nil =>
      intro m h1 h2
      exact ⟨h1, h2, Nat.le_add_right _ _⟩
  | cons e rest ih =>
      intro m h1 h2
      rw [List.foldl_cons]
      have hstep : ((cycleEdgeStep m e).map Prod.fst).Nodup ∧
          (∀ p ∈ cycleEdgeStep m e, p.1 ∈ ids) ∧
          (((cycleEdgeStep m e).map (fun p => p.2)).flatten).length ≤
            ((m.map (fun p => p.2)).flatten).length + 1 := by
        unfold cycleEdgeStep
        by_cases ha : m.any (fun p => p.1 = e.source) = true
        · rw [if_pos ha]
          refine ⟨jsMapSet_keysNodup _ _ _ h1, ?_, jsMapSet_join_len _ _ m h1⟩
          intro p hp
          rcases jsMapSet_keys _ _ _ p hp with h | ⟨q, hq, hpq⟩
          · rw [h]
            obtain ⟨q, hq, hqe⟩ := List.any_eq_true.mp ha
            rw [decide_eq_true_eq] at hqe
            rw [← hqe]
            exact h2 q hq
          · rw [hpq]
            exact h2 q hq
        · rw [if_neg ha]
          exact ⟨h1, h2, Nat.le_succ_of_le (Nat.le_refl _)⟩
      have hrest := ih (cycleEdgeStep m e) hstep.1 hstep.2.1
      refine ⟨hrest.1, hrest.2.1, ?_⟩
      have := hrest.2.2
      have := hstep.2.2
      simp only [List.length_cons]
      omega

/-- The adjacency map of the cycle check: duplicate-free keys drawn from the
node ids, and at most one stored neighbor per existing edge plus one for the
proposed connection. -/
theorem cycleAdjacency_props (nodes : List GradleTaskNode)
    (edges : List GradleEdge) (source target : String) :
    (∀ p ∈ cycleAdjacency nodes edges source target,
        p.1 ∈ nodes.map (fun n => n.id)) ∧
      (((cycleAdjacency nodes edges source target).map
          (fun p => p.2)).flatten).length ≤ edges.length + 1 := by
  have h0 := nodeFold_props (nodes.map (fun n => n.id)) nodes []
    (fun n hn => List.mem_map.mpr ⟨n, hn, rfl⟩)
    (by simp) (by simp) (by simp)
  have hnil : (((nodes.foldl cycleNodeStep []).map (fun p => p.2)).flatten) = [] := by
    apply List.flatten_eq_nil_iff.mpr
    intro l hl
    obtain ⟨p, hp, hpe⟩ := List.mem_map.mp hl
    rw [← hpe]
    exact h0.2.2 p hp
  have h1 := edgeFold_props (nodes.map (fun n => n.id)) edges
    (nodes.foldl cycleNodeStep []) h0.1 h0.2.1
  rw [cycleAdjacency_eq]
  simp only []
  by_cases ha : (edges.foldl cycleEdgeStep (nodes.foldl cycleNodeStep [])).any
      (fun p => p.1 = source) = true
  · rw [if_pos ha]
    constructor
    · intro p hp
      rcases jsMapSet_keys _ _ _ p hp with h | ⟨q, hq, hpq⟩
      · rw [h]
        obtain ⟨q, hq, hqe⟩ := List.any_eq_true.mp ha
        rw [decide_eq_true_eq] at hqe
        rw [← hqe]
        exact h1.2.1 q hq
      · rw [hpq]
        exact h1.2.1 q hq
    · have hj := jsMapSet_join_len source target
        (edges.foldl cycleEdgeStep (nodes.foldl cycleNodeStep [])) h1.1
      have hlen := h1.2.2
      rw [hnil] at hlen
      simp only [List.length_nil, Nat.zero_add] at hlen
      omega
  · rw [if_neg ha]
    refine ⟨h1.2.1, ?_⟩
    have hlen := h1.2.2
    rw [hnil] at hlen
    simp only [List.length_nil, Nat.zero_add] at hlen
    omega

/-- Soundness of the outer loop: a true result exhibits a cycle. -/
theorem wouldCreateCycleLoop_sound (A : List (String × List String)) (fuel : Nat) :
    ∀ (ns : List GradleTaskNode) (visited : List String),
      wouldCreateCycleLoop A fuel ns visited [] = true →
      ∃ z, ReachAdj A z z := by
  intro ns
  induction ns with
  | nil =>
      intro visited h
      rw [wouldCreateCycleLoop] at h
      exact absurd h (by simp)
  | cons node rest ih =>
      intro visited h
      rw [wouldCreateCycleLoop] at h
      by_cases hv : visited.contains node.id = true
      · rw [if_pos hv] at h
        exact ih visited h
      · rw [if_neg hv] at h
        have hnv : node.id ∉ visited := fun hc =>
          hv ((contains_iff _ _).mpr hc)
        rcases hd : hasCycleDFS A fuel node.id visited [] with ⟨b1, v1, s1⟩
        rw [hd] at h
        cases b1 with
        | true =>
            exact (dfs_sound A fuel).1 node.id visited [] v1 s1
              (fun x hx => absurd hx (List.not_mem_nil x))
              (fun x hx => absurd hx (List.not_mem_nil x)) hnv hd
        | false =>
            simp only [] at h
            have hres := (dfs_restore A fuel).1 node.id visited [] false v1 s1
              (fun x hx => absurd hx (List.not_mem_nil x)) hnv hd
            have hs1 : s1 = [] := hres.2 rfl
            rw [hs1] at h
            exact ih v1 h

/-- Completeness of the outer loop: a false result leaves a visited set that
covers every listed node, is closed under adjacency, and admits no cycle
through any of its members. -/
theorem wouldCreateCycleLoop_complete (A : List (String × List String))
    (U : List String) (hU : ∀ x y, y ∈ ((jsMapGet A x).getD []) → y ∈ U)
    (fuel : Nat) :
    ∀ (ns : List GradleTaskNode) (visited : List String),
      (U.toFinset \ visited.toFinset).card < fuel →
      (∀ n ∈ ns, n.id ∈ U) →
      cycleBlackClosed A visited [] → cycleNoBlackCycle A visited [] →
      wouldCreateCycleLoop A fuel ns visited [] = false →
      ∃ v, (∀ x ∈ visited, x ∈ v) ∧ (∀ n ∈ ns, n.id ∈ v) ∧
        cycleBlackClosed A v [] ∧ cycleNoBlackCycle A v [] := by
  intro ns
  induction ns with
  | nil =>
      intro visited _ _ hB hN _
      exact ⟨visited, fun x hx => hx, fun n hn => absurd hn (List.not_mem_nil n),
        hB, hN⟩
  | cons node rest ih =>
      intro visited hfuel hns hB hN h
      rw [wouldCreateCycleLoop] at h
      by_cases hv : visited.contains node.id = true
      · rw [if_pos hv] at h
        obtain ⟨v, hgrow, hrest, hBf, hNf⟩ := ih visited hfuel
          (fun n hn => hns n (List.mem_cons_of_mem _ hn)) hB hN h
        refine ⟨v, hgrow, ?_, hBf, hNf⟩
        intro n hn
        rcases List.mem_cons.mp hn with hn | hn
        · rw [hn]
          exact hgrow node.id ((contains_iff _ _).mp hv)
        · exact hrest n hn
      · rw [if_neg hv] at h
        have hnv : node.id ∉ visited := fun hc =>
          hv ((contains_iff _ _).mpr hc)
        rcases hd : hasCycleDFS A fuel node.id visited [] with ⟨b1, v1, s1⟩
        rw [hd] at h
        cases b1 with
        | true => exact absurd h (by simp)
        | false =>
            simp only [] at h
            have hrec := (dfs_complete A U hU fuel).1 node.id visited [] v1 s1
              hfuel (hns node (List.mem_cons_self _ _)) hnv
              (fun x hx => absurd hx (List.not_mem_nil x)) hB hN hd
            obtain ⟨hgrow1, hs1, hnode1, hB1, hN1⟩ := hrec
            rw [hs1] at h hB1 hN1
            have hfuel1 : (U.toFinset \ v1.toFinset).card < fuel := by
              have := card_sdiff_le_of_subset U visited v1 hgrow1
              omega
            obtain ⟨v, hgrow2, hrest, hBf, hNf⟩ := ih v1 hfuel1
              (fun n hn => hns n (List.mem_cons_of_mem _ hn)) hB1 hN1 h
            refine ⟨v, fun x hx => hgrow2 x (hgrow1 x hx), ?_, hBf, hNf⟩
            intro n hn
            rcases List.mem_cons.mp hn with hn | hn
            · rw [hn]
              exact hgrow2 node.id hnode1
            · exact hrest n hn

/-- A node with an outgoing adjacency entry is a key of the adjacency map. -/
theorem cycle_start_is_key (A : List (String × List String)) (z : String)
    (hz : ReachAdj A z z) : ∃ l, jsMapGet A z = some l := by
  have hne : ∃ y, y ∈ ((jsMapGet A z).getD []) := by
    cases hz with
    | base a b hab => exact ⟨z, hab⟩
    | step a b c hab _ => exact ⟨b, hab⟩
  obtain ⟨y, hy⟩ := hne
  rcases hg : jsMapGet A z with _ | l
  · rw [hg] at hy
    exact absurd hy (by simp)
  · exact ⟨l, rfl⟩

/-- An advisory mustRunAfter edge from B back to A. -/
def edgeBAmustRunAfter : GradleEdge :=
  { id := "eBAmra", source := "B", target := "A",
    data := some { dependencyType := DependencyType.mustRunAfter } }

/-- Claim C2 counterexample: with a single advisory mustRunAfter edge from B
to A (no hard dependency anywhere), the cycle check rejects the proposed
connection A to B, so advisory edges do cause rejections and the check is not
restricted to the hard-dependency subgraph. -/
theorem C2_counterexample :
    wouldCreateCycle [nodeA, nodeB] [edgeBAmustRunAfter]
      { source := some "A", target := some "B" } = true ∧
    edgeIsDependsOn edgeBAmustRunAfter = false ∧
    validateConnection [nodeA, nodeB] [edgeBAmustRunAfter]
      { source := some "A", target := some "B" } =
      { valid := false, message := some "This would create a circular dependency" } := by
  refine ⟨by decide, by decide, by decide⟩

/-- Claim C2 (amended): for non-empty source and target ids the cycle check
rejects a proposed connection exactly when it is a self-loop or when the
adjacency graph built from all existing edges of every relation kind (with
sources restricted to known node ids) plus the proposed edge contains some
cycle, whether or not that cycle involves the proposed edge. -/
theorem C2_cycle_check_characterization (nodes : List GradleTaskNode)
    (edges : List GradleEdge) (source target : String)
    (hs : source ≠ "") (ht : target ≠ "") :
    wouldCreateCycle nodes edges { source := some source, target := some target } = true ↔
      source = target ∨
        ∃ z, ReachAdj (cycleAdjacency nodes edges source target) z z := by
  have hred : wouldCreateCycle nodes edges
      { source := some source, target := some target } =
      (if source = "" || target = "" then false
       else if source = target then true
       else wouldCreateCycleLoop (cycleAdjacency nodes edges source target)
         (nodes.length + edges.length + 2) nodes [] []) := rfl
  rw [hred, if_neg (by simp [hs, ht])]
  by_cases hst : source = target
  · rw [if_pos hst]
    simp [hst]
  · rw [if_neg hst]
    constructor
    · intro h
      exact Or.inr (wouldCreateCycleLoop_sound _ _ nodes [] h)
    · intro h
      rcases h with h | ⟨z, hz⟩
      · exact absurd h hst
      · by_contra hn
        have hfalse : wouldCreateCycleLoop (cycleAdjacency nodes edges source target)
            (nodes.length + edges.length + 2) nodes [] [] = false :=
          Bool.eq_false_iff.mpr hn
        set A := cycleAdjacency nodes edges source target with hA
        set U := nodes.map (fun n => n.id) ++ (A.map (fun p => p.2)).flatten with hUdef
        have hprops := cycleAdjacency_props nodes edges source target
        rw [← hA] at hprops
        have hU : ∀ x y, y ∈ ((jsMapGet A x).getD []) → y ∈ U := by
          intro x y hy
          exact List.mem_append_right _ (mem_adjJoin A x y hy)
        have hfuel : (U.toFinset \ ([] : List String).toFinset).card <
            nodes.length + edges.length + 2 := by
          have h1 : (U.toFinset \ ([] : List String).toFinset).card ≤ U.length := by
            calc (U.toFinset \ ([] : List String).toFinset).card
                ≤ U.toFinset.card := Finset.card_le_card (Finset.sdiff_subset)
              _ ≤ U.length := List.toFinset_card_le U
          have h2 : U.length = nodes.length + ((A.map (fun p => p.2)).flatten).length := by
            rw [hUdef, List.length_append, List.length_map]
          have h3 := hprops.2
          omega
        have hns : ∀ n ∈ nodes, n.id ∈ U := by
          intro n hn
          exact List.mem_append_left _ (List.mem_map.mpr ⟨n, hn, rfl⟩)
        obtain ⟨v, _, hall, _, hNf⟩ := wouldCreateCycleLoop_complete A U hU
          (nodes.length + edges.length + 2) nodes [] hfuel hns
          (fun x hx => absurd hx (List.not_mem_nil x))
          (fun x hx => absurd hx (List.not_mem_nil x)) hfalse
        obtain ⟨l, hget⟩ := cycle_start_is_key A z hz
        have hkey : z ∈ nodes.map (fun n => n.id) :=
          hprops.1 (z, l) (jsMapGet_mem A z l hget)
        obtain ⟨n, hnmem, hne⟩ := List.mem_map.mp hkey
        have hzv : z ∈ v := by
          rw [← hne]
          exact hall n hnmem
        exact hNf z hzv (List.not_mem_nil z) hz

/-- Witness for the amended C2 at a concrete two-edge cycle: the proposed
connection A to B over the existing edge B to A is rejected. -/
theorem C2_cycle_check_characterization_witness :
    wouldCreateCycle [nodeA, nodeB] [edgeBAdep]
      { source := some "A", target := some "B" } = true :=
  (C2_cycle_check_characterization [nodeA, nodeB] [edgeBAdep] "A" "B"
    (by decide) (by decide)).mpr
    (Or.inr ⟨"A", ReachAdj.step "A" "B" "A" (by decide)
      (ReachAdj.base "B" "A" (by decide))⟩)

-- ==========================================================================
-- C7: fail-fast orchestration of handleRun (part_010, lines 411-598)
-- ==========================================================================

/-- Execution status values attached to a node during a run. -/
inductive RunStatus where
  | pending
  | running
  | success
  | failed
  | skipped
deriving DecidableEq, Repr

/-- allGradleNodes.find of handleRun. -/
def findNode (nodes : List GradleTaskNode) (id : String) : Option GradleTaskNode :=
  nodes.find? (fun n => n.id = id)

/-- The status markings emitted by the stop-on-failure branch of handleRun:
every id after the failed task in the frozen order whose node exists is
marked skipped. -/
def runSkipEvents (nodes : List GradleTaskNode) (order : List String)
    (taskId : String) : List (String × RunStatus) :=
  (order.drop (order.indexOf taskId + 1)).filterMap
    (fun skipId => (findNode nodes skipId).map (fun _ => (skipId, RunStatus.skipped)))

/-- The per-iteration body of handleRun's for-loop as a trace of status
markings.  The abort signal is sampled once per iteration (the pause loop
only delays and emits no marking); outcome gives the result of the awaited
simulateTaskExecution for each task id. -/
def runLoopGo (nodes : List GradleTaskNode) (vars : List Variable)
    (env : EvalEnv) (outcome : String → Bool) (aborted : Nat → Bool)
    (order : List String) : Nat → List String → List (String × RunStatus)
  | _, [] => []
  | i, taskId :: rest =>
      if aborted i then []
      else
        match findNode nodes taskId with
        | none => runLoopGo nodes vars env outcome aborted order (i + 1) rest
        | some node =>
            if (shouldExecuteTask env node.data.condition vars).execute then
              (taskId, RunStatus.running) ::
                (if outcome taskId then
                  (taskId, RunStatus.success) ::
                    runLoopGo nodes vars env outcome aborted order (i + 1) rest
                else
                  (taskId, RunStatus.failed) :: runSkipEvents nodes order taskId)
            else
              (taskId, RunStatus.skipped) ::
                runLoopGo nodes vars env outcome aborted order (i + 1) rest

/-- The full marking trace of handleRun: nothing when the order is empty,
otherwise the pending initialization of every existing node followed by the
loop trace. -/
def handleRunTrace (nodes : List GradleTaskNode) (vars : List Variable)
    (env : EvalEnv) (outcome : String → Bool) (aborted : Nat → Bool)
    (order : List String) : List (String × RunStatus) :=
  if order.length = 0 then []
  else
    order.filterMap
      (fun id => (findNode nodes id).map (fun _ => (id, RunStatus.pending))) ++
    runLoopGo nodes vars env outcome aborted order 0 order

/-- Every marking in the stop-on-failure batch is a skip. -/
theorem runSkipEvents_skipped (nodes : List GradleTaskNode) (order : List String)
    (taskId : String) :
    ∀ e ∈ runSkipEvents nodes order taskId, e.2 = RunStatus.skipped := by
  intro e he
  obtain ⟨skipId, _, hmap⟩ := List.mem_filterMap.mp he
  rcases hf : findNode nodes skipId with _ | n
  · rw [hf] at hmap
    exact absurd hmap (by simp)
  · rw [hf] at hmap
    simp only [Option.map_some'] at hmap
    injection hmap with hmap
    rw [← hmap]

/-- After a failed marking, the loop trace contains exactly the
stop-on-failure skip batch of the failed task. -/
theorem runLoopGo_fail_tail (nodes : List GradleTaskNode) (vars : List Variable)
    (env : EvalEnv) (outcome : String → Bool) (aborted : Nat → Bool)
    (order : List String) :
    ∀ (rem : List String) (i : Nat) (pre post : List (String × RunStatus))
      (t : String),
      runLoopGo nodes vars env outcome aborted order i rem =
        pre ++ (t, RunStatus.failed) :: post →
      post = runSkipEvents nodes order t := by
  intro rem
  induction rem with
  | nil =>
      intro i pre post t h
      rw [runLoopGo] at h
      have hc := congrArg List.length h
      rw [List.length_nil, List.length_append, List.length_cons] at hc
      omega
  | cons taskId rest ih =>
      intro i pre post t h
      rw [runLoopGo] at h
      by_cases ha : aborted i = true
      · rw [if_pos ha] at h
        have hc := congrArg List.length h
        rw [List.length_nil, List.length_append, List.length_cons] at hc
        omega
      · rw [if_neg ha] at h
        rcases hf : findNode nodes taskId with _ | node
        · rw [hf] at h
          exact ih (i + 1) pre post t h
        · rw [hf] at h
          simp only [] at h
          by_cases hex : (shouldExecuteTask env node.data.condition vars).execute = true
          · rw [if_pos hex] at h
            rcases pre with _ | ⟨e, pre'⟩
            · rw [List.nil_append] at h
              injection h with h1 _
              exact absurd (congrArg Prod.snd h1) (by simp)
            · rw [List.cons_append] at h
              injection h with _ h2
              by_cases ho : outcome taskId = true
              · rw [if_pos ho] at h2
                rcases pre' with _ | ⟨e', pre''⟩
                · rw [List.nil_append] at h2
                  injection h2 with h1 _
                  exact absurd (congrArg Prod.snd h1) (by simp)
                · rw [List.cons_append] at h2
                  injection h2 with _ h3
                  exact ih (i + 1) pre'' post t h3
              · rw [if_neg ho] at h2
                rcases pre' with _ | ⟨e', pre''⟩
                · rw [List.nil_append] at h2
                  injection h2 with h1 h2
                  have ht : taskId = t := congrArg Prod.fst h1
                  rw [← ht, h2]
                · rw [List.cons_append] at h2
                  injection h2 with _ h3
                  have hmem : (t, RunStatus.failed) ∈ runSkipEvents nodes order taskId := by
                    rw [h3]
                    exact List.mem_append_right _ (List.mem_cons_self _ _)
                  have := runSkipEvents_skipped nodes order taskId _ hmem
                  exact absurd this (by simp)
          · rw [if_neg hex] at h
            rcases pre with _ | ⟨e, pre'⟩
            · rw [List.nil_append] at h
              injection h with h1 _
              exact absurd (congrArg Prod.snd h1) (by simp)
            · rw [List.cons_append] at h
              injection h with _ h2
              exact ih (i + 1) pre' post t h2

/-- Claim C7: once some task's unit of work completes with failure, every
marking after the failed marking is a skip, and every id later than the
failed task in the frozen order whose node exists receives a skipped marking;
nothing is ever marked running after the failure. -/
theorem C7_fail_fast (nodes : List GradleTaskNode) (vars : List Variable)
    (env : EvalEnv) (outcome : String → Bool) (aborted : Nat → Bool)
    (order : List String) (pre post : List (String × RunStatus)) (t : String)
    (h : handleRunTrace nodes vars env outcome aborted order =
      pre ++ (t, RunStatus.failed) :: post) :
    (∀ e ∈ post, e.2 = RunStatus.skipped) ∧
    (∀ id ∈ order.drop (order.indexOf t + 1),
        (∃ n ∈ nodes, n.id = id) → (id, RunStatus.skipped) ∈ post) := by
  unfold handleRunTrace at h
  by_cases hord : order.length = 0
  · rw [if_pos hord] at h
    have hc := congrArg List.length h
    rw [List.length_nil, List.length_append, List.length_cons] at hc
    omega
  · rw [if_neg hord] at h
    have hPnofail : ∀ e ∈ order.filterMap
        (fun id => (findNode nodes id).map (fun _ => (id, RunStatus.pending))),
        e.2 = RunStatus.pending := by
      intro e he
      obtain ⟨id, _, hmap⟩ := List.mem_filterMap.mp he
      rcases hf : findNode nodes id with _ | n
      · rw [hf] at hmap
        exact absurd hmap (by simp)
      · rw [hf] at hmap
        simp only [Option.map_some'] at hmap
        injection hmap with hmap
        rw [← hmap]
    have hpost : post = runSkipEvents nodes order t := by
      rcases List.append_eq_append_iff.mp h with ⟨a', _, hL⟩ | ⟨c', hP2, hd⟩
      · exact runLoopGo_fail_tail nodes vars env outcome aborted order
          order 0 a' post t hL
      · rcases c' with _ | ⟨x, c''⟩
        · rw [List.nil_append] at hd
          exact runLoopGo_fail_tail nodes vars env outcome aborted order
            order 0 [] post t hd.symm
        · have hx : x = (t, RunStatus.failed) := by
            have := congrArg (fun l => l.head?) hd
            simp only [List.head?_cons, List.cons_append] at this
            injection this with this
            exact this.symm
          have hxP : x ∈ order.filterMap
              (fun id => (findNode nodes id).map (fun _ => (id, RunStatus.pending))) := by
            rw [hP2]
            exact List.mem_append_right _ (List.mem_cons_self _ _)
          have := hPnofail x hxP
          rw [hx] at this
          exact absurd this (by simp)
    constructor
    · rw [hpost]
      exact runSkipEvents_skipped nodes order t
    · intro id hid hex
      rw [hpost]
      obtain ⟨n, hn, hnid⟩ := hex
      apply List.mem_filterMap.mpr
      refine ⟨id, hid, ?_⟩
      rcases hf : findNode nodes id with _ | m
      · unfold findNode at hf
        have := List.find?_eq_none.mp hf n hn
        simp [hnid] at this
      · simp only [Option.map_some']

/-- Witness for C7 at the order A B C where B fails: the single marking after
the failure is C skipped, and C (the only later id with an existing node)
does get a skipped marking. -/
theorem C7_fail_fast_witness :
    (∀ e ∈ [(("C" : String), RunStatus.skipped)], e.2 = RunStatus.skipped) ∧
    (∀ id ∈ (["A", "B", "C"] : List String).drop
        ((["A", "B", "C"] : List String).indexOf "B" + 1),
        (∃ n ∈ [nodeA, nodeB, nodeC], n.id = id) →
        (id, RunStatus.skipped) ∈ [(("C" : String), RunStatus.skipped)]) :=
  C7_fail_fast [nodeA, nodeB, nodeC] []
    { regexTest := fun _ _ => false, floatGt := fun _ _ => false,
      floatLt := fun _ _ => false, floatGe := fun _ _ => false,
      floatLe := fun _ _ => false }
    (fun id => id != "B") (fun _ => false) ["A", "B", "C"]
    [("A", RunStatus.pending), ("B", RunStatus.pending), ("C", RunStatus.pending),
     ("A", RunStatus.running), ("A", RunStatus.success), ("B", RunStatus.running)]
    [("C", RunStatus.skipped)] "B" (by decide)

-- ==========================================================================
-- C3: gradleExport.generateGradleKts (gradleExport.ts 601-681)
-- ==========================================================================

/-- Variable reference format option of the exporter. -/
inductive VariableFormat where
  | properties
  | inline
deriving DecidableEq, Repr

/-- GradleExportOptions (gradleExport.ts 21-32). -/
structure GradleExportOptions where
  includeComments : Bool
  includeDescriptions : Bool
  includeDisabledTasks : Bool
  variableFormat : VariableFormat
  projectName : Option String := none
deriving DecidableEq, Repr

/-- A Partial of GradleExportOptions as handed to generateGradleKts. -/
structure PartialExportOptions where
  includeComments : Option Bool := none
  includeDescriptions : Option Bool := none
  includeDisabledTasks : Option Bool := none
  variableFormat : Option VariableFormat := none
  projectName : Option String := none
deriving DecidableEq, Repr

/-- defaultExportOptions (gradleExport.ts 34-39). -/
def defaultExportOptions : GradleExportOptions :=
  { includeComments := true, includeDescriptions := true,
    includeDisabledTasks := true, variableFormat := VariableFormat.properties }

/-- The spread merge of the default options with the caller's Partial. -/
def mergeExportOptions (o : PartialExportOptions) : GradleExportOptions :=
  { includeComments := o.includeComments.getD defaultExportOptions.includeComments,
    includeDescriptions :=
      o.includeDescriptions.getD defaultExportOptions.includeDescriptions,
    includeDisabledTasks :=
      o.includeDisabledTasks.getD defaultExportOptions.includeDisabledTasks,
    variableFormat := o.variableFormat.getD defaultExportOptions.variableFormat,
    projectName := o.projectName }

/-- One character of escapeString (gradleExport.ts 44-52).  The six global
replaces run in sequence, but none of the replacement texts contains a later
pattern character, so the sequence acts as one character-wise substitution. -/
def escapeChar (c : Char) : List Char :=
  if c = '\\' then ['\\', '\\']
  else if c = '"' then ['\\', '"']
  else if c = '$' then ['\\', '$']
  else if c = '\n' then ['\\', 'n']
  else if c = '\r' then ['\\', 'r']
  else if c = '\t' then ['\\', 't']
  else [c]

/-- escapeString (gradleExport.ts 44-52). -/
def escapeString (str : String) : String :=
  String.mk ((str.data.map escapeChar).flatten)

/-- Underscore-run collapsing of toTaskIdentifier, with a flag telling whether
the previous kept character was an underscore. -/
def collapseGo : Bool → List Char → List Char
  | _, [] => []
  | prevU, c :: rest =>
      if c = '_' then
        if prevU then collapseGo true rest
        else '_' :: collapseGo true rest
      else c :: collapseGo false rest

/-- toTaskIdentifier (gradleExport.ts 57-63): non-identifier characters become
underscores, a leading digit gets an underscore prefix, underscore runs are
collapsed. -/
def toTaskIdentifier (name : String) : String :=
  let step1 := name.data.map (fun c => if isIdentChar c then c else '_')
  let step2 := match step1 with
    | [] => []
    | c :: rest => if c.isDigit then '_' :: c :: rest else c :: rest
  String.mk (collapseGo false step2)

/-- buildTaskNameMap (gradleExport.ts 68-74). -/
def buildTaskNameMap (nodes : List GradleTaskNode) : List (String × String) :=
  jsMapBuild (nodes.map (fun n => (n.id, toTaskIdentifier n.data.taskName)))

/-- getDependencyMethod (gradleExport.ts 79-92). -/
def getDependencyMethod (depType : DependencyType) : String :=
  match depType with
  | DependencyType.dependsOn => "dependsOn"
  | DependencyType.mustRunAfter => "mustRunAfter"
  | DependencyType.shouldRunAfter => "shouldRunAfter"
  | DependencyType.finalizedBy => "finalizedBy"

/-- getConditionValue (gradleExport.ts 160-178). -/
def getConditionValue (source : ConditionSource) (value : String)
    (vars : List Variable) : String :=
  match source with
  | ConditionSource.variable =>
      match vars.find? (fun v => v.name = value) with
      | some vdecl =>
          "project.findProperty(\"" ++ value ++ "\")?.toString() ?: \"" ++
            escapeString vdecl.defaultValue ++ "\""
      | none =>
          "project.findProperty(\"" ++ value ++ "\")?.toString() ?: \"\""
  | ConditionSource.environment => "System.getenv(\"" ++ value ++ "\") ?: \"\""
  | ConditionSource.property =>
      "project.findProperty(\"" ++ value ++ "\")?.toString() ?: \"\""
  | ConditionSource.literal => "\"" ++ escapeString value ++ "\""

/-- generateSingleCondition (gradleExport.ts 115-155). -/
def generateSingleCondition (condition : Condition) (vars : List Variable) :
    String :=
  let left := getConditionValue condition.leftSource condition.leftValue vars
  let right := match condition.rightValue with
    | some rv =>
        if rv = "" then ""
        else getConditionValue (condition.rightSource.getD ConditionSource.literal)
          rv vars
    | none => ""
  match condition.operator with
  | ConditionOperator.equals => left ++ " == " ++ right
  | ConditionOperator.notEquals => left ++ " != " ++ right
  | ConditionOperator.contains => left ++ ".contains(" ++ right ++ ")"
  | ConditionOperator.notContains => "!" ++ left ++ ".contains(" ++ right ++ ")"
  | ConditionOperator.startsWith => left ++ ".startsWith(" ++ right ++ ")"
  | ConditionOperator.endsWith => left ++ ".endsWith(" ++ right ++ ")"
  | ConditionOperator.matches => left ++ ".matches(Regex(" ++ right ++ "))"
  | ConditionOperator.greaterThan => left ++ ".toInt() > " ++ right ++ ".toInt()"
  | ConditionOperator.lessThan => left ++ ".toInt() < " ++ right ++ ".toInt()"
  | ConditionOperator.greaterOrEqual => left ++ ".toInt() >= " ++ right ++ ".toInt()"
  | ConditionOperator.lessOrEqual => left ++ ".toInt() <= " ++ right ++ ".toInt()"
  | ConditionOperator.isEmpty => left ++ ".isEmpty()"
  | ConditionOperator.isNotEmpty => left ++ ".isNotEmpty()"
  | ConditionOperator.isTrue => left ++ ".toBoolean()"
  | ConditionOperator.isFalse => "!" ++ left ++ ".toBoolean()"

/-- generateConditionExpression (gradleExport.ts 97-110).  Note the source
computes method as onlyIf in both branches. -/
def generateConditionExpression (condition : TaskCondition)
    (vars : List Variable) : String :=
  if condition.conditions.length = 0 then ""
  else
    let expressions := condition.conditions.map
      (fun c => generateSingleCondition c vars)
    let combined := match condition.logic with
      | CondLogic.and => String.intercalate " && " expressions
      | CondLogic.or => String.intercalate " || " expressions
    let method := "onlyIf"
    let negate := match condition.mode with
      | CondMode.skipIf => "!"
      | CondMode.onlyIf => ""
    "    " ++ method ++ " \x7b " ++ negate ++ "(" ++ combined ++ ") \x7d"

/-- JS truthiness of an optional string. -/
def optStr (o : Option String) : Option String :=
  match o with
  | some s => if s = "" then none else some s
  | none => none

/-- JS truthiness of an optional list (non-empty length). -/
def optList {α : Type} (o : Option (List α)) : Option (List α) :=
  match o with
  | some l => if l.length = 0 then none else some l
  | none => none

/-- generateExecConfig (gradleExport.ts 183-211). -/
def generateExecConfig (config : TaskConfig) (indent : String) : List String :=
  (match optList config.commandLine with
   | some cl =>
       [indent ++ "commandLine(" ++
         String.intercalate ", " (cl.map (fun c => "\"" ++ escapeString c ++ "\"")) ++ ")"]
   | none => []) ++
  (match optStr config.workingDir with
   | some wd => [indent ++ "workingDir = file(\"" ++ escapeString wd ++ "\")"]
   | none => []) ++
  (match optList config.args with
   | some asl =>
       [indent ++ "args(" ++
         String.intercalate ", " (asl.map (fun a => "\"" ++ escapeString a ++ "\"")) ++ ")"]
   | none => []) ++
  (if config.environment.length > 0 then
    config.environment.map (fun kv =>
      indent ++ "environment(\"" ++ escapeString kv.1 ++ "\", \"" ++
        escapeString kv.2 ++ "\")")
   else []) ++
  (if config.ignoreExitValue = some true then
    [indent ++ "isIgnoreExitValue = true"]
   else [])

/-- generateCopyConfig (gradleExport.ts 216-250). -/
def generateCopyConfig (config : TaskConfig) (indent : String) : List String :=
  (match optList config.fromSrcs with
   | some fs => fs.map (fun src => indent ++ "from(\"" ++ escapeString src ++ "\")")
   | none => []) ++
  (match optStr config.into with
   | some into => [indent ++ "into(\"" ++ escapeString into ++ "\")"]
   | none => []) ++
  (match optList config.includePats with
   | some ps => ps.map (fun p => indent ++ "include(\"" ++ escapeString p ++ "\")")
   | none => []) ++
  (match optList config.excludePats with
   | some ps => ps.map (fun p => indent ++ "exclude(\"" ++ escapeString p ++ "\")")
   | none => []) ++
  (match optStr config.duplicatesStrategy with
   | some ds =>
       if ds ≠ "INHERIT" then
         [indent ++ "duplicatesStrategy = DuplicatesStrategy." ++ ds]
       else []
   | none => []) ++
  (if config.preserveFileTimestamps = some false then
    [indent ++ "preserveFileTimestamps = false"]
   else [])

/-- generateDeleteConfig (gradleExport.ts 255-268). -/
def generateDeleteConfig (config : TaskConfig) (indent : String) : List String :=
  (match optList config.deletePaths with
   | some ps =>
       [indent ++ "delete(" ++
         String.intercalate ", " (ps.map (fun p => "\"" ++ escapeString p ++ "\"")) ++ ")"]
   | none => []) ++
  (if config.followSymlinks = some true then
    [indent ++ "followSymlinks = true"]
   else [])

/-- generateArchiveConfig (gradleExport.ts 273-312). -/
def generateArchiveConfig (config : TaskConfig) (indent : String) : List String :=
  (match optList config.fromSrcs with
   | some fs => fs.map (fun src => indent ++ "from(\"" ++ escapeString src ++ "\")")
   | none => []) ++
  (match optStr config.archiveFileName with
   | some afn => [indent ++ "archiveFileName = \"" ++ escapeString afn ++ "\""]
   | none => []) ++
  (match optStr config.destinationDirectory with
   | some dd =>
       [indent ++ "destinationDirectory = layout.projectDirectory.dir(\"" ++
         escapeString dd ++ "\")"]
   | none => []) ++
  (match optList config.includePats with
   | some ps => ps.map (fun p => indent ++ "include(\"" ++ escapeString p ++ "\")")
   | none => []) ++
  (match optList config.excludePats with
   | some ps => ps.map (fun p => indent ++ "exclude(\"" ++ escapeString p ++ "\")")
   | none => []) ++
  (match optStr config.duplicatesStrategy with
   | some ds =>
       if ds ≠ "INHERIT" then
         [indent ++ "duplicatesStrategy = DuplicatesStrategy." ++ ds]
       else []
   | none => []) ++
  (if config.preserveFileTimestamps = some false then
    [indent ++ "preserveFileTimestamps = false"]
   else [])

/-- generateTestConfig (gradleExport.ts 317-352). -/
def generateTestConfig (config : TaskConfig) (indent : String) : List String :=
  (match optList config.includePats with
   | some ps => ps.map (fun p => indent ++ "include(\"" ++ escapeString p ++ "\")")
   | none => []) ++
  (match optList config.excludePats with
   | some ps => ps.map (fun p => indent ++ "exclude(\"" ++ escapeString p ++ "\")")
   | none => []) ++
  (match config.maxParallelForks with
   | some v => if v > 1 then [indent ++ "maxParallelForks = " ++ toString v] else []
   | none => []) ++
  (match config.forkEvery with
   | some v => if v > 0 then [indent ++ "forkEvery = " ++ toString v] else []
   | none => []) ++
  (if config.failFast = some true then [indent ++ "failFast = true"] else []) ++
  (if config.ignoreFailures = some true then [indent ++ "ignoreFailures = true"]
   else []) ++
  (match optList config.jvmArgs with
   | some asl =>
       [indent ++ "jvmArgs(" ++
         String.intercalate ", " (asl.map (fun a => "\"" ++ escapeString a ++ "\"")) ++ ")"]
   | none => [])

/-- generateJavaCompileConfig (gradleExport.ts 357-386). -/
def generateJavaCompileConfig (config : TaskConfig) (indent : String) :
    List String :=
  if config.hasOptions || (optStr config.sourceCompatibility).isSome ||
      (optStr config.targetCompatibility).isSome then
    [indent ++ "options.apply \x7b"] ++
    (if config.hasOptions then
      (match optStr config.optEncoding with
       | some enc => [indent ++ "    encoding = \"" ++ escapeString enc ++ "\""]
       | none => []) ++
      (match optList config.optCompilerArgs with
       | some asl =>
           [indent ++ "    compilerArgs.addAll(listOf(" ++
             String.intercalate ", "
               (asl.map (fun a => "\"" ++ escapeString a ++ "\"")) ++ "))"]
       | none => []) ++
      (if config.optDeprecation = some true then
        [indent ++ "    isDeprecation = true"]
       else []) ++
      (if config.optWarnings = some false then
        [indent ++ "    isWarnings = false"]
       else [])
     else []) ++
    [indent ++ "\x7d"]
  else []

/-- generateHttpRequestConfig (gradleExport.ts 391-436). -/
def generateHttpRequestConfig (config : TaskConfig) (indent : String) :
    List String :=
  let curlArgs : List String :=
    ["-X", (optStr config.method).getD "GET"] ++
    (config.headers.map (fun kv => ["-H", kv.1 ++ ": " ++ kv.2])).flatten ++
    (match optStr config.body with
     | some b => ["-d", b]
     | none => []) ++
    (match optStr config.contentType with
     | some ct => ["-H", "Content-Type: " ++ ct]
     | none => []) ++
    (match config.timeout with
     | some t => if t ≠ 0 then ["--max-time", toString t] else []
     | none => []) ++
    (if config.followRedirects = some false then [] else ["-L"]) ++
    (match optStr config.outputFile with
     | some o => ["-o", o]
     | none => []) ++
    (match optStr config.url with
     | some u => [u]
     | none => [])
  [indent ++ "// HTTP Request (using curl)",
   indent ++ "commandLine(\"curl\", " ++
     String.intercalate ", " (curlArgs.map (fun a => "\"" ++ escapeString a ++ "\"")) ++ ")"]

/-- generateTaskConfig (gradleExport.ts 441-468). -/
def generateTaskConfig (taskType : GradleTaskType) (config : Option TaskConfig)
    (indent : String) : List String :=
  match config with
  | none => []
  | some config =>
      match taskType with
      | GradleTaskType.Exec => generateExecConfig config indent
      | GradleTaskType.Copy => generateCopyConfig config indent
      | GradleTaskType.ProcessResources => generateCopyConfig config indent
      | GradleTaskType.Delete => generateDeleteConfig config indent
      | GradleTaskType.Zip => generateArchiveConfig config indent
      | GradleTaskType.Jar => generateArchiveConfig config indent
      | GradleTaskType.Test => generateTestConfig config indent
      | GradleTaskType.JavaCompile => generateJavaCompileConfig config indent
      | GradleTaskType.HttpRequest => generateHttpRequestConfig config indent
      | GradleTaskType.Custom => []

/-- getGradleTaskClass (gradleExport.ts 473-496). -/
def getGradleTaskClass (taskType : GradleTaskType) : String :=
  match taskType with
  | GradleTaskType.Exec => "Exec"
  | GradleTaskType.Copy => "Copy"
  | GradleTaskType.ProcessResources => "Copy"
  | GradleTaskType.Delete => "Delete"
  | GradleTaskType.Zip => "Zip"
  | GradleTaskType.Jar => "Jar"
  | GradleTaskType.Test => "Test"
  | GradleTaskType.JavaCompile => "JavaCompile"
  | GradleTaskType.HttpRequest => "Exec"
  | GradleTaskType.Custom => "DefaultTask"

/-- generateTask (gradleExport.ts 501-596). -/
def generateTask (node : GradleTaskNode) (edges : List GradleEdge)
    (taskNameMap : List (String × String)) (vars : List Variable)
    (options : GradleExportOptions) : List String :=
  let data := node.data
  let taskName := toTaskIdentifier data.taskName
  let taskClass := getGradleTaskClass data.taskType
  let indent := "    "
  let docLines :=
    if options.includeDescriptions then
      match optStr data.description with
      | some d => ["/**", " * " ++ d, " */"]
      | none => []
    else []
  if data.enabled = some false then
    if options.includeDisabledTasks then
      docLines ++
      ["// Task disabled in visual editor",
       "// tasks.register<" ++ taskClass ++ ">(\"" ++ taskName ++ "\") \x7b ... \x7d",
       ""]
    else []
  else
    docLines ++
    [(if taskClass = "DefaultTask" then
        "tasks.register(\"" ++ taskName ++ "\") \x7b"
      else
        "tasks.register<" ++ taskClass ++ ">(\"" ++ taskName ++ "\") \x7b")] ++
    (match optStr data.group with
     | some g => [indent ++ "group = \"" ++ escapeString g ++ "\""]
     | none => []) ++
    (match optStr data.description with
     | some d => [indent ++ "description = \"" ++ escapeString d ++ "\""]
     | none => []) ++
    ((edges.filter (fun e => e.target = node.id)).filterMap (fun dep =>
      match optStr (jsMapGet taskNameMap dep.source) with
      | some sourceTaskName =>
          some (indent ++
            getDependencyMethod
              (match dep.data with
               | some d => d.dependencyType
               | none => DependencyType.dependsOn) ++
            "(\"" ++ sourceTaskName ++ "\")")
      | none => none)) ++
    ((edges.filter (fun e =>
        e.source = node.id &&
        (match e.data with
         | some d => d.dependencyType = DependencyType.finalizedBy
         | none => false))).filterMap (fun fin =>
      match optStr (jsMapGet taskNameMap fin.target) with
      | some targetTaskName =>
          some (indent ++ "finalizedBy(\"" ++ targetTaskName ++ "\")")
      | none => none)) ++
    generateTaskConfig data.taskType data.config indent ++
    (match data.condition with
     | some c =>
         if c.conditions.length = 0 then []
         else
           let conditionExpr := generateConditionExpression c vars
           if conditionExpr = "" then [] else [conditionExpr]
     | none => []) ++
    (match data.timeout with
     | some t =>
         if t > 0 then [indent ++ "timeout.set(Duration.ofMinutes(" ++ toString t ++ "))"]
         else []
     | none => []) ++
    ["\x7d", ""]

/-- generateGradleKts (gradleExport.ts 601-681), with the wall-clock reading
new Date().toISOString() threaded as the explicit argument now. -/
def generateGradleKts (nodes : List GradleTaskNode) (edges : List GradleEdge)
    (vars : List Variable) (options : PartialExportOptions) (now : String) :
    String :=
  let opts := mergeExportOptions options
  let taskNameMap := buildTaskNameMap nodes
  let headerLines :=
    if opts.includeComments then
      ["/**", " * Generated by Gradle Flow Visual Editor",
       " * Generated on: " ++ now] ++
      (match optStr opts.projectName with
       | some p => [" * Project: " ++ p]
       | none => []) ++
      [" */", ""]
    else []
  let importLines := ["import java.time.Duration", ""]
  let pluginComment := if opts.includeComments then ["// Apply necessary plugins"] else []
  let hasJavaTasks := nodes.any (fun n =>
    n.data.taskType = GradleTaskType.JavaCompile ||
    n.data.taskType = GradleTaskType.Test ||
    n.data.taskType = GradleTaskType.Jar)
  let pluginLines :=
    ["plugins \x7b", "    base"] ++
    (if hasJavaTasks then ["    java"] else []) ++
    ["\x7d", ""]
  let variableLines :=
    if vars.length > 0 && opts.variableFormat = VariableFormat.properties then
      (if opts.includeComments then
        ["// Project properties (can be overridden via gradle.properties or -P flags)"]
       else []) ++
      (let userVariables := vars.filter (fun v => !(v.isSystem = some true))
       if userVariables.length > 0 then
         userVariables.map (fun vdecl =>
           "val " ++ vdecl.name ++ ": String by project.extra \x7b \"" ++
             escapeString vdecl.defaultValue ++ "\" \x7d") ++ [""]
       else [])
    else []
  let sep := "// " ++ String.mk (List.replicate 77 '=')
  let taskComment :=
    if opts.includeComments then
      [sep, "// Task Definitions", sep, ""]
    else []
  let sortedNodes := topologicalSortExport nodes edges
  let taskLines := (sortedNodes.map
    (fun node => generateTask node edges taskNameMap vars opts)).flatten
  String.intercalate "\n"
    (headerLines ++ importLines ++ pluginComment ++ pluginLines ++
     variableLines ++ taskComment ++ taskLines)

/-- Claim C3 counterexample: with entirely default options (no option set at
all, includeComments defaulting to true) the output embeds the wall-clock
timestamp, so two invocations at different instants give different bytes. -/
theorem C3_counterexample :
    generateGradleKts [] [] [] {} "2024-01-01T00:00:00.000Z" ≠
      generateGradleKts [] [] [] {} "2024-01-01T00:00:00.001Z" := by
  decide

/-- Claim C3 (amended): generateGradleKts is deterministic only when the
includeComments option is explicitly disabled; in that mode the output does
not depend on the clock reading at all.  With comments enabled (the default,
not an option explicitly requesting a timestamp) the header embeds
new Date().toISOString() and byte-determinism fails. -/
theorem C3_export_deterministic_without_comments (nodes : List GradleTaskNode)
    (edges : List GradleEdge) (vars : List Variable)
    (options : PartialExportOptions) (now1 now2 : String)
    (hic : (mergeExportOptions options).includeComments = false) :
    generateGradleKts nodes edges vars options now1 =
      generateGradleKts nodes edges vars options now2 := by
  simp only [generateGradleKts, hic, Bool.false_eq_true, if_false]

/-- Witness for the amended C3: with includeComments set to false, two runs
at different instants produce identical output. -/
theorem C3_export_deterministic_without_comments_witness :
    generateGradleKts [nodeA] [] [] { includeComments := some false } "T1" =
      generateGradleKts [nodeA] [] [] { includeComments := some false } "T2" :=
  C3_export_deterministic_without_comments [nodeA] [] []
    { includeComments := some false } "T1" "T2" rfl

-- ==========================================================================
-- C4: gradleImport.parseGradleKts (gradleImport.ts 64-159) and convertToGraph
-- ==========================================================================

/-- The JS whitespace class \s restricted to the ASCII characters that can
occur in build scripts. -/
def isJsSpace (c : Char) : Bool :=
  c = ' ' || c = '\t' || c = '\n' || c = '\r' || c = Char.ofNat 11 || c = Char.ofNat 12

/-- Match a literal character sequence, returning the rest. -/
def litP : List Char → List Char → Option (List Char)
  | [], rest => some rest
  | _ :: _, [] => none
  | c :: cs, d :: ds => if c = d then litP cs ds else none

/-- Greedy one-or-more run of a character class, with its remainder. -/
def plusP (p : Char → Bool) (l : List Char) : Option (List Char × List Char) :=
  let tk := l.takeWhile p
  if tk.length = 0 then none else some (tk, l.dropWhile p)

/-- Greedy zero-or-more run of a character class. -/
def starP (p : Char → Bool) (l : List Char) : List Char × List Char :=
  (l.takeWhile p, l.dropWhile p)

/-- The exec loop of a global regex: try the matcher at each position, and
after a match resume at its end.  Yields (index, captures, length). -/
def scanAllGo {α : Type} (try_ : List Char → Option (α × Nat)) :
    Nat → Nat → List Char → List (Nat × α × Nat)
  | 0, _, _ => []
  | Nat.succ _, _, [] => []
  | Nat.succ fuel, pos, c :: rest =>
      match try_ (c :: rest) with
      | some (a, len) =>
          (pos, a, len) :: scanAllGo try_ fuel (pos + len) ((c :: rest).drop len)
      | none => scanAllGo try_ fuel (pos + 1) rest

/-- All matches of a global regex over a character list. -/
def scanAll {α : Type} (try_ : List Char → Option (α × Nat)) (l : List Char) :
    List (Nat × α × Nat) :=
  scanAllGo try_ (l.length + 1) 0 l

/-- First match of a non-global regex: try the matcher at each position. -/
def firstMatchGo {α : Type} (try_ : List Char → Option α) : List Char → Option α
  | [] => none
  | c :: rest =>
      match try_ (c :: rest) with
      | some a => some a
      | none => firstMatchGo try_ rest

/-- First match of a regex whose head carries a word-boundary, so the matcher
also sees the preceding character. -/
def firstMatchPrevGo {α : Type} (try_ : Option Char → List Char → Option α) :
    Option Char → List Char → Option α
  | _, [] => none
  | prev, c :: rest =>
      match try_ prev (c :: rest) with
      | some a => some a
      | none => firstMatchPrevGo try_ (some c) rest

/-- String.includes of a non-empty needle. -/
def includesSub (l needle : List Char) : Bool :=
  (firstMatchGo (fun s => litP needle s) l).isSome

/-- One match of the quoted-string pattern. -/
def tryQuoted (l : List Char) : Option (String × Nat) := do
  let r1 ← litP ['"'] l
  let (cap, r2) ← plusP (fun c => c ≠ '"') r1
  let r3 ← litP ['"'] r2
  some (String.mk cap, l.length - r3.length)

/-- All quoted strings of an argument list, quotes stripped. -/
def quotedStrings (l : List Char) : List String :=
  (scanAll tryQuoted l).map (fun m => m.2.1)

/-- Drop through the first end-of-block-comment marker. -/
def dropToClose : List Char → Option (List Char)
  | [] => none
  | '*' :: '/' :: rest => some rest
  | _ :: rest => dropToClose rest

/-- Remove every non-greedy block comment. -/
def stripBlockGo : Nat → List Char → List Char
  | 0, l => l
  | Nat.succ _, [] => []
  | Nat.succ fuel, '/' :: '*' :: rest =>
      (match dropToClose rest with
       | some rest1 => stripBlockGo fuel rest1
       | none => '/' :: stripBlockGo fuel ('*' :: rest))
  | Nat.succ fuel, c :: rest => c :: stripBlockGo fuel rest

/-- Drop a line's tail from its first line-comment marker. -/
def stripLineComment : List Char → List Char
  | [] => []
  | '/' :: '/' :: _ => []
  | c :: rest => c :: stripLineComment rest

/-- Split a character list at newline characters, as String.split on a
newline separator does. -/
def splitLinesGo : List Char → List (List Char)
  | [] => [[]]
  | '\n' :: rest => [] :: splitLinesGo rest
  | c :: rest =>
      match splitLinesGo rest with
      | [] => [[c]]
      | l :: ls => (c :: l) :: ls

/-- Join character-list lines with newlines. -/
def joinLines : List (List Char) → List Char
  | [] => []
  | [l] => l
  | l :: ls => l ++ '\n' :: joinLines ls

/-- removeComments (gradleImport.ts 164-170): block comments first, then the
per-line comment tails. -/
def removeComments (content : String) : String :=
  let noBlock := stripBlockGo (content.data.length + 1) content.data
  String.mk (joinLines
    ((splitLinesGo noBlock).map (fun line => stripLineComment line)))

/-- extractBalancedBraces scanning state step (gradleImport.ts 175-211). -/
def extractGo : Int → Bool → Char → Char → List Char → List Char
  | _, _, _, _, [] => []
  | depth, inString, stringChar, prev, c :: rest =>
      let st :=
        if (c = '"' || c = Char.ofNat 39) && prev ≠ '\\' then
          if !inString then (true, c)
          else if c = stringChar then (false, stringChar)
          else (inString, stringChar)
        else (inString, stringChar)
      if !st.1 then
        if c = '\x7b' then
          if depth + 1 = 1 then extractGo (depth + 1) st.1 st.2 c rest
          else if depth + 1 > 0 then c :: extractGo (depth + 1) st.1 st.2 c rest
          else extractGo (depth + 1) st.1 st.2 c rest
        else if c = '\x7d' then
          if depth - 1 = 0 then []
          else if depth - 1 > 0 then c :: extractGo (depth - 1) st.1 st.2 c rest
          else extractGo (depth - 1) st.1 st.2 c rest
        else
          if depth > 0 then c :: extractGo depth st.1 st.2 c rest
          else extractGo depth st.1 st.2 c rest
      else
        if depth > 0 then c :: extractGo depth st.1 st.2 c rest
        else extractGo depth st.1 st.2 c rest

/-- extractBalancedBraces (gradleImport.ts 175-211). -/
def extractBalancedBraces (content : List Char) (start : Nat) : List Char :=
  extractGo 0 false (Char.ofNat 0)
    (if start = 0 then Char.ofNat 0 else content.getD (start - 1) (Char.ofNat 0))
    (content.drop start)

/-- TASK_TYPE_MAP (gradleImport.ts 48-58). -/
def taskTypeMap (s : String) : Option GradleTaskType :=
  if s = "Exec" then some GradleTaskType.Exec
  else if s = "Copy" then some GradleTaskType.Copy
  else if s = "Delete" then some GradleTaskType.Delete
  else if s = "Zip" then some GradleTaskType.Zip
  else if s = "Jar" then some GradleTaskType.Jar
  else if s = "Test" then some GradleTaskType.Test
  else if s = "JavaCompile" then some GradleTaskType.JavaCompile
  else if s = "ProcessResources" then some GradleTaskType.ProcessResources
  else if s = "DefaultTask" then some GradleTaskType.Custom
  else none

/-- Pattern 1 (gradleImport.ts 76): tasks.register<Type>("name") brace. -/
def tryPattern1 (l : List Char) : Option ((Option String × String) × Nat) := do
  let r1 ← litP ("tasks.register<").data l
  let (ty, r2) ← plusP isIdentChar r1
  let r3 ← litP (">").data r2
  let r4 := (starP isJsSpace r3).2
  let r5 ← litP ("(").data r4
  let r6 := (starP isJsSpace r5).2
  let r7 ← litP ['"'] r6
  let (nm, r8) ← plusP (fun c => c ≠ '"') r7
  let r9 ← litP ['"'] r8
  let r10 := (starP isJsSpace r9).2
  let r11 ← litP (")").data r10
  let r12 := (starP isJsSpace r11).2
  let r13 ← litP ("\x7b").data r12
  some ((some (String.mk ty), String.mk nm), l.length - r13.length)

/-- Pattern 2 (gradleImport.ts 95): tasks.register("name") brace. -/
def tryPattern2 (l : List Char) : Option ((Option String × String) × Nat) := do
  let r1 ← litP ("tasks.register").data l
  let r2 := (starP isJsSpace r1).2
  let r3 ← litP ("(").data r2
  let r4 := (starP isJsSpace r3).2
  let r5 ← litP ['"'] r4
  let (nm, r6) ← plusP (fun c => c ≠ '"') r5
  let r7 ← litP ['"'] r6
  let r8 := (starP isJsSpace r7).2
  let r9 ← litP (")").data r8
  let r10 := (starP isJsSpace r9).2
  let r11 ← litP ("\x7b").data r10
  some ((none, String.mk nm), l.length - r11.length)

/-- Pattern 3 (gradleImport.ts 112): tasks.register("name", Type::class) brace. -/
def tryPattern3 (l : List Char) : Option ((Option String × String) × Nat) := do
  let r1 ← litP ("tasks.register").data l
  let r2 := (starP isJsSpace r1).2
  let r3 ← litP ("(").data r2
  let r4 := (starP isJsSpace r3).2
  let r5 ← litP ['"'] r4
  let (nm, r6) ← plusP (fun c => c ≠ '"') r5
  let r7 ← litP ['"'] r6
  let r8 := (starP isJsSpace r7).2
  let r9 ← litP (",").data r8
  let r10 := (starP isJsSpace r9).2
  let (ty, r11) ← plusP isIdentChar r10
  let r12 ← litP ("::class").data r11
  let r13 := match litP (".java").data r12 with
    | some r => r
    | none => r12
  let r14 := (starP isJsSpace r13).2
  let r15 ← litP (")").data r14
  let r16 := (starP isJsSpace r15).2
  let r17 ← litP ("\x7b").data r16
  some ((some (String.mk ty), String.mk nm), l.length - r17.length)

/-- Pattern 4 (gradleImport.ts 131): tasks.create<Type>("name") brace. -/
def tryPattern4 (l : List Char) : Option ((Option String × String) × Nat) := do
  let r1 ← litP ("tasks.create<").data l
  let (ty, r2) ← plusP isIdentChar r1
  let r3 ← litP (">").data r2
  let r4 := (starP isJsSpace r3).2
  let r5 ← litP ("(").data r4
  let r6 := (starP isJsSpace r5).2
  let r7 ← litP ['"'] r6
  let (nm, r8) ← plusP (fun c => c ≠ '"') r7
  let r9 ← litP ['"'] r8
  let r10 := (starP isJsSpace r9).2
  let r11 ← litP (")").data r10
  let r12 := (starP isJsSpace r11).2
  let r13 ← litP ("\x7b").data r12
  some ((some (String.mk ty), String.mk nm), l.length - r13.length)

/-- ParsedTask (gradleImport.ts 29-44). -/
structure ParsedTask where
  id : String
  name : String
  ttype : GradleTaskType
  group : Option String := none
  description : Option String := none
  enabled : Option Bool := none
  config : TaskConfig := {}
  dependsOn : List String := []
  mustRunAfter : List String := []
  shouldRunAfter : List String := []
  finalizedBy : List String := []
  condition : Option TaskCondition := none
  bodyContent : String := ""
deriving DecidableEq, Repr

/-- One match of method(args) as used by parseTaskReferences. -/
def tryCall (method : List Char) (l : List Char) : Option (String × Nat) := do
  let r1 ← litP method l
  let r2 := (starP isJsSpace r1).2
  let r3 ← litP ("(").data r2
  let (args, r4) ← plusP (fun c => c ≠ ')') r3
  let r5 ← litP (")").data r4
  some (String.mk args, l.length - r5.length)

/-- parseTaskReferences (gradleImport.ts 291-310). -/
def parseTaskReferences (body : List Char) (method : String) : List String :=
  ((scanAll (tryCall method.data) body).map
    (fun m => quotedStrings m.2.1.data)).flatten

/-- The System.getenv condition pattern of parseCondition (gradleImport.ts 322). -/
def tryGetenvCond (l : List Char) : Option (String × Bool) := do
  let r1 ← litP ("System.getenv").data l
  let r2 := (starP isJsSpace r1).2
  let r3 ← litP ("(").data r2
  let r4 := (starP isJsSpace r3).2
  let r5 ← litP ['"'] r4
  let (var, r6) ← plusP (fun c => c ≠ '"') r5
  let r7 ← litP ['"'] r6
  let r8 := (starP isJsSpace r7).2
  let r9 ← litP (")").data r8
  let r10 := (starP isJsSpace r9).2
  let (isNe, r11) ← (match litP ("!=").data r10 with
    | some r => some (true, r)
    | none => match litP ("==").data r10 with
      | some r => some (false, r)
      | none => none)
  let r12 := (starP isJsSpace r11).2
  let _ ← (match litP ("null").data r12 with
    | some r => some r
    | none => do
        let ra ← litP ['"'] r12
        let rb := (starP (fun c => c ≠ '"') ra).2
        litP ['"'] rb)
  some (String.mk var, isNe)

/-- The project.hasProperty condition pattern of parseCondition
(gradleImport.ts 333). -/
def tryHasPropCond (l : List Char) : Option String := do
  let r1 ← litP ("project.hasProperty").data l
  let r2 := (starP isJsSpace r1).2
  let r3 ← litP ("(").data r2
  let r4 := (starP isJsSpace r3).2
  let r5 ← litP ['"'] r4
  let (var, r6) ← plusP (fun c => c ≠ '"') r5
  let r7 ← litP ['"'] r6
  let r8 := (starP isJsSpace r7).2
  let _ ← litP (")").data r8
  some (String.mk var)

/-- parseCondition (gradleImport.ts 315-358), with Date.now() threaded as the
explicit argument nowMs. -/
def parseCondition (mode : CondMode) (expr : String) (nowMs : String) :
    TaskCondition :=
  let conditions1 :=
    match firstMatchGo tryGetenvCond expr.data with
    | some (v, isNe) =>
        [{ id := "cond_" ++ nowMs, leftSource := ConditionSource.environment,
           leftValue := v,
           operator := if isNe then ConditionOperator.isNotEmpty
                       else ConditionOperator.isEmpty }]
    | none => []
  let conditions2 :=
    match firstMatchGo tryHasPropCond expr.data with
    | some v =>
        [{ id := "cond_" ++ nowMs, leftSource := ConditionSource.property,
           leftValue := v, operator := ConditionOperator.isNotEmpty }]
    | none => []
  let conditions := conditions1 ++ conditions2
  let conditions :=
    if conditions.length = 0 then
      [{ id := "cond_" ++ nowMs, leftSource := ConditionSource.literal,
         leftValue := jsTrim expr, operator := ConditionOperator.isTrue }]
    else conditions
  { mode := mode, conditions := conditions, logic := CondLogic.and }

/-- Digit run to a number, as parseInt does on a pure digit capture. -/
def digitsToNat (l : List Char) : Nat :=
  l.foldl (fun a c => a * 10 + (c.toNat - 48)) 0

/-- name\s*=\s*"([^"]+)" matcher used for group and description. -/
def tryAssignQuoted (name : String) (l : List Char) : Option String := do
  let r1 ← litP name.data l
  let r2 := (starP isJsSpace r1).2
  let r3 ← litP ("=").data r2
  let r4 := (starP isJsSpace r3).2
  let r5 ← litP ['"'] r4
  let (cap, r6) ← plusP (fun c => c ≠ '"') r5
  let _ ← litP ['"'] r6
  some (String.mk cap)

/-- enabled\s*=\s*(true|false) matcher. -/
def tryEnabled (l : List Char) : Option Bool := do
  let r1 ← litP ("enabled").data l
  let r2 := (starP isJsSpace r1).2
  let r3 ← litP ("=").data r2
  let r4 := (starP isJsSpace r3).2
  match litP ("true").data r4 with
  | some _ => some true
  | none =>
      match litP ("false").data r4 with
      | some _ => some false
      | none => none

/-- onlyIf\s*\x7b([^\x7d]+)\x7d matcher. -/
def tryOnlyIf (l : List Char) : Option String := do
  let r1 ← litP ("onlyIf").data l
  let r2 := (starP isJsSpace r1).2
  let r3 ← litP ("\x7b").data r2
  let (cap, r4) ← plusP (fun c => c ≠ '\x7d') r3
  let _ ← litP ("\x7d").data r4
  some (String.mk cap)

/-- name\s*\(\s*"([^"]+)"\s*\) matcher used by the list-style config reads. -/
def tryCallQuoted (name : String) (l : List Char) : Option (String × Nat) := do
  let r1 ← litP name.data l
  let r2 := (starP isJsSpace r1).2
  let r3 ← litP ("(").data r2
  let r4 := (starP isJsSpace r3).2
  let r5 ← litP ['"'] r4
  let (cap, r6) ← plusP (fun c => c ≠ '"') r5
  let r7 ← litP ['"'] r6
  let r8 := (starP isJsSpace r7).2
  let r9 ← litP (")").data r8
  some (String.mk cap, l.length - r9.length)

/-- workingDir\s*=?\s*(?:file\s*\()?\s*"([^"]+)" matcher. -/
def tryWorkingDir (l : List Char) : Option String := do
  let r1 ← litP ("workingDir").data l
  let r2 := (starP isJsSpace r1).2
  let r3 := match litP ("=").data r2 with
    | some r => r
    | none => r2
  let r4 := (starP isJsSpace r3).2
  let r5 := match (do
      let ra ← litP ("file").data r4
      let rb := (starP isJsSpace ra).2
      litP ("(").data rb : Option (List Char)) with
    | some r => r
    | none => r4
  let r6 := (starP isJsSpace r5).2
  let r7 ← litP ['"'] r6
  let (cap, r8) ← plusP (fun c => c ≠ '"') r7
  let _ ← litP ['"'] r8
  some (String.mk cap)

/-- environment("KEY", "value") matcher. -/
def tryEnvPair (l : List Char) : Option ((String × String) × Nat) := do
  let r1 ← litP ("environment").data l
  let r2 := (starP isJsSpace r1).2
  let r3 ← litP ("(").data r2
  let r4 := (starP isJsSpace r3).2
  let r5 ← litP ['"'] r4
  let (k, r6) ← plusP (fun c => c ≠ '"') r5
  let r7 ← litP ['"'] r6
  let r8 := (starP isJsSpace r7).2
  let r9 ← litP (",").data r8
  let r10 := (starP isJsSpace r9).2
  let r11 ← litP ['"'] r10
  let (v, r12) ← plusP (fun c => c ≠ '"') r11
  let r13 ← litP ['"'] r12
  let r14 := (starP isJsSpace r13).2
  let r15 ← litP (")").data r14
  some ((String.mk k, String.mk v), l.length - r15.length)

/-- parseExecConfig (gradleImport.ts 363-405). -/
def parseExecConfig (body : List Char) : TaskConfig :=
  let commandLine := match firstMatchGo (tryCall ("commandLine").data) body with
    | some (args, _) =>
        let qs := quotedStrings args.data
        if qs.length = 0 then none else some qs
    | none => none
  let workingDir := firstMatchGo tryWorkingDir body
  let args := match firstMatchPrevGo
      (fun prev l =>
        if (match prev with
            | some p => !(isIdentChar p)
            | none => true) then tryCall ("args").data l else none)
      none body with
    | some (a, _) =>
        let qs := quotedStrings a.data
        if qs.length = 0 then none else some qs
    | none => none
  let env := jsMapBuild ((scanAll tryEnvPair body).map (fun m => m.2.1))
  let ignoreExit := includesSub body ("isIgnoreExitValue = true").data ||
    includesSub body ("ignoreExitValue = true").data
  { commandLine := commandLine, workingDir := workingDir, args := args,
    environment := env,
    ignoreExitValue := if ignoreExit then some true else none }

/-- duplicatesStrategy\s*=\s*DuplicatesStrategy\.(\w+) matcher. -/
def tryDuplicatesStrategy (l : List Char) : Option String := do
  let r1 ← litP ("duplicatesStrategy").data l
  let r2 := (starP isJsSpace r1).2
  let r3 ← litP ("=").data r2
  let r4 := (starP isJsSpace r3).2
  let r5 ← litP ("DuplicatesStrategy.").data r4
  let (cap, _) ← plusP isIdentChar r5
  some (String.mk cap)

/-- All captures of a repeated name("value") read. -/
def allCallQuoted (name : String) (body : List Char) : Option (List String) :=
  let caps := (scanAll (tryCallQuoted name) body).map (fun m => m.2.1)
  if caps.length = 0 then none else some caps

/-- parseCopyConfig (gradleImport.ts 410-456). -/
def parseCopyConfig (body : List Char) : TaskConfig :=
  { fromSrcs := allCallQuoted "from" body,
    into := firstMatchGo (fun l => (tryCallQuoted ("into") l).map (fun m => m.1)) body,
    includePats := allCallQuoted "include" body,
    excludePats := allCallQuoted "exclude" body,
    duplicatesStrategy := firstMatchGo tryDuplicatesStrategy body }

/-- parseDeleteConfig (gradleImport.ts 461-475). -/
def parseDeleteConfig (body : List Char) : TaskConfig :=
  { deletePaths := match firstMatchGo (tryCall ("delete").data) body with
      | some (args, _) =>
          let qs := quotedStrings args.data
          if qs.length = 0 then none else some qs
      | none => none }

/-- archiveFileName(?:\.set\s*\(|\s*=\s*)"([^"]+)" matcher. -/
def tryArchiveFileName (l : List Char) : Option String := do
  let r1 ← litP ("archiveFileName").data l
  let r2 ← (match (do
      let ra ← litP (".set").data r1
      let rb := (starP isJsSpace ra).2
      litP ("(").data rb : Option (List Char)) with
    | some r => some r
    | none => do
        let ra := (starP isJsSpace r1).2
        let rb ← litP ("=").data ra
        some ((starP isJsSpace rb).2))
  let r3 ← litP ['"'] r2
  let (cap, r4) ← plusP (fun c => c ≠ '"') r3
  let _ ← litP ['"'] r4
  some (String.mk cap)

/-- destinationDirectory matcher (gradleImport.ts 494). -/
def tryDestinationDirectory (l : List Char) : Option String := do
  let r1 ← litP ("destinationDirectory").data l
  let r2 ← (match (do
      let ra ← litP (".set").data r1
      let rb := (starP isJsSpace ra).2
      litP ("(").data rb : Option (List Char)) with
    | some r => some r
    | none => do
        let ra := (starP isJsSpace r1).2
        let rb ← litP ("=").data ra
        some ((starP isJsSpace rb).2))
  let r3 := match (do
      let ra ← litP ("file").data r2
      let rb := (starP isJsSpace ra).2
      litP ("(").data rb : Option (List Char)) with
    | some r => r
    | none =>
        match (do
          let ra ← litP ("layout.").data r2
          let (_, rb) ← plusP isIdentChar ra
          let rc ← litP (".dir").data rb
          let rd := (starP isJsSpace rc).2
          litP ("(").data rd : Option (List Char)) with
        | some r => r
        | none => r2
  let r4 := (starP isJsSpace r3).2
  let r5 ← litP ['"'] r4
  let (cap, r6) ← plusP (fun c => c ≠ '"') r5
  let _ ← litP ['"'] r6
  some (String.mk cap)

/-- parseArchiveConfig (gradleImport.ts 480-525). -/
def parseArchiveConfig (body : List Char) : TaskConfig :=
  { fromSrcs := allCallQuoted "from" body,
    archiveFileName := firstMatchGo tryArchiveFileName body,
    destinationDirectory := firstMatchGo tryDestinationDirectory body,
    includePats := allCallQuoted "include" body,
    excludePats := allCallQuoted "exclude" body }

/-- maxParallelForks\s*=\s*(\d+) matcher. -/
def tryMaxParallelForks (l : List Char) : Option Nat := do
  let r1 ← litP ("maxParallelForks").data l
  let r2 := (starP isJsSpace r1).2
  let r3 ← litP ("=").data r2
  let r4 := (starP isJsSpace r3).2
  let (ds, _) ← plusP Char.isDigit r4
  some (digitsToNat ds)

/-- parseTestConfig (gradleImport.ts 530-572). -/
def parseTestConfig (body : List Char) : TaskConfig :=
  { includePats := allCallQuoted "include" body,
    excludePats := allCallQuoted "exclude" body,
    maxParallelForks := match firstMatchGo tryMaxParallelForks body with
      | some n => some (Int.ofNat n)
      | none => none,
    failFast := if includesSub body ("failFast = true").data then some true else none,
    ignoreFailures :=
      if includesSub body ("ignoreFailures = true").data then some true else none,
    jvmArgs := match firstMatchGo (tryCall ("jvmArgs").data) body with
      | some (args, _) =>
          let qs := quotedStrings args.data
          if qs.length = 0 then none else some qs
      | none => none }

/-- sourceCompatibility\s*=\s*(?:JavaVersion\.VERSION_)?(\d+) matcher. -/
def tryCompatibility (name : String) (l : List Char) : Option String := do
  let r1 ← litP name.data l
  let r2 := (starP isJsSpace r1).2
  let r3 ← litP ("=").data r2
  let r4 := (starP isJsSpace r3).2
  let r5 := match litP ("JavaVersion.VERSION_").data r4 with
    | some r => r
    | none => r4
  let (ds, _) ← plusP Char.isDigit r5
  some (String.mk ds)

/-- options\s*\.\s*encoding\s*=\s*"([^"]+)" matcher. -/
def tryOptionsEncoding (l : List Char) : Option String := do
  let r1 ← litP ("options").data l
  let r2 := (starP isJsSpace r1).2
  let r3 ← litP (".").data r2
  let r4 := (starP isJsSpace r3).2
  let r5 ← litP ("encoding").data r4
  let r6 := (starP isJsSpace r5).2
  let r7 ← litP ("=").data r6
  let r8 := (starP isJsSpace r7).2
  let r9 ← litP ['"'] r8
  let (cap, r10) ← plusP (fun c => c ≠ '"') r9
  let _ ← litP ['"'] r10
  some (String.mk cap)

/-- parseJavaCompileConfig (gradleImport.ts 577-600). -/
def parseJavaCompileConfig (body : List Char) : TaskConfig :=
  let enc := firstMatchGo tryOptionsEncoding body
  { sourceCompatibility := firstMatchGo (tryCompatibility ("sourceCompatibility")) body,
    targetCompatibility := firstMatchGo (tryCompatibility ("targetCompatibility")) body,
    optEncoding := enc,
    hasOptions := enc.isSome }

/-- parseTaskBody (gradleImport.ts 216-288), with Date.now() threaded as
nowMs. -/
def parseTaskBody (name : String) (ttype : GradleTaskType) (body : String)
    (nowMs : String) : ParsedTask :=
  let bl := body.data
  { id := "task_" ++
      String.mk (name.data.map (fun c => if c.isAlphanum then c else '_')),
    name := name,
    ttype := ttype,
    group := firstMatchGo (tryAssignQuoted ("group")) bl,
    description := firstMatchGo (tryAssignQuoted ("description")) bl,
    enabled := firstMatchGo tryEnabled bl,
    dependsOn := parseTaskReferences bl "dependsOn",
    mustRunAfter := parseTaskReferences bl "mustRunAfter",
    shouldRunAfter := parseTaskReferences bl "shouldRunAfter",
    finalizedBy := parseTaskReferences bl "finalizedBy",
    condition := match firstMatchGo tryOnlyIf bl with
      | some expr => some (parseCondition CondMode.onlyIf expr nowMs)
      | none => none,
    config := match ttype with
      | GradleTaskType.Exec => parseExecConfig bl
      | GradleTaskType.Copy => parseCopyConfig bl
      | GradleTaskType.ProcessResources => parseCopyConfig bl
      | GradleTaskType.Delete => parseDeleteConfig bl
      | GradleTaskType.Zip => parseArchiveConfig bl
      | GradleTaskType.Jar => parseArchiveConfig bl
      | GradleTaskType.Test => parseTestConfig bl
      | GradleTaskType.JavaCompile => parseJavaCompileConfig bl
      | GradleTaskType.HttpRequest => parseExecConfig bl
      | GradleTaskType.Custom => {},
    bodyContent := body }

/-- GradleParseResult (gradleImport.ts 20-25). -/
structure GradleParseResult where
  nodes : List GradleTaskNode
  edges : List GradleEdge
  errors : List String
  warnings : List String
deriving DecidableEq, Repr

/-- One pattern's exec loop of parseGradleKts: skip positions an earlier
pattern already matched, otherwise record the position and parse the task
body found behind the match. -/
def processMatches (cl : List Char) (nowMs : String) :
    List (Nat × (Option String × String) × Nat) → List Nat →
    (List ParsedTask × List Nat)
  | [], seen => ([], seen)
  | (idx, (oty, nm), len) :: rest, seen =>
      if seen.contains idx then processMatches cl nowMs rest seen
      else
        let seen1 := seen ++ [idx]
        let ttype := match oty with
          | some ty => (taskTypeMap ty).getD GradleTaskType.Custom
          | none => GradleTaskType.Custom
        let body := extractBalancedBraces cl (idx + len - 1)
        let t := parseTaskBody nm ttype (String.mk body) nowMs
        let (ts, seen2) := processMatches cl nowMs rest seen1
        (t :: ts, seen2)

/-- The recognized tasks of parseGradleKts (gradleImport.ts 64-150), in the
order the four patterns find them. -/
def parsedTasksOf (content : String) (nowMs : String) : List ParsedTask :=
  let cl := (removeComments content).data
  let (t1, s1) := processMatches cl nowMs (scanAll tryPattern1 cl) []
  let (t2, s2) := processMatches cl nowMs (scanAll tryPattern2 cl) s1
  let (t3, s3) := processMatches cl nowMs (scanAll tryPattern3 cl) s2
  let (t4, _) := processMatches cl nowMs (scanAll tryPattern4 cl) s3
  t1 ++ t2 ++ t3 ++ t4

/-- The edges convertToGraph creates for one parsed task: references that
resolve in the name map produce edges, anything else is silently dropped. -/
def taskEdges (taskNameToId : List (String × String)) (task : ParsedTask) :
    List GradleEdge :=
  (task.dependsOn.filterMap (fun dep =>
    match optStr (jsMapGet taskNameToId dep) with
    | some sourceId =>
        some { id := sourceId ++ "-" ++ task.id, source := sourceId,
               target := task.id, edgeKind := some "dependency",
               data := some { dependencyType := DependencyType.dependsOn } }
    | none => none)) ++
  (task.mustRunAfter.filterMap (fun dep =>
    match optStr (jsMapGet taskNameToId dep) with
    | some sourceId =>
        some { id := sourceId ++ "-" ++ task.id ++ "-mustRunAfter",
               source := sourceId, target := task.id,
               edgeKind := some "dependency",
               data := some { dependencyType := DependencyType.mustRunAfter } }
    | none => none)) ++
  (task.shouldRunAfter.filterMap (fun dep =>
    match optStr (jsMapGet taskNameToId dep) with
    | some sourceId =>
        some { id := sourceId ++ "-" ++ task.id ++ "-shouldRunAfter",
               source := sourceId, target := task.id,
               edgeKind := some "dependency",
               data := some { dependencyType := DependencyType.shouldRunAfter } }
    | none => none)) ++
  (task.finalizedBy.filterMap (fun dep =>
    match optStr (jsMapGet taskNameToId dep) with
    | some targetId =>
        some { id := task.id ++ "-" ++ targetId ++ "-finalizedBy",
               source := task.id, target := targetId,
               edgeKind := some "dependency",
               data := some { dependencyType := DependencyType.finalizedBy } }
    | none => none))

/-- The node convertToGraph creates for the i-th parsed task. -/
def convertNode (p : Nat × ParsedTask) : GradleTaskNode :=
  { id := p.2.id,
    nodeKind := some "gradleTask",
    position := { x := 100 + Int.ofNat (p.1 % 4) * 200,
                  y := 100 + Int.ofNat (p.1 / 4) * 200 },
    data := { taskName := p.2.name, taskType := p.2.ttype,
              group := p.2.group, description := p.2.description,
              enabled := some (p.2.enabled.getD true),
              config := some p.2.config,
              condition := p.2.condition } }

/-- convertToGraph (gradleImport.ts 610-706). -/
def convertToGraph (tasks : List ParsedTask) :
    (List GradleTaskNode × List GradleEdge) :=
  let taskNameToId := jsMapBuild (tasks.map (fun t => (t.name, t.id)))
  let nodes := tasks.enum.map convertNode
  let edges := (tasks.map (taskEdges taskNameToId)).flatten
  (nodes, edges)

/-- parseGradleKts (gradleImport.ts 64-159): the recovered graph plus the
error and warning lists; the only warning ever pushed is the zero-task one,
and parseTaskBody cannot throw, so errors stay empty. -/
def parseGradleKts (content : String) (nowMs : String) : GradleParseResult :=
  let parsedTasks := parsedTasksOf content nowMs
  let g := convertToGraph parsedTasks
  { nodes := g.1, edges := g.2, errors := [],
    warnings :=
      if parsedTasks.length = 0 then
        ["No tasks found in the Gradle file. Make sure tasks use tasks.register or tasks.create syntax."]
      else [] }

/-- Every entry of a jsMapSet result is an old entry or the pair just set. -/
theorem mem_jsMapSet {β : Type} (m : List (String × β)) (k : String) (v : β) :
    ∀ p ∈ jsMapSet m k v, p ∈ m ∨ p = (k, v) := by
  intro p hp
  unfold jsMapSet at hp
  by_cases h : m.any (fun q => q.1 = k) = true
  · rw [if_pos h] at hp
    obtain ⟨q, hq, hpq⟩ := List.mem_map.mp hp
    by_cases hqk : q.1 = k
    · rw [if_pos hqk] at hpq
      exact Or.inr hpq.symm
    · rw [if_neg hqk] at hpq
      exact Or.inl (hpq ▸ hq)
  · rw [if_neg h] at hp
    rcases List.mem_append.mp hp with h1 | h1
    · exact Or.inl h1
    · rw [List.mem_singleton] at h1
      exact Or.inr h1

/-- Every entry of a jsMapBuild result is one of the input pairs. -/
theorem mem_jsMapBuild {β : Type} (ps : List (String × β)) :
    ∀ q ∈ jsMapBuild ps, q ∈ ps := by
  have hgen : ∀ (l m : List (String × β)), (∀ q ∈ m, q ∈ ps) → (∀ p ∈ l, p ∈ ps) →
      ∀ q ∈ l.foldl (fun m p => jsMapSet m p.1 p.2) m, q ∈ ps := by
    intro l
    induction l with
    | nil =>
        intro m hm _ q hq
        exact hm q hq
    | cons p rest ih =>
        intro m hm hl q hq
        rw [List.foldl_cons] at hq
        apply ih (jsMapSet m p.1 p.2) ?_ (fun r hr => hl r (List.mem_cons_of_mem _ hr)) q hq
        intro r hr
        rcases mem_jsMapSet m p.1 p.2 r hr with h | h
        · exact hm r h
        · rw [h]
          exact hl p (List.mem_cons_self _ _)
  intro q hq
  exact hgen ps [] (fun r hr => absurd hr (List.not_mem_nil r)) (fun p hp => hp) q hq

/-- optStr only succeeds on the stored string. -/
theorem optStr_eq_some (o : Option String) (v : String)
    (h : optStr o = some v) : o = some v := by
  unfold optStr at h
  rcases o with _ | s
  · exact absurd h (by simp)
  · simp only [] at h
    by_cases hs : s = ""
    · rw [if_pos hs] at h
      exact absurd h (by simp)
    · rw [if_neg hs] at h
      exact h

/-- Endpoints of the edges created for one parsed task always lie in the task
id set when the name map's values do. -/
theorem taskEdges_endpoints (m : List (String × String)) (ids : List String)
    (hm : ∀ q ∈ m, q.2 ∈ ids) (t : ParsedTask) (ht : t.id ∈ ids) :
    ∀ e ∈ taskEdges m t, e.source ∈ ids ∧ e.target ∈ ids := by
  intro e he
  unfold taskEdges at he
  have hres : ∀ dep v, optStr (jsMapGet m dep) = some v → v ∈ ids := by
    intro dep v hv
    have hg := optStr_eq_some _ _ hv
    exact hm (dep, v) (jsMapGet_mem m dep v hg)
  rcases List.mem_append.mp he with h123 | h4
  · rcases List.mem_append.mp h123 with h12 | h3
    · rcases List.mem_append.mp h12 with h1 | h2
      · obtain ⟨dep, _, hmap⟩ := List.mem_filterMap.mp h1
        rcases ho : optStr (jsMapGet m dep) with _ | v
        · rw [ho] at hmap
          exact absurd hmap (by simp)
        · rw [ho] at hmap
          injection hmap with hmap
          rw [← hmap]
          exact ⟨hres dep v ho, ht⟩
      · obtain ⟨dep, _, hmap⟩ := List.mem_filterMap.mp h2
        rcases ho : optStr (jsMapGet m dep) with _ | v
        · rw [ho] at hmap
          exact absurd hmap (by simp)
        · rw [ho] at hmap
          injection hmap with hmap
          rw [← hmap]
          exact ⟨hres dep v ho, ht⟩
    · obtain ⟨dep, _, hmap⟩ := List.mem_filterMap.mp h3
      rcases ho : optStr (jsMapGet m dep) with _ | v
      · rw [ho] at hmap
        exact absurd hmap (by simp)
      · rw [ho] at hmap
        injection hmap with hmap
        rw [← hmap]
        exact ⟨hres dep v ho, ht⟩
  · obtain ⟨dep, _, hmap⟩ := List.mem_filterMap.mp h4
    rcases ho : optStr (jsMapGet m dep) with _ | v
    · rw [ho] at hmap
      exact absurd hmap (by simp)
    · rw [ho] at hmap
      injection hmap with hmap
      rw [← hmap]
      exact ⟨ht, hres dep v ho⟩

/-- A one-task script whose dependsOn names an unknown task. -/
def gradleScriptDangling : String :=
  "tasks.register(\"build\") \x7b dependsOn(\"compile\") \x7d"

/-- A two-task script whose dependsOn resolves. -/
def gradleScriptResolved : String :=
  "tasks.register(\"a\") \x7b\x7d\ntasks.register(\"b\") \x7b dependsOn(\"a\") \x7d"

/-- Claim C4 counterexample: the recognized task body carries a dependency
reference to the unknown task compile, yet parseGradleKts returns no warning
at all (and no edge): unresolved references are silently dropped, warned
about neither here nor in convertToGraph. -/
theorem C4_counterexample :
    (parseGradleKts gradleScriptDangling "0").warnings = [] ∧
    (parseGradleKts gradleScriptDangling "0").edges = [] ∧
    ((parseGradleKts gradleScriptDangling "0").nodes.map
      (fun n => n.data.taskName)) = ["build"] ∧
    (∃ t ∈ parsedTasksOf gradleScriptDangling "0", "compile" ∈ t.dependsOn) := by
  refine ⟨by decide, by decide, by decide, by decide⟩

/-- Mapping a function of the element over an enumerated list ignores the
indices. -/
theorem enum_map_snd_f {α β : Type} (l : List α) (f : α → β) :
    l.enum.map (fun p => f p.2) = l.map f := by
  have h : (fun p : Nat × α => f p.2) = (f ∘ Prod.snd) := rfl
  rw [h, ← List.map_map, List.enum_map_snd]

/-- Claim C4 (amended): parseGradleKts warns exactly when no task was
recognized (never about unresolved dependency references), and the recovered
graph is still returned, internally closed: every edge of the result joins
ids of returned nodes, because convertToGraph silently drops any reference
whose task name resolves to no recovered node. -/
theorem C4_import_warnings_and_closure (content nowMs : String) :
    ((parseGradleKts content nowMs).warnings ≠ [] ↔
      parsedTasksOf content nowMs = []) ∧
    (∀ e ∈ (parseGradleKts content nowMs).edges,
        e.source ∈ (parseGradleKts content nowMs).nodes.map (fun n => n.id) ∧
        e.target ∈ (parseGradleKts content nowMs).nodes.map (fun n => n.id)) := by
  constructor
  · have hw : (parseGradleKts content nowMs).warnings =
        (if (parsedTasksOf content nowMs).length = 0 then
          ["No tasks found in the Gradle file. Make sure tasks use tasks.register or tasks.create syntax."]
         else []) := rfl
    rw [hw]
    by_cases h : (parsedTasksOf content nowMs).length = 0
    · rw [if_pos h]
      constructor
      · intro _
        exact List.length_eq_zero.mp h
      · intro _
        simp
    · rw [if_neg h]
      constructor
      · intro hc
        exact absurd rfl hc
      · intro he
        exact absurd (by simp [he] : (parsedTasksOf content nowMs).length = 0) h
  · intro e he
    have hedges : (parseGradleKts content nowMs).edges =
        ((parsedTasksOf content nowMs).map
          (taskEdges (jsMapBuild ((parsedTasksOf content nowMs).map
            (fun t => (t.name, t.id)))))).flatten := rfl
    have hnodes : (parseGradleKts content nowMs).nodes.map (fun n => n.id) =
        (parsedTasksOf content nowMs).map (fun t => t.id) := by
      have h1 : (parseGradleKts content nowMs).nodes =
          (parsedTasksOf content nowMs).enum.map convertNode := rfl
      rw [h1, List.map_map]
      have h2 : ((fun n : GradleTaskNode => n.id) ∘ convertNode) =
          (fun p : Nat × ParsedTask => p.2.id) := rfl
      rw [h2]
      exact enum_map_snd_f (parsedTasksOf content nowMs) (fun t => t.id)
    rw [hedges] at he
    rw [hnodes]
    obtain ⟨l, hl, hel⟩ := List.mem_flatten.mp he
    obtain ⟨t, htm, htl⟩ := List.mem_map.mp hl
    rw [← htl] at hel
    apply taskEdges_endpoints _ _ ?_ t ?_ e hel
    · intro q hq
      have hmem := mem_jsMapBuild _ q hq
      obtain ⟨t2, ht2, ht2e⟩ := List.mem_map.mp hmem
      rw [← ht2e]
      exact List.mem_map.mpr ⟨t2, ht2, rfl⟩
    · exact List.mem_map.mpr ⟨t, htm, rfl⟩

/-- Witness for the amended C4: on the resolving two-task script the edge
from task a to task b joins returned node ids. -/
theorem C4_import_warnings_and_closure_witness :
    ("task_a" : String) ∈ (parseGradleKts gradleScriptResolved "0").nodes.map
      (fun n => n.id) ∧
    ("task_b" : String) ∈ (parseGradleKts gradleScriptResolved "0").nodes.map
      (fun n => n.id) :=
  (C4_import_warnings_and_closure gradleScriptResolved "0").2
    { id := "task_a-task_b", source := "task_a", target := "task_b",
      edgeKind := some "dependency",
      data := some { dependencyType := DependencyType.dependsOn } }
    (by decide)
